import Mathlib

/-!
# Shared / weak ownership handles

A shallow embedding of `sw_fwd.h`, `shared.h` and `weak.h`.

* The free store of control blocks is a list of cells; a control-block pointer is
  `none` (null) or `some b`, the index of a cell.  `delete block_` marks the cell
  as freed; any later access through a pointer to it is undefined behaviour and is
  reported as `none` by the operation that performs it.
* The two `size_t` counters are natural numbers, incremented and decremented
  modulo `2 ^ 64`.
* Each cell carries two observation counters that the program cannot read: the number
  of `DeleteObj()` calls made on it and the number of times its payload was destroyed.
* A program state is the free store together with the live `SharedPtr` and `WeakPtr`
  objects; a temporary of an assignment or of `Reset` is a live object until the end
  of the full expression, exactly as in the source.
-/

namespace SmartPointers

variable {T : Type}

/-- The modulus of `size_t` arithmetic. -/
abbrev SIZE_MOD : Nat := 18446744073709551616

/-- Pre-increment `++x` on a `size_t`. -/
def incr (x : Nat) : Nat := (x + 1) % SIZE_MOD

/-- Pre-decrement `--x` on a `size_t`. -/
def decr (x : Nat) : Nat := (x + (SIZE_MOD - 1)) % SIZE_MOD

/-- An object address: memory obtained elsewhere, or the `storage_` member of the
control block with the given index. -/
inductive Addr where
  | external (a : Nat)
  | storage (block : Nat)
  deriving DecidableEq, Repr

/-- A `T*`: `none` is `nullptr`. -/
abbrev Ptr := Option Addr

/-- The two classes derived from `ControlBlockBase`. -/
inductive BlockKind (T : Type) where
  | pointer (ptr_ : Ptr)
  | holder (storage_ : T)
  deriving DecidableEq, Repr

/-- A control block: `ControlBlockBase` with the data of its dynamic type. -/
structure ControlBlock (T : Type) where
  sp_cnt_ref_ : Nat
  wp_cnt_ref_ : Nat
  kind : BlockKind T
  deleteObjCalls : Nat
  payloadDestroyed : Nat
  freed : Bool
  deriving DecidableEq, Repr

/-- The free store of control blocks. -/
abbrev Heap (T : Type) := List (ControlBlock T)

/-- Object of class `SharedPtr<T>`. -/
structure SharedPtr where
  ptr_ : Ptr
  block_ : Option Nat
  deriving DecidableEq, Repr

/-- Object of class `WeakPtr<T>`. -/
structure WeakPtr where
  ptr_ : Ptr
  block_ : Option Nat
  deriving DecidableEq, Repr

/-- What a call that may throw `BadWeakPtr` produces. -/
inductive Result (α : Type) where
  | value (a : α)
  | badWeakPtr
  deriving DecidableEq, Repr

/-- Constructor `ControlBlockPointer(U* ptr)`: both counters start at 0. -/
def ControlBlock.mkPointer (ptr : Ptr) : ControlBlock T :=
  { sp_cnt_ref_ := 0, wp_cnt_ref_ := 0, kind := .pointer ptr,
    deleteObjCalls := 0, payloadDestroyed := 0, freed := false }

/-- Constructor `ControlBlockHolder(Args&&...)`: the payload is built in `storage_`. -/
def ControlBlock.mkHolder (v : T) : ControlBlock T :=
  { sp_cnt_ref_ := 0, wp_cnt_ref_ := 0, kind := .holder v,
    deleteObjCalls := 0, payloadDestroyed := 0, freed := false }

/-- The block manages an object: always for a holder, and for a pointer block when
`ptr_` is not null. -/
def ControlBlock.hasPayload (c : ControlBlock T) : Bool :=
  match c.kind with
  | .pointer ptr_ => ptr_.isSome
  | .holder _ => true

/-- Virtual `DeleteObj()`: `ControlBlockPointer` deletes `ptr_` when it is not null,
`ControlBlockHolder` runs the destructor of the object in `storage_`. -/
def ControlBlock.DeleteObj (c : ControlBlock T) : ControlBlock T :=
  match c.kind with
  | .pointer ptr_ =>
    if ptr_.isSome then
      { c with deleteObjCalls := c.deleteObjCalls + 1,
               payloadDestroyed := c.payloadDestroyed + 1 }
    else
      { c with deleteObjCalls := c.deleteObjCalls + 1 }
  | .holder _ =>
    { c with deleteObjCalls := c.deleteObjCalls + 1,
             payloadDestroyed := c.payloadDestroyed + 1 }

/-- Access to `*block_`: defined only for a pointer to a cell that was not freed. -/
def Heap.load (h : Heap T) (b : Nat) : Option (ControlBlock T) :=
  match h[b]? with
  | some c => if c.freed then none else some c
  | none => none

/-- Write back `*block_`. -/
def Heap.store (h : Heap T) (b : Nat) (c : ControlBlock T) : Heap T :=
  h.set b c

/-- Allocation by `new`: the fresh block gets the next index. -/
def Heap.alloc (h : Heap T) (c : ControlBlock T) : Heap T × Nat :=
  (h ++ [c], h.length)

/-- Method `ControlBlockHolder::GetPtr()`. -/
def GetPtr (b : Nat) : Ptr := some (Addr.storage b)

namespace SharedPtr

/-- Constructors `SharedPtr()` and `SharedPtr(std::nullptr_t)`. -/
def empty : SharedPtr := { ptr_ := none, block_ := none }

/-- Constructor `SharedPtr(U* ptr)`. -/
def fromRaw (h : Heap T) (ptr : Ptr) : Heap T × SharedPtr :=
  let (h1, b) := h.alloc (ControlBlock.mkPointer ptr)
  let c : ControlBlock T := ControlBlock.mkPointer ptr
  (h1.store b { c with sp_cnt_ref_ := incr c.sp_cnt_ref_ }, { ptr_ := ptr, block_ := some b })

/-- Copy constructor `SharedPtr(const SharedPtr& other)`, also from `SharedPtr<U>`. -/
def copy (h : Heap T) (other : SharedPtr) : Option (Heap T × SharedPtr) :=
  match other.block_ with
  | some b => do
    let c ← h.load b
    pure (h.store b { c with sp_cnt_ref_ := incr c.sp_cnt_ref_ },
          { ptr_ := other.ptr_, block_ := other.block_ })
  | none => pure (h, { ptr_ := other.ptr_, block_ := other.block_ })

/-- Move constructor `SharedPtr(SharedPtr&& other)`: the new object and what is left in
`other`. -/
def move (other : SharedPtr) : SharedPtr × SharedPtr :=
  ({ ptr_ := other.ptr_, block_ := other.block_ }, { ptr_ := none, block_ := none })

/-- Aliasing constructor `SharedPtr(const SharedPtr<Y>& other, T* ptr)`. -/
def aliasing (h : Heap T) (other : SharedPtr) (ptr : Ptr) : Option (Heap T × SharedPtr) :=
  match other.block_ with
  | some b => do
    let c ← h.load b
    pure (h.store b { c with sp_cnt_ref_ := incr c.sp_cnt_ref_ },
          { ptr_ := ptr, block_ := other.block_ })
  | none => pure (h, { ptr_ := ptr, block_ := other.block_ })

/-- Promotion `explicit SharedPtr(const WeakPtr<T>& other)`. -/
def fromWeak (h : Heap T) (other : WeakPtr) : Option (Heap T × Result SharedPtr) :=
  match other.block_ with
  | some b => do
    let c ← h.load b
    if c.sp_cnt_ref_ = 0 then
      pure (h, .badWeakPtr)
    else
      pure (h.store b { c with sp_cnt_ref_ := incr c.sp_cnt_ref_ },
            .value { ptr_ := other.ptr_, block_ := other.block_ })
  | none => pure (h, .value { ptr_ := other.ptr_, block_ := other.block_ })

/-- Destructor `~SharedPtr()`. -/
def dtor (h : Heap T) (this : SharedPtr) : Option (Heap T) :=
  match this.block_ with
  | some b => do
    let c ← h.load b
    if c.sp_cnt_ref_ = 1 then
      if c.wp_cnt_ref_ = 0 then
        pure (h.store b { c.DeleteObj with freed := true })
      else
        pure (h.store b (ControlBlock.DeleteObj { c with sp_cnt_ref_ := decr c.sp_cnt_ref_ }))
    else
      pure (h.store b { c with sp_cnt_ref_ := decr c.sp_cnt_ref_ })
  | none => pure h

/-- Method `Swap(SharedPtr& other)` on two distinct objects: the new `*this` and `other`. -/
def Swap (this other : SharedPtr) : SharedPtr × SharedPtr :=
  ({ ptr_ := other.ptr_, block_ := other.block_ }, { ptr_ := this.ptr_, block_ := this.block_ })

/-- Method `Get()`. -/
def Get (this : SharedPtr) : Ptr := this.ptr_

/-- Method `GetBlock()`. -/
def GetBlock (this : SharedPtr) : Option Nat := this.block_

/-- Method `UseCount()`. -/
def UseCount (h : Heap T) (this : SharedPtr) : Option Nat :=
  match this.block_ with
  | some b => do
    let c ← h.load b
    pure c.sp_cnt_ref_
  | none => pure 0

/-- Conversion `explicit operator bool()`. -/
def toBool (this : SharedPtr) : Bool :=
  if this.ptr_.isSome then true else false

end SharedPtr

/-- Function `MakeShared<T>(args...)`, with `v` the value `T(args...)`. -/
def MakeShared (h : Heap T) (v : T) : Heap T × SharedPtr :=
  let (h1, block) := h.alloc (ControlBlock.mkHolder v)
  let c : ControlBlock T := ControlBlock.mkHolder v
  let sp : SharedPtr := { ptr_ := GetPtr block, block_ := some block }
  if sp.ptr_.isSome && sp.block_.isSome then
    (h1.store block { c with sp_cnt_ref_ := incr c.sp_cnt_ref_ }, sp)
  else
    (h1, sp)

namespace WeakPtr

/-- Constructor `WeakPtr()`. -/
def empty : WeakPtr := { ptr_ := none, block_ := none }

/-- Copy constructor `WeakPtr(const WeakPtr& other)`, also from `WeakPtr<U>`. -/
def copy (h : Heap T) (other : WeakPtr) : Option (Heap T × WeakPtr) :=
  match other.block_ with
  | some b => do
    let c ← h.load b
    pure (h.store b { c with wp_cnt_ref_ := incr c.wp_cnt_ref_ },
          { ptr_ := other.ptr_, block_ := other.block_ })
  | none => pure (h, { ptr_ := other.ptr_, block_ := other.block_ })

/-- Constructor `WeakPtr(const SharedPtr<U>& other)`. -/
def fromShared (h : Heap T) (other : SharedPtr) : Option (Heap T × WeakPtr) :=
  match other.GetBlock with
  | some b => do
    let c ← h.load b
    pure (h.store b { c with wp_cnt_ref_ := incr c.wp_cnt_ref_ },
          { ptr_ := other.Get, block_ := other.GetBlock })
  | none => pure (h, { ptr_ := other.Get, block_ := other.GetBlock })

/-- Move constructor `WeakPtr(WeakPtr&& other)`: the new object and what is left in
`other`. -/
def move (other : WeakPtr) : WeakPtr × WeakPtr :=
  ({ ptr_ := other.ptr_, block_ := other.block_ }, { ptr_ := none, block_ := none })

/-- Destructor `~WeakPtr()`. -/
def dtor (h : Heap T) (this : WeakPtr) : Option (Heap T) :=
  match this.block_ with
  | some b => do
    let c ← h.load b
    if 0 < c.sp_cnt_ref_ then
      pure (h.store b { c with wp_cnt_ref_ := decr c.wp_cnt_ref_ })
    else
      if c.wp_cnt_ref_ = 1 then
        pure (h.store b { c with freed := true })
      else
        pure (h.store b { c with wp_cnt_ref_ := decr c.wp_cnt_ref_ })
  | none => pure h

/-- Method `Reset()`: the heap afterwards and the new `*this`. -/
def Reset (h : Heap T) (this : WeakPtr) : Option (Heap T × WeakPtr) :=
  match this.block_ with
  | some b => do
    let c ← h.load b
    pure (h.store b { c with wp_cnt_ref_ := decr c.wp_cnt_ref_ },
          { ptr_ := none, block_ := none })
  | none => pure (h, { ptr_ := none, block_ := none })

/-- Method `Swap(WeakPtr& other)` on two distinct objects: the new `*this` and `other`. -/
def Swap (this other : WeakPtr) : WeakPtr × WeakPtr :=
  ({ ptr_ := other.ptr_, block_ := other.block_ }, { ptr_ := this.ptr_, block_ := this.block_ })

/-- Method `UseCount()`. -/
def UseCount (h : Heap T) (this : WeakPtr) : Option Nat :=
  match this.block_ with
  | some b => do
    let c ← h.load b
    pure c.sp_cnt_ref_
  | none => pure 0

/-- Method `Expired()`. -/
def Expired (h : Heap T) (this : WeakPtr) : Option Bool := do
  let n ← UseCount h this
  pure (n == 0)

/-- Method `Lock()`. -/
def Lock (h : Heap T) (this : WeakPtr) : Option (Heap T × Result SharedPtr) := do
  let e ← Expired h this
  if e then
    pure (h, .value SharedPtr.empty)
  else
    SharedPtr.fromWeak h this

end WeakPtr

/-- Indirection `*p` through an object pointer into block storage: the value held by
a holder block whose payload is still alive. -/
def deref (h : Heap T) (p : Ptr) : Option T :=
  match p with
  | some (Addr.storage b) =>
    match h.load b with
    | some c =>
      match c.kind with
      | .holder v => if c.payloadDestroyed = 0 then some v else none
      | .pointer _ => none
    | none => none
  | _ => none

/-! ## Program states -/

/-- Why a run stops: an operation named an object that does not exist, or the code
performed an access that C++ leaves undefined. -/
inductive Fault where
  | noSuchObject
  | undefinedBehaviour
  deriving DecidableEq, Repr

/-- The free store, the live `SharedPtr` objects, the live `WeakPtr` objects, and the
number of `BadWeakPtr` exceptions raised so far. -/
structure State (T : Type) where
  heap : Heap T
  shared : List SharedPtr
  weak : List WeakPtr
  thrown : Nat
  deriving DecidableEq, Repr

/-- Number of entries of a list of control-block pointers that point to block `b`. -/
def refCount (bs : List (Option Nat)) (b : Nat) : Nat :=
  bs.count (some b)

namespace State

/-- The empty program state. -/
def init : State T := { heap := [], shared := [], weak := [], thrown := 0 }

/-- Number of live `SharedPtr` objects whose `block_` is block `b`. -/
def owners (s : State T) (b : Nat) : Nat :=
  refCount (s.shared.map SharedPtr.block_) b

/-- Number of live `WeakPtr` objects whose `block_` is block `b`. -/
def observers (s : State T) (b : Nat) : Nat :=
  refCount (s.weak.map WeakPtr.block_) b

/-- Declare `SharedPtr x;`. -/
def sharedDefault (s : State T) : Except Fault (State T) :=
  .ok { s with shared := s.shared ++ [SharedPtr.empty] }

/-- Declare `SharedPtr x(ptr);`. -/
def sharedFromRaw (s : State T) (ptr : Ptr) : Except Fault (State T) :=
  match SharedPtr.fromRaw s.heap ptr with
  | (h, x) => .ok { s with heap := h, shared := s.shared ++ [x] }

/-- Declare `SharedPtr x = MakeShared<T>(args...);`. -/
def makeShared (s : State T) (v : T) : Except Fault (State T) :=
  match MakeShared s.heap v with
  | (h, x) => .ok { s with heap := h, shared := s.shared ++ [x] }

/-- Declare `SharedPtr x(shared[i]);`. -/
def sharedCopy (s : State T) (i : Nat) : Except Fault (State T) :=
  match s.shared[i]? with
  | none => .error .noSuchObject
  | some other =>
    match SharedPtr.copy s.heap other with
    | none => .error .undefinedBehaviour
    | some (h, x) => .ok { s with heap := h, shared := s.shared ++ [x] }

/-- Declare `SharedPtr x(std::move(shared[i]));`. -/
def sharedMove (s : State T) (i : Nat) : Except Fault (State T) :=
  match s.shared[i]? with
  | none => .error .noSuchObject
  | some other =>
    match SharedPtr.move other with
    | (x, other') => .ok { s with shared := s.shared.set i other' ++ [x] }

/-- Declare `SharedPtr x(shared[i], ptr);`. -/
def sharedAliasing (s : State T) (i : Nat) (ptr : Ptr) : Except Fault (State T) :=
  match s.shared[i]? with
  | none => .error .noSuchObject
  | some other =>
    match SharedPtr.aliasing s.heap other ptr with
    | none => .error .undefinedBehaviour
    | some (h, x) => .ok { s with heap := h, shared := s.shared ++ [x] }

/-- Declare `SharedPtr x(weak[j]);`: when the constructor throws, no object comes
into being and the exception is counted. -/
def sharedFromWeak (s : State T) (j : Nat) : Except Fault (State T) :=
  match s.weak[j]? with
  | none => .error .noSuchObject
  | some other =>
    match SharedPtr.fromWeak s.heap other with
    | none => .error .undefinedBehaviour
    | some (h, .value x) => .ok { s with heap := h, shared := s.shared ++ [x] }
    | some (h, .badWeakPtr) => .ok { s with heap := h, thrown := s.thrown + 1 }

/-- End of the lifetime of `shared[i]`. -/
def sharedDtor (s : State T) (i : Nat) : Except Fault (State T) :=
  match s.shared[i]? with
  | none => .error .noSuchObject
  | some this =>
    match SharedPtr.dtor s.heap this with
    | none => .error .undefinedBehaviour
    | some h => .ok { s with heap := h, shared := s.shared.eraseIdx i }

/-- The call `shared[i].Swap(shared[j])`. -/
def sharedSwap (s : State T) (i j : Nat) : Except Fault (State T) :=
  match s.shared[i]?, s.shared[j]? with
  | some this, some other =>
    match SharedPtr.Swap this other with
    | (this', other') => .ok { s with shared := (s.shared.set i this').set j other' }
  | _, _ => .error .noSuchObject

/-- The assignment `shared[i] = shared[j]`: `SharedPtr(other).Swap(*this)`, then the
temporary dies. -/
def sharedAssign (s : State T) (i j : Nat) : Except Fault (State T) := do
  let s1 ← s.sharedCopy j
  let s2 ← s1.sharedSwap s.shared.length i
  s2.sharedDtor s.shared.length

/-- The assignment `shared[i] = std::move(shared[j])`. -/
def sharedMoveAssign (s : State T) (i j : Nat) : Except Fault (State T) := do
  let s1 ← s.sharedMove j
  let s2 ← s1.sharedSwap s.shared.length i
  s2.sharedDtor s.shared.length

/-- The call `shared[i].Reset()`: `SharedPtr().Swap(*this)`, then the temporary dies. -/
def sharedReset (s : State T) (i : Nat) : Except Fault (State T) := do
  let s1 ← s.sharedDefault
  let s2 ← s1.sharedSwap s.shared.length i
  s2.sharedDtor s.shared.length

/-- The call `shared[i].Reset(ptr)`. -/
def sharedResetPtr (s : State T) (i : Nat) (ptr : Ptr) : Except Fault (State T) := do
  let s1 ← s.sharedFromRaw ptr
  let s2 ← s1.sharedSwap s.shared.length i
  s2.sharedDtor s.shared.length

/-- Declare `WeakPtr w;`. -/
def weakDefault (s : State T) : Except Fault (State T) :=
  .ok { s with weak := s.weak ++ [WeakPtr.empty] }

/-- Declare `WeakPtr w(weak[j]);`. -/
def weakCopy (s : State T) (j : Nat) : Except Fault (State T) :=
  match s.weak[j]? with
  | none => .error .noSuchObject
  | some other =>
    match WeakPtr.copy s.heap other with
    | none => .error .undefinedBehaviour
    | some (h, w) => .ok { s with heap := h, weak := s.weak ++ [w] }

/-- Declare `WeakPtr w(shared[i]);`. -/
def weakFromShared (s : State T) (i : Nat) : Except Fault (State T) :=
  match s.shared[i]? with
  | none => .error .noSuchObject
  | some other =>
    match WeakPtr.fromShared s.heap other with
    | none => .error .undefinedBehaviour
    | some (h, w) => .ok { s with heap := h, weak := s.weak ++ [w] }

/-- Declare `WeakPtr w(std::move(weak[j]));`. -/
def weakMove (s : State T) (j : Nat) : Except Fault (State T) :=
  match s.weak[j]? with
  | none => .error .noSuchObject
  | some other =>
    match WeakPtr.move other with
    | (w, other') => .ok { s with weak := s.weak.set j other' ++ [w] }

/-- End of the lifetime of `weak[j]`. -/
def weakDtor (s : State T) (j : Nat) : Except Fault (State T) :=
  match s.weak[j]? with
  | none => .error .noSuchObject
  | some this =>
    match WeakPtr.dtor s.heap this with
    | none => .error .undefinedBehaviour
    | some h => .ok { s with heap := h, weak := s.weak.eraseIdx j }

/-- The call `weak[j].Reset()`. -/
def weakReset (s : State T) (j : Nat) : Except Fault (State T) :=
  match s.weak[j]? with
  | none => .error .noSuchObject
  | some this =>
    match WeakPtr.Reset s.heap this with
    | none => .error .undefinedBehaviour
    | some (h, this') => .ok { s with heap := h, weak := s.weak.set j this' }

/-- The call `weak[j].Swap(weak[k])`. -/
def weakSwap (s : State T) (j k : Nat) : Except Fault (State T) :=
  match s.weak[j]?, s.weak[k]? with
  | some this, some other =>
    match WeakPtr.Swap this other with
    | (this', other') => .ok { s with weak := (s.weak.set j this').set k other' }
  | _, _ => .error .noSuchObject

/-- The assignment `weak[j] = weak[k]`: `WeakPtr<T>(other).Swap(*this)`, then the
temporary dies. -/
def weakAssign (s : State T) (j k : Nat) : Except Fault (State T) := do
  let s1 ← s.weakCopy k
  let s2 ← s1.weakSwap s.weak.length j
  s2.weakDtor s.weak.length

/-- The assignment `weak[j] = shared[i]`. -/
def weakAssignShared (s : State T) (j i : Nat) : Except Fault (State T) := do
  let s1 ← s.weakFromShared i
  let s2 ← s1.weakSwap s.weak.length j
  s2.weakDtor s.weak.length

/-- The assignment `weak[j] = std::move(weak[k])`. -/
def weakMoveAssign (s : State T) (j k : Nat) : Except Fault (State T) := do
  let s1 ← s.weakMove k
  let s2 ← s1.weakSwap s.weak.length j
  s2.weakDtor s.weak.length

/-- Declare `SharedPtr x = weak[j].Lock();`. -/
def weakLock (s : State T) (j : Nat) : Except Fault (State T) :=
  match s.weak[j]? with
  | none => .error .noSuchObject
  | some this =>
    match WeakPtr.Lock s.heap this with
    | none => .error .undefinedBehaviour
    | some (h, .value x) => .ok { s with heap := h, shared := s.shared ++ [x] }
    | some (h, .badWeakPtr) => .ok { s with heap := h, thrown := s.thrown + 1 }

end State

/-- The public operations of `SharedPtr`, `WeakPtr` and `MakeShared`, applied to the
live objects of a program state; objects are named by their position. -/
inductive Op (T : Type) where
  | sharedDefault
  | sharedFromRaw (ptr : Ptr)
  | makeShared (v : T)
  | sharedCopy (i : Nat)
  | sharedMove (i : Nat)
  | sharedAliasing (i : Nat) (ptr : Ptr)
  | sharedFromWeak (j : Nat)
  | sharedAssign (i j : Nat)
  | sharedMoveAssign (i j : Nat)
  | sharedDtor (i : Nat)
  | sharedReset (i : Nat)
  | sharedResetPtr (i : Nat) (ptr : Ptr)
  | sharedSwap (i j : Nat)
  | weakDefault
  | weakCopy (j : Nat)
  | weakFromShared (i : Nat)
  | weakMove (j : Nat)
  | weakAssign (j k : Nat)
  | weakAssignShared (j i : Nat)
  | weakMoveAssign (j k : Nat)
  | weakDtor (j : Nat)
  | weakReset (j : Nat)
  | weakSwap (j k : Nat)
  | weakLock (j : Nat)
  deriving DecidableEq, Repr

/-- One operation. -/
def step (s : State T) : Op T → Except Fault (State T)
  | .sharedDefault => s.sharedDefault
  | .sharedFromRaw ptr => s.sharedFromRaw ptr
  | .makeShared v => s.makeShared v
  | .sharedCopy i => s.sharedCopy i
  | .sharedMove i => s.sharedMove i
  | .sharedAliasing i ptr => s.sharedAliasing i ptr
  | .sharedFromWeak j => s.sharedFromWeak j
  | .sharedAssign i j => s.sharedAssign i j
  | .sharedMoveAssign i j => s.sharedMoveAssign i j
  | .sharedDtor i => s.sharedDtor i
  | .sharedReset i => s.sharedReset i
  | .sharedResetPtr i ptr => s.sharedResetPtr i ptr
  | .sharedSwap i j => s.sharedSwap i j
  | .weakDefault => s.weakDefault
  | .weakCopy j => s.weakCopy j
  | .weakFromShared i => s.weakFromShared i
  | .weakMove j => s.weakMove j
  | .weakAssign j k => s.weakAssign j k
  | .weakAssignShared j i => s.weakAssignShared j i
  | .weakMoveAssign j k => s.weakMoveAssign j k
  | .weakDtor j => s.weakDtor j
  | .weakReset j => s.weakReset j
  | .weakSwap j k => s.weakSwap j k
  | .weakLock j => s.weakLock j

/-- A sequence of operations, stopping at the first fault. -/
def run (s : State T) : List (Op T) → Except Fault (State T)
  | [] => .ok s
  | op :: ops =>
    match step s op with
    | .ok s' => run s' ops
    | .error e => .error e

/-- The counters can take one more object of each kind: a handle occupies storage, so a
machine whose `size_t` has 64 bits never holds `2 ^ 64` of them. -/
def Fits (s : State T) : Prop :=
  s.shared.length + 1 < SIZE_MOD ∧ s.weak.length + 1 < SIZE_MOD

instance (s : State T) : Decidable (Fits s) :=
  inferInstanceAs (Decidable (s.shared.length + 1 < SIZE_MOD ∧ s.weak.length + 1 < SIZE_MOD))

/-- States a program can be in: from the empty state by the public operations. -/
inductive Reachable : State T → Prop where
  | init : Reachable State.init
  | step {s s' : State T} (op : Op T) :
      Reachable s → Fits s → step s op = .ok s' → Reachable s'

/-- A sequence of operations from a state, each started in a state that `Fits`; `none`
when a fault stops it or a state does not fit. -/
def runChecked (s : State T) : List (Op T) → Option (State T)
  | [] => some s
  | op :: ops =>
    if Fits s then
      match step s op with
      | .ok s' => runChecked s' ops
      | .error _ => none
    else none

/-- Scenario: `A = MakeShared<int>(42); WeakPtr W(A);` and then `A` is destroyed. -/
def expiredScenario : List (Op Nat) :=
  [.makeShared 42, .weakFromShared 0, .sharedDtor 0]

/-- The control block after `expiredScenario`. -/
def expiredBlock : ControlBlock Nat :=
  { sp_cnt_ref_ := 0, wp_cnt_ref_ := 1, kind := .holder 42,
    deleteObjCalls := 1, payloadDestroyed := 1, freed := false }

/-- The state after `expiredScenario`. -/
def expiredState : State Nat :=
  { heap := [expiredBlock],
    shared := [],
    weak := [{ ptr_ := some (Addr.storage 0), block_ := some 0 }],
    thrown := 0 }

/-- Scenario: `A = MakeShared<int>(7); WeakPtr W(A);`. -/
def liveScenario : List (Op Nat) :=
  [.makeShared 7, .weakFromShared 0]

/-- The state after `liveScenario`. -/
def liveState : State Nat :=
  { heap := [{ sp_cnt_ref_ := 1, wp_cnt_ref_ := 1, kind := .holder 7,
               deleteObjCalls := 0, payloadDestroyed := 0, freed := false }],
    shared := [{ ptr_ := some (Addr.storage 0), block_ := some 0 }],
    weak := [{ ptr_ := some (Addr.storage 0), block_ := some 0 }],
    thrown := 0 }

/-- Scenario: `A = MakeShared<int>(7); WeakPtr W(A); B = W.Lock();`. -/
def lockScenario : List (Op Nat) :=
  [.makeShared 7, .weakFromShared 0, .weakLock 0]

/-- The state after `lockScenario`. -/
def lockedState : State Nat :=
  { heap := [{ sp_cnt_ref_ := 2, wp_cnt_ref_ := 1, kind := .holder 7,
               deleteObjCalls := 0, payloadDestroyed := 0, freed := false }],
    shared := [{ ptr_ := some (Addr.storage 0), block_ := some 0 },
               { ptr_ := some (Addr.storage 0), block_ := some 0 }],
    weak := [{ ptr_ := some (Addr.storage 0), block_ := some 0 }],
    thrown := 0 }

/-- Scenario: `A = MakeShared<int>(7);`, a handle with `UseCount() == 1`. -/
def soleScenario : List (Op Nat) :=
  [.makeShared 7]

/-- The state after `soleScenario`. -/
def soleState : State Nat :=
  { heap := [{ sp_cnt_ref_ := 1, wp_cnt_ref_ := 0, kind := .holder 7,
               deleteObjCalls := 0, payloadDestroyed := 0, freed := false }],
    shared := [{ ptr_ := some (Addr.storage 0), block_ := some 0 }],
    weak := [],
    thrown := 0 }

/-- Scenario: `A = MakeShared<int>(1); B = MakeShared<int>(2);`. -/
def twoScenario : List (Op Nat) :=
  [.makeShared 1, .makeShared 2]

/-- The state after `twoScenario`. -/
def twoState : State Nat :=
  { heap := [{ sp_cnt_ref_ := 1, wp_cnt_ref_ := 0, kind := .holder 1,
               deleteObjCalls := 0, payloadDestroyed := 0, freed := false },
             { sp_cnt_ref_ := 1, wp_cnt_ref_ := 0, kind := .holder 2,
               deleteObjCalls := 0, payloadDestroyed := 0, freed := false }],
    shared := [{ ptr_ := some (Addr.storage 0), block_ := some 0 },
               { ptr_ := some (Addr.storage 1), block_ := some 1 }],
    weak := [],
    thrown := 0 }

/-- The operation is a destructor call. -/
def Op.isDtor : Op T → Bool
  | .sharedDtor _ => true
  | .weakDtor _ => true
  | _ => false

/-- Block `b` is freed once no live object points to it. -/
def State.Released (s : State T) (b : Nat) : Prop :=
  ∀ c, s.heap[b]? = some c → s.owners b + s.observers b = 0 → c.freed = true

/-- What must hold of block `c` when `ns` live `SharedPtr` and `nw` live `WeakPtr`
objects point to it. -/
structure BlockOk (c : ControlBlock T) (ns nw : Nat) : Prop where
  calls : c.deleteObjCalls = if ns = 0 then 1 else 0
  payload : c.payloadDestroyed = if c.hasPayload then c.deleteObjCalls else 0
  live : c.freed = false → c.sp_cnt_ref_ = ns ∧ c.wp_cnt_ref_ = nw
  dead : c.freed = true → ns = 0 ∧ nw = 0

/-- The invariant of reachable states. -/
structure Inv (s : State T) : Prop where
  sharedBound : s.shared.length < SIZE_MOD
  weakBound : s.weak.length < SIZE_MOD
  dangling : ∀ b, s.heap.length ≤ b → s.owners b = 0 ∧ s.observers b = 0
  blocks : ∀ b c, s.heap[b]? = some c → BlockOk c (s.owners b) (s.observers b)

/-! ## `Reset` in the words of the specification -/

/-- The call `shared[i].Reset()` as the specification words it: release the current
ownership as the destructor would, and leave the handle empty. -/
def State.sharedResetSpec (s : State T) (i : Nat) : Except Fault (State T) :=
  match s.shared[i]? with
  | none => .error .noSuchObject
  | some this =>
    match SharedPtr.dtor s.heap this with
    | none => .error .undefinedBehaviour
    | some h => .ok { s with heap := h, shared := s.shared.set i SharedPtr.empty }

/-- The call `shared[i].Reset(ptr)` as the specification words it: release the current
ownership as the destructor would, then take ownership of `ptr` as construction from a
raw pointer does. -/
def State.sharedResetPtrSpec (s : State T) (i : Nat) (ptr : Ptr) : Except Fault (State T) :=
  match s.shared[i]? with
  | none => .error .noSuchObject
  | some this =>
    match SharedPtr.dtor s.heap this with
    | none => .error .undefinedBehaviour
    | some h =>
      match SharedPtr.fromRaw h ptr with
      | (h', x) => .ok { s with heap := h', shared := s.shared.set i x }

/-! ## Consistency of the two pointers of a handle -/

/-- Object pointer and control-block pointer are both null or both non-null. -/
def SharedPtr.paired (x : SharedPtr) : Bool :=
  x.ptr_.isSome == x.block_.isSome

/-- Object pointer and control-block pointer are both null or both non-null. -/
def WeakPtr.paired (w : WeakPtr) : Bool :=
  w.ptr_.isSome == w.block_.isSome

/-- Every live handle has both pointers null or both non-null. -/
def State.Paired (s : State T) : Prop :=
  (∀ x ∈ s.shared, x.paired = true) ∧ (∀ w ∈ s.weak, w.paired = true)

/-- The object pointer the caller hands over agrees with the control block the new
handle gets: a raw pointer given to `SharedPtr(U*)` or `Reset(U*)` is not null, and the
pointer given to the aliasing constructor is null exactly when the owner is empty. -/
def Op.keepsPairing (s : State T) : Op T → Bool
  | .sharedFromRaw ptr => ptr.isSome
  | .sharedResetPtr _ ptr => ptr.isSome
  | .sharedAliasing i ptr =>
    match s.shared[i]? with
    | some x => ptr.isSome == x.block_.isSome
    | none => true
  | _ => true

/-- States reached from the empty state by public operations whose pointer arguments
satisfy `Op.keepsPairing`. -/
inductive PairedReachable : State T → Prop where
  | init : PairedReachable State.init
  | step {s s' : State T} (op : Op T) :
      PairedReachable s → op.keepsPairing s = true → step s op = .ok s' →
      PairedReachable s'

/-- Scenario: `SharedPtr<int> x(static_cast<int*>(nullptr));`. -/
def nullRawScenario : List (Op Nat) :=
  [.sharedFromRaw none]

/-- Scenario: `SharedPtr<int> e; SharedPtr<int> x(e, p);` with `p` not null. -/
def aliasEmptyScenario : List (Op Nat) :=
  [.sharedDefault, .sharedAliasing 0 (some (Addr.external 5))]

/-! ## Which operations touch which counter -/

/-- The operations of `WeakPtr` other than `Lock()`: construction (default, copy, move,
from a `SharedPtr`), the assignments, `Reset()`, `Swap` and destruction. -/
def Op.isWeakOp : Op T → Bool
  | .weakDefault => true
  | .weakCopy _ => true
  | .weakFromShared _ => true
  | .weakMove _ => true
  | .weakAssign _ _ => true
  | .weakAssignShared _ _ => true
  | .weakMoveAssign _ _ => true
  | .weakDtor _ => true
  | .weakReset _ => true
  | .weakSwap _ _ => true
  | _ => false

/-- The operations `SharedPtr` copy, move, aliasing construction and `Swap`. -/
def Op.isSharedCopyMoveSwap : Op T → Bool
  | .sharedCopy _ => true
  | .sharedMove _ => true
  | .sharedAliasing _ _ => true
  | .sharedSwap _ _ => true
  | _ => false

/-- The operation has a `WeakPtr` as operand. -/
def Op.hasWeakOperand : Op T → Bool
  | .sharedFromWeak _ => true
  | .weakLock _ => true
  | op => op.isWeakOp

/-- The strong side of a block: the strong count, the number of `DeleteObj()` calls and
the number of destructions of the payload. -/
def ControlBlock.strongPart (c : ControlBlock T) : Nat × Nat × Nat :=
  (c.sp_cnt_ref_, c.deleteObjCalls, c.payloadDestroyed)

/-- The weak side of a block: the weak count. -/
def ControlBlock.weakPart (c : ControlBlock T) : Nat :=
  c.wp_cnt_ref_

/-! ## Exclusive ownership (`unique.h`) -/

/-- Object of class `UniquePtr<T, Deleter>`: the member `data_` and the deleter kept in
the base class `CompressedPairElement<Deleter, 0>`. -/
structure UniquePtr (D : Type) where
  data_ : Ptr
  deleter : D
  deriving DecidableEq, Repr

/-- The addresses that were passed to `delete`, oldest first. -/
abbrev Disposed := List Addr

namespace UniquePtr

variable {D : Type}

/-- Constructor `UniquePtr(T* ptr, D&& deleter)`; `UniquePtr(T* ptr)` and `UniquePtr()`
are the cases of a default-constructed deleter and of a null `ptr`. -/
def ofPtr (ptr : Ptr) (deleter : D) : UniquePtr D :=
  { data_ := ptr, deleter := deleter }

/-- Method `Release()`: the disposed addresses, the returned pointer and the new
`*this`. -/
def Release (m : Disposed) (this : UniquePtr D) : Disposed × Ptr × UniquePtr D :=
  let copy : Ptr := none
  let swapped : Ptr × Ptr := (this.data_, copy)
  (m, swapped.1, { this with data_ := swapped.2 })

/-- Move constructor `UniquePtr(UniquePtr&& other)`: the disposed addresses, the new
object and what is left in `other`. -/
def moveCtor (m : Disposed) (other : UniquePtr D) : Disposed × UniquePtr D × UniquePtr D :=
  match other.Release m with
  | (m1, p, other1) => (m1, { data_ := p, deleter := other1.deleter }, other1)

/-- Method `Reset(T* ptr = nullptr)`: the disposed addresses and the new `*this`. -/
def Reset (m : Disposed) (this : UniquePtr D) (ptr : Ptr) : Disposed × UniquePtr D :=
  let old_prt := this.data_
  let this1 : UniquePtr D := { this with data_ := ptr }
  match old_prt with
  | some a => (m ++ [a], this1)
  | none => (m, this1)

/-- Method `Get()`. -/
def Get (this : UniquePtr D) : Ptr := this.data_

/-- Conversion `explicit operator bool()`. -/
def toBool (this : UniquePtr D) : Bool := this.data_ != none

end UniquePtr

/-! ## Arithmetic of the counters -/

theorem incr_of_lt {x : Nat} (h : x + 1 < SIZE_MOD) : incr x = x + 1 := by
  unfold incr SIZE_MOD at *; omega

theorem decr_of_pos {x : Nat} (h0 : 0 < x) (h : x < SIZE_MOD) : decr x = x - 1 := by
  unfold decr SIZE_MOD at *; omega

/-! ## Sequencing -/

theorem bind_eq_ok {α β : Type} {x : Except Fault α} {f : α → Except Fault β} {b : β} :
    (x >>= f) = .ok b ↔ ∃ a, x = .ok a ∧ f a = .ok b := by
  cases x with
  | error e => simp [bind, Except.bind]
  | ok a => simp [bind, Except.bind]

/-! ## Counting references -/

theorem refCount_nil (b : Nat) : refCount [] b = 0 := by
  simp [refCount]

theorem refCount_cons (x : Option Nat) (l : List (Option Nat)) (b : Nat) :
    refCount (x :: l) b = refCount l b + (if x = some b then 1 else 0) := by
  simp [refCount, List.count_cons]

theorem refCount_append (l l' : List (Option Nat)) (b : Nat) :
    refCount (l ++ l') b = refCount l b + refCount l' b := by
  simp [refCount]

theorem refCount_singleton (x : Option Nat) (b : Nat) :
    refCount [x] b = if x = some b then 1 else 0 := by
  simp [refCount_cons, refCount_nil]

theorem refCount_le_length (l : List (Option Nat)) (b : Nat) :
    refCount l b ≤ l.length := by
  simp [refCount, List.count_le_length]

theorem refCount_set {l : List (Option Nat)} {i : Nat} {x : Option Nat}
    (hx : l[i]? = some x) (y : Option Nat) (b : Nat) :
    refCount (l.set i y) b + (if x = some b then 1 else 0)
      = refCount l b + (if y = some b then 1 else 0) := by
  induction l generalizing i with
  | nil => simp at hx
  | cons a l ih =>
    cases i with
    | zero =>
      simp at hx
      subst hx
      simp [refCount_cons]
      omega
    | succ i =>
      simp at hx
      have := ih hx
      simp [refCount_cons]
      omega

theorem refCount_eraseIdx {l : List (Option Nat)} {i : Nat} {x : Option Nat}
    (hx : l[i]? = some x) (b : Nat) :
    refCount (l.eraseIdx i) b + (if x = some b then 1 else 0) = refCount l b := by
  induction l generalizing i with
  | nil => simp at hx
  | cons a l ih =>
    cases i with
    | zero =>
      simp at hx
      subst hx
      simp [refCount_cons]
    | succ i =>
      simp at hx
      have := ih hx
      simp [refCount_cons]
      omega

theorem refCount_pos_of_mem {l : List (Option Nat)} {b : Nat} (h : some b ∈ l) :
    0 < refCount l b := by
  simpa [refCount] using List.count_pos_iff.mpr h

theorem mem_of_refCount_pos {l : List (Option Nat)} {b : Nat} (h : 0 < refCount l b) :
    some b ∈ l := by
  simpa [refCount] using List.count_pos_iff.mp h

theorem refCount_pos_of_getElem? {l : List (Option Nat)} {i b : Nat}
    (h : l[i]? = some (some b)) : 0 < refCount l b :=
  refCount_pos_of_mem (List.getElem?_mem h)

/-! ## The free store -/

theorem load_eq_some {h : Heap T} {b : Nat} {c : ControlBlock T} :
    h.load b = some c ↔ h[b]? = some c ∧ c.freed = false := by
  unfold Heap.load
  cases hb : h[b]? with
  | none => simp
  | some d =>
    by_cases hf : d.freed = true
    · simp [hf]
      intro hdc
      subst hdc
      simp [hf]
    · simp [hf]
      intro hdc
      subst hdc
      simpa using hf

theorem store_length (h : Heap T) (b : Nat) (c : ControlBlock T) :
    (h.store b c).length = h.length := by
  simp [Heap.store]

theorem store_getElem?_same {h : Heap T} {b : Nat} (c : ControlBlock T) (hb : b < h.length) :
    (h.store b c)[b]? = some c := by
  simp [Heap.store, hb]

theorem store_getElem?_other {h : Heap T} {b b' : Nat} (c : ControlBlock T) (hb : b ≠ b') :
    (h.store b c)[b']? = h[b']? := by
  simp [Heap.store, hb]

theorem alloc_store (h : Heap T) (c c' : ControlBlock T) :
    Heap.store (h ++ [c]) h.length c' = h ++ [c'] := by
  simp [Heap.store]

theorem owners_le (s : State T) (b : Nat) : s.owners b ≤ s.shared.length := by
  have := refCount_le_length (s.shared.map SharedPtr.block_) b
  simpa [State.owners] using this

theorem observers_le (s : State T) (b : Nat) : s.observers b ≤ s.weak.length := by
  have := refCount_le_length (s.weak.map WeakPtr.block_) b
  simpa [State.observers] using this

theorem owners_pos {s : State T} {i b : Nat} {x : SharedPtr}
    (hx : s.shared[i]? = some x) (hb : x.block_ = some b) : 0 < s.owners b := by
  apply refCount_pos_of_getElem? (i := i)
  simp [hx, hb]

theorem observers_pos {s : State T} {j b : Nat} {w : WeakPtr}
    (hw : s.weak[j]? = some w) (hb : w.block_ = some b) : 0 < s.observers b := by
  apply refCount_pos_of_getElem? (i := j)
  simp [hw, hb]

/-! ## Re-establishing the invariant -/

theorem Inv.of_same_heap {s s' : State T} (hs : Inv s) (hheap : s'.heap = s.heap)
    (hsb : s'.shared.length < SIZE_MOD) (hwb : s'.weak.length < SIZE_MOD)
    (hcnt : ∀ b, s'.owners b = s.owners b ∧ s'.observers b = s.observers b) : Inv s' := by
  refine ⟨hsb, hwb, ?_, ?_⟩
  · intro b hb
    rw [(hcnt b).1, (hcnt b).2]
    exact hs.dangling b (by rw [hheap] at hb; exact hb)
  · intro b c hc
    rw [(hcnt b).1, (hcnt b).2]
    exact hs.blocks b c (by rw [hheap] at hc; exact hc)

theorem Inv.of_store {s s' : State T} (hs : Inv s) {b0 : Nat} {c0 c0' : ControlBlock T}
    (hget : s.heap[b0]? = some c0) (hheap : s'.heap = s.heap.store b0 c0')
    (hsb : s'.shared.length < SIZE_MOD) (hwb : s'.weak.length < SIZE_MOD)
    (hother : ∀ b, b ≠ b0 → s'.owners b = s.owners b ∧ s'.observers b = s.observers b)
    (hb0 : BlockOk c0' (s'.owners b0) (s'.observers b0)) : Inv s' := by
  have hlt : b0 < s.heap.length := by
    obtain ⟨h, _⟩ := List.getElem?_eq_some.mp hget
    exact h
  refine ⟨hsb, hwb, ?_, ?_⟩
  · intro b hb
    rw [hheap, store_length] at hb
    have hne : b ≠ b0 := by omega
    rw [(hother b hne).1, (hother b hne).2]
    exact hs.dangling b hb
  · intro b c hc
    by_cases hne : b = b0
    · subst hne
      rw [hheap, store_getElem?_same _ hlt] at hc
      cases hc
      exact hb0
    · rw [hheap, store_getElem?_other _ (Ne.symm hne)] at hc
      rw [(hother b hne).1, (hother b hne).2]
      exact hs.blocks b c hc

theorem Inv.of_alloc {s s' : State T} (hs : Inv s) {c : ControlBlock T}
    (hheap : s'.heap = s.heap ++ [c])
    (hsb : s'.shared.length < SIZE_MOD) (hwb : s'.weak.length < SIZE_MOD)
    (hother : ∀ b, b ≠ s.heap.length →
      s'.owners b = s.owners b ∧ s'.observers b = s.observers b)
    (hnew : BlockOk c (s'.owners s.heap.length) (s'.observers s.heap.length)) : Inv s' := by
  refine ⟨hsb, hwb, ?_, ?_⟩
  · intro b hb
    rw [hheap] at hb
    simp at hb
    have hne : b ≠ s.heap.length := by omega
    rw [(hother b hne).1, (hother b hne).2]
    exact hs.dangling b (by omega)
  · intro b c' hc
    by_cases hne : b = s.heap.length
    · subst hne
      rw [hheap] at hc
      simp at hc
      subst hc
      exact hnew
    · rw [(hother b hne).1, (hother b hne).2]
      apply hs.blocks b c'
      rw [hheap] at hc
      by_cases hlt : b < s.heap.length
      · rw [List.getElem?_append_left hlt] at hc
        exact hc
      · have : s.heap.length + 1 ≤ b := by omega
        rw [List.getElem?_eq_none (by simp; omega)] at hc
        cases hc

/-- A live object that points to a block: the block is in the store and not freed. -/
theorem Inv.load_of_owner {s : State T} (hs : Inv s) {b : Nat} (hpos : 0 < s.owners b) :
    ∃ c, s.heap.load b = some c ∧ s.heap[b]? = some c ∧ c.freed = false ∧
      c.sp_cnt_ref_ = s.owners b ∧ c.wp_cnt_ref_ = s.observers b := by
  have hlt : b < s.heap.length := by
    by_contra hge
    have := (hs.dangling b (by omega)).1
    omega
  have hget : s.heap[b]? = some s.heap[b] := List.getElem?_eq_getElem hlt
  have hok := hs.blocks b _ hget
  have hfree : (s.heap[b]).freed = false := by
    by_contra hf
    have := (hok.dead (by simpa using hf)).1
    omega
  exact ⟨_, load_eq_some.mpr ⟨hget, hfree⟩, hget, hfree, hok.live hfree⟩

theorem Inv.load_of_observer {s : State T} (hs : Inv s) {b : Nat} (hpos : 0 < s.observers b) :
    ∃ c, s.heap.load b = some c ∧ s.heap[b]? = some c ∧ c.freed = false ∧
      c.sp_cnt_ref_ = s.owners b ∧ c.wp_cnt_ref_ = s.observers b := by
  have hlt : b < s.heap.length := by
    by_contra hge
    have := (hs.dangling b (by omega)).2
    omega
  have hget : s.heap[b]? = some s.heap[b] := List.getElem?_eq_getElem hlt
  have hok := hs.blocks b _ hget
  have hfree : (s.heap[b]).freed = false := by
    by_contra hf
    have := (hok.dead (by simpa using hf)).2
    omega
  exact ⟨_, load_eq_some.mpr ⟨hget, hfree⟩, hget, hfree, hok.live hfree⟩

theorem Inv.init : Inv (State.init : State T) := by
  refine ⟨by simp [State.init], by simp [State.init], ?_, ?_⟩
  · intro b _
    simp [State.init, State.owners, State.observers, refCount_nil]
  · intro b c hc
    simp [State.init] at hc

theorem map_eraseIdx {α β : Type} (f : α → β) (l : List α) (i : Nat) :
    (l.eraseIdx i).map f = (l.map f).eraseIdx i := by
  induction l generalizing i with
  | nil => simp
  | cons a l ih =>
    cases i with
    | zero => simp
    | succ i => simp [ih]

theorem owners_append {s t : State T} {x : SharedPtr} (hsh : t.shared = s.shared ++ [x])
    (b : Nat) : t.owners b = s.owners b + (if x.block_ = some b then 1 else 0) := by
  simp [State.owners, hsh, refCount_append, refCount_singleton]

theorem owners_set {s t : State T} {i : Nat} {x y : SharedPtr}
    (hsh : t.shared = s.shared.set i y) (hx : s.shared[i]? = some x) (b : Nat) :
    t.owners b + (if x.block_ = some b then 1 else 0)
      = s.owners b + (if y.block_ = some b then 1 else 0) := by
  have := refCount_set (l := s.shared.map SharedPtr.block_) (i := i) (x := x.block_)
    (by simp [hx]) y.block_ b
  simpa [State.owners, hsh] using this

theorem owners_eraseIdx {s t : State T} {i : Nat} {x : SharedPtr}
    (hsh : t.shared = s.shared.eraseIdx i) (hx : s.shared[i]? = some x) (b : Nat) :
    t.owners b + (if x.block_ = some b then 1 else 0) = s.owners b := by
  have := refCount_eraseIdx (l := s.shared.map SharedPtr.block_) (i := i) (x := x.block_)
    (by simp [hx]) b
  simpa [State.owners, hsh, map_eraseIdx] using this

theorem owners_congr {s t : State T} (hsh : t.shared = s.shared) (b : Nat) :
    t.owners b = s.owners b := by
  simp [State.owners, hsh]

theorem observers_append {s t : State T} {w : WeakPtr} (hwk : t.weak = s.weak ++ [w])
    (b : Nat) : t.observers b = s.observers b + (if w.block_ = some b then 1 else 0) := by
  simp [State.observers, hwk, refCount_append, refCount_singleton]

theorem observers_set {s t : State T} {j : Nat} {x y : WeakPtr}
    (hwk : t.weak = s.weak.set j y) (hx : s.weak[j]? = some x) (b : Nat) :
    t.observers b + (if x.block_ = some b then 1 else 0)
      = s.observers b + (if y.block_ = some b then 1 else 0) := by
  have := refCount_set (l := s.weak.map WeakPtr.block_) (i := j) (x := x.block_)
    (by simp [hx]) y.block_ b
  simpa [State.observers, hwk] using this

theorem observers_eraseIdx {s t : State T} {j : Nat} {x : WeakPtr}
    (hwk : t.weak = s.weak.eraseIdx j) (hx : s.weak[j]? = some x) (b : Nat) :
    t.observers b + (if x.block_ = some b then 1 else 0) = s.observers b := by
  have := refCount_eraseIdx (l := s.weak.map WeakPtr.block_) (i := j) (x := x.block_)
    (by simp [hx]) b
  simpa [State.observers, hwk, map_eraseIdx] using this

theorem observers_congr {s t : State T} (hwk : t.weak = s.weak) (b : Nat) :
    t.observers b = s.observers b := by
  simp [State.observers, hwk]

/-! ## Every operation keeps the invariant -/

/-- Adding an owner of block `b0` after `++block_->sp_cnt_ref_`. -/
theorem Inv.add_owner {s s' : State T} (hs : Inv s) (hf : Fits s) {b0 : Nat}
    {c : ControlBlock T} {x : SharedPtr} (hpos : 0 < s.owners b0)
    (hload : s.heap.load b0 = some c) (hxb : x.block_ = some b0)
    (hheap : s'.heap = s.heap.store b0 { c with sp_cnt_ref_ := incr c.sp_cnt_ref_ })
    (hsh : s'.shared = s.shared ++ [x]) (hwk : s'.weak = s.weak) : Inv s' := by
  obtain ⟨hget, hfree⟩ := load_eq_some.mp hload
  have hok := hs.blocks b0 c hget
  have hle := owners_le s b0
  have hsb := hs.sharedBound
  obtain ⟨hf1, hf2⟩ := hf
  refine hs.of_store hget hheap (by simp [hsh]; omega) (by rw [hwk]; exact hs.weakBound) ?_ ?_
  · intro b hne
    refine ⟨?_, observers_congr hwk b⟩
    rw [owners_append hsh b, hxb]
    simp [Ne.symm hne]
  · have ho : s'.owners b0 = s.owners b0 + 1 := by
      rw [owners_append hsh b0, hxb]; simp
    have hw : s'.observers b0 = s.observers b0 := observers_congr hwk b0
    obtain ⟨h1, h2⟩ := hok.live hfree
    refine ⟨?_, ?_, ?_, ?_⟩
    · have := hok.calls
      simp only [ho]
      rw [this]
      simp
      omega
    · exact hok.payload
    · intro _
      simp only [ho, hw]
      refine ⟨?_, h2⟩
      rw [incr_of_lt (by omega)]
      omega
    · intro hfr
      simp [hfree] at hfr

theorem Inv.sharedCopy {s s' : State T} {i : Nat} (hs : Inv s) (hf : Fits s)
    (h : s.sharedCopy i = .ok s') : Inv s' := by
  unfold State.sharedCopy at h
  cases hx : s.shared[i]? with
  | none => simp [hx] at h
  | some x =>
    simp only [hx] at h
    cases hb : x.block_ with
    | none =>
      simp [SharedPtr.copy, hb] at h
      subst h
      refine hs.of_same_heap rfl (by simp; exact hf.1) hs.weakBound ?_
      intro b
      exact ⟨by rw [owners_append (x := ⟨x.ptr_, none⟩) rfl b]; simp, observers_congr rfl b⟩
    | some b0 =>
      have hpos := owners_pos hx hb
      obtain ⟨c, hload, -⟩ := hs.load_of_owner hpos
      simp [SharedPtr.copy, hb, hload] at h
      subst h
      exact hs.add_owner hf hpos hload (x := ⟨x.ptr_, some b0⟩) rfl rfl rfl rfl

@[simp] theorem DeleteObj_sp (c : ControlBlock T) :
    c.DeleteObj.sp_cnt_ref_ = c.sp_cnt_ref_ := by
  unfold ControlBlock.DeleteObj; split <;> [split; skip] <;> rfl

@[simp] theorem DeleteObj_wp (c : ControlBlock T) :
    c.DeleteObj.wp_cnt_ref_ = c.wp_cnt_ref_ := by
  unfold ControlBlock.DeleteObj; split <;> [split; skip] <;> rfl

@[simp] theorem DeleteObj_freed (c : ControlBlock T) : c.DeleteObj.freed = c.freed := by
  unfold ControlBlock.DeleteObj; split <;> [split; skip] <;> rfl

@[simp] theorem DeleteObj_kind (c : ControlBlock T) : c.DeleteObj.kind = c.kind := by
  unfold ControlBlock.DeleteObj; split <;> [split; skip] <;> rfl

@[simp] theorem DeleteObj_hasPayload (c : ControlBlock T) :
    c.DeleteObj.hasPayload = c.hasPayload := by
  simp [ControlBlock.hasPayload]

@[simp] theorem DeleteObj_calls (c : ControlBlock T) :
    c.DeleteObj.deleteObjCalls = c.deleteObjCalls + 1 := by
  unfold ControlBlock.DeleteObj; split <;> [split; skip] <;> rfl

theorem DeleteObj_payload (c : ControlBlock T) :
    c.DeleteObj.payloadDestroyed = c.payloadDestroyed + (if c.hasPayload then 1 else 0) := by
  unfold ControlBlock.DeleteObj ControlBlock.hasPayload
  split
  · rename_i p hk
    split <;> simp_all
  · simp_all

theorem Inv.sharedDefault {s s' : State T} (hs : Inv s) (hf : Fits s)
    (h : s.sharedDefault = .ok s') : Inv s' := by
  simp [State.sharedDefault] at h
  subst h
  refine hs.of_same_heap rfl (by simp; exact hf.1) hs.weakBound ?_
  intro b
  exact ⟨by rw [owners_append (x := SharedPtr.empty) rfl b]; simp [SharedPtr.empty],
    observers_congr rfl b⟩

/-- A new block with its first owner. -/
theorem Inv.add_block {s s' : State T} (hs : Inv s) (hf : Fits s) {c : ControlBlock T}
    {x : SharedPtr} (hxb : x.block_ = some s.heap.length)
    (hc1 : c.sp_cnt_ref_ = 1) (hc2 : c.wp_cnt_ref_ = 0) (hc3 : c.deleteObjCalls = 0)
    (hc4 : c.payloadDestroyed = 0) (hc5 : c.freed = false)
    (hheap : s'.heap = s.heap ++ [c])
    (hsh : s'.shared = s.shared ++ [x]) (hwk : s'.weak = s.weak) : Inv s' := by
  obtain ⟨hd1, hd2⟩ := hs.dangling s.heap.length (Nat.le_refl _)
  refine hs.of_alloc hheap (by simp [hsh]; exact hf.1) (by rw [hwk]; exact hs.weakBound) ?_ ?_
  · intro b hne
    refine ⟨?_, observers_congr hwk b⟩
    rw [owners_append hsh b, hxb]
    simp [Ne.symm hne]
  · have ho : s'.owners s.heap.length = 1 := by
      rw [owners_append hsh, hxb, hd1]; simp
    have hw : s'.observers s.heap.length = 0 := by
      rw [observers_congr hwk, hd2]
    rw [ho, hw]
    refine ⟨by simp [hc3], by simp [hc3, hc4], fun _ => ⟨hc1, hc2⟩, ?_⟩
    intro hfr
    simp [hc5] at hfr

theorem Inv.sharedFromRaw {s s' : State T} {ptr : Ptr} (hs : Inv s) (hf : Fits s)
    (h : s.sharedFromRaw ptr = .ok s') : Inv s' := by
  simp [State.sharedFromRaw, SharedPtr.fromRaw, Heap.alloc, alloc_store] at h
  subst h
  exact hs.add_block hf (x := ⟨ptr, some s.heap.length⟩) rfl
    (by simp [ControlBlock.mkPointer, incr]) rfl rfl rfl rfl rfl rfl rfl

theorem Inv.makeShared {s s' : State T} {v : T} (hs : Inv s) (hf : Fits s)
    (h : s.makeShared v = .ok s') : Inv s' := by
  simp [State.makeShared, MakeShared, Heap.alloc, alloc_store, GetPtr] at h
  subst h
  exact hs.add_block hf (x := ⟨some (Addr.storage s.heap.length), some s.heap.length⟩) rfl
    (by simp [ControlBlock.mkHolder, incr]) rfl rfl rfl rfl rfl rfl rfl

theorem Inv.sharedMove {s s' : State T} {i : Nat} (hs : Inv s) (hf : Fits s)
    (h : s.sharedMove i = .ok s') : Inv s' := by
  unfold State.sharedMove at h
  cases hx : s.shared[i]? with
  | none => simp [hx] at h
  | some x =>
    simp [hx, SharedPtr.move] at h
    subst h
    refine hs.of_same_heap rfl (by simp; exact hf.1) hs.weakBound ?_
    intro b
    refine ⟨?_, observers_congr rfl b⟩
    have h1 := owners_set (s := s) (t := { s with shared := s.shared.set i ⟨none, none⟩ })
      rfl hx b
    have h2 := owners_append
      (s := { s with shared := s.shared.set i ⟨none, none⟩ })
      (t := { s with shared := s.shared.set i ⟨none, none⟩ ++ [⟨x.ptr_, x.block_⟩] })
      (x := ⟨x.ptr_, x.block_⟩) rfl b
    simp at h1 h2
    omega

theorem Inv.sharedAliasing {s s' : State T} {i : Nat} {ptr : Ptr} (hs : Inv s) (hf : Fits s)
    (h : s.sharedAliasing i ptr = .ok s') : Inv s' := by
  unfold State.sharedAliasing at h
  cases hx : s.shared[i]? with
  | none => simp [hx] at h
  | some x =>
    simp only [hx] at h
    cases hb : x.block_ with
    | none =>
      simp [SharedPtr.aliasing, hb] at h
      subst h
      refine hs.of_same_heap rfl (by simp; exact hf.1) hs.weakBound ?_
      intro b
      exact ⟨by rw [owners_append (x := ⟨ptr, none⟩) rfl b]; simp, observers_congr rfl b⟩
    | some b0 =>
      have hpos := owners_pos hx hb
      obtain ⟨c, hload, -⟩ := hs.load_of_owner hpos
      simp [SharedPtr.aliasing, hb, hload] at h
      subst h
      exact hs.add_owner hf hpos hload (x := ⟨ptr, some b0⟩) rfl rfl rfl rfl

/-- What `SharedPtr(const WeakPtr&)` does on a pointer of a reachable state. -/
theorem fromWeak_spec {s : State T} (hs : Inv s) {w : WeakPtr}
    (hw : ∀ b, w.block_ = some b → 0 < s.observers b) :
    (w.block_ = none ∧ SharedPtr.fromWeak s.heap w = some (s.heap, .value ⟨w.ptr_, none⟩)) ∨
    (∃ b c, w.block_ = some b ∧ s.heap.load b = some c ∧ s.owners b = 0 ∧
      SharedPtr.fromWeak s.heap w = some (s.heap, .badWeakPtr)) ∨
    (∃ b c, w.block_ = some b ∧ s.heap.load b = some c ∧ 0 < s.owners b ∧
      SharedPtr.fromWeak s.heap w
        = some (s.heap.store b { c with sp_cnt_ref_ := incr c.sp_cnt_ref_ },
                .value ⟨w.ptr_, some b⟩)) := by
  cases hb : w.block_ with
  | none => left; simp [SharedPtr.fromWeak, hb]
  | some b0 =>
    right
    obtain ⟨c, hload, -, -, hsp, -⟩ := hs.load_of_observer (hw b0 hb)
    by_cases h0 : s.owners b0 = 0
    · left
      exact ⟨b0, c, rfl, hload, h0, by simp [SharedPtr.fromWeak, hb, hload, hsp, h0]⟩
    · right
      exact ⟨b0, c, rfl, hload, by omega, by simp [SharedPtr.fromWeak, hb, hload, hsp, h0]⟩

theorem Inv.thrown {s : State T} (hs : Inv s) : Inv { s with thrown := s.thrown + 1 } :=
  hs.of_same_heap rfl hs.sharedBound hs.weakBound
    (fun b => ⟨owners_congr rfl b, observers_congr rfl b⟩)

theorem Inv.sharedFromWeak {s s' : State T} {j : Nat} (hs : Inv s) (hf : Fits s)
    (h : s.sharedFromWeak j = .ok s') : Inv s' := by
  unfold State.sharedFromWeak at h
  cases hx : s.weak[j]? with
  | none => simp [hx] at h
  | some w =>
    simp only [hx] at h
    rcases fromWeak_spec hs (w := w) (fun b hb => observers_pos hx hb) with
      ⟨hb, he⟩ | ⟨b0, c, hb, hload, h0, he⟩ | ⟨b0, c, hb, hload, hpos, he⟩
    · simp [he] at h
      subst h
      refine hs.of_same_heap rfl (by simp; exact hf.1) hs.weakBound ?_
      intro b
      exact ⟨by rw [owners_append (x := ⟨w.ptr_, none⟩) rfl b]; simp, observers_congr rfl b⟩
    · simp [he] at h
      subst h
      exact hs.thrown
    · simp [he] at h
      subst h
      exact hs.add_owner hf hpos hload (x := ⟨w.ptr_, some b0⟩) rfl rfl rfl rfl

/-- Removing an owner of block `b0` together with a write to that block. -/
theorem Inv.drop_owner {s s' : State T} (hs : Inv s) {i b0 : Nat} {x : SharedPtr}
    {c c' : ControlBlock T} (hx : s.shared[i]? = some x) (hxb : x.block_ = some b0)
    (hget : s.heap[b0]? = some c) (hheap : s'.heap = s.heap.store b0 c')
    (hsh : s'.shared = s.shared.eraseIdx i) (hwk : s'.weak = s.weak)
    (hb0 : BlockOk c' (s.owners b0 - 1) (s.observers b0)) : Inv s' := by
  have hsb := hs.sharedBound
  have hlen : s'.shared.length ≤ s.shared.length := by
    rw [hsh]; exact List.length_eraseIdx_le _ _
  refine hs.of_store hget hheap (by omega) (by rw [hwk]; exact hs.weakBound) ?_ ?_
  · intro b hne
    refine ⟨?_, observers_congr hwk b⟩
    have := owners_eraseIdx hsh hx b
    rw [hxb] at this
    simpa [Ne.symm hne] using this
  · have := owners_eraseIdx hsh hx b0
    rw [hxb] at this
    simp at this
    have ho : s'.owners b0 = s.owners b0 - 1 := by omega
    rw [ho, observers_congr hwk b0]
    exact hb0

theorem Inv.sharedDtor {s s' : State T} {i : Nat} (hs : Inv s)
    (h : s.sharedDtor i = .ok s') : Inv s' := by
  unfold State.sharedDtor at h
  cases hx : s.shared[i]? with
  | none => simp [hx] at h
  | some x =>
    simp only [hx] at h
    have hsb := hs.sharedBound
    cases hb : x.block_ with
    | none =>
      simp [SharedPtr.dtor, hb] at h
      subst h
      refine hs.of_same_heap rfl ?_ hs.weakBound ?_
      · have := List.length_eraseIdx_le s.shared i
        simp only []
        omega
      · intro b
        refine ⟨?_, observers_congr rfl b⟩
        have := owners_eraseIdx (s := s) (t := { s with shared := s.shared.eraseIdx i })
          rfl hx b
        simpa [hb] using this
    | some b0 =>
      have hpos := owners_pos hx hb
      obtain ⟨c, hload, hget, hfree, hsp, hwp⟩ := hs.load_of_owner hpos
      have hok := hs.blocks b0 c hget
      have hle := owners_le s b0
      have hcalls : c.deleteObjCalls = 0 := by
        have := hok.calls
        rw [this]; simp; omega
      have hpay : c.payloadDestroyed = 0 := by
        have := hok.payload
        rw [this, hcalls]; simp
      by_cases h1 : s.owners b0 = 1
      · by_cases h2 : s.observers b0 = 0
        · simp [SharedPtr.dtor, hb, hload, hsp, hwp, h1, h2] at h
          subst h
          refine hs.drop_owner hx hb hget rfl rfl rfl ?_
          rw [h1, h2]
          refine ⟨by simp [hcalls], ?_, by simp, by simp⟩
          simp [DeleteObj_payload, hpay, hcalls, ControlBlock.hasPayload]
        · simp [SharedPtr.dtor, hb, hload, hsp, hwp, h1, h2] at h
          subst h
          refine hs.drop_owner hx hb hget rfl rfl rfl ?_
          rw [h1]
          refine ⟨by simp [hcalls], ?_, ?_, by simp [hfree]⟩
          · simp [DeleteObj_payload, hpay, hcalls, ControlBlock.hasPayload]
          · intro _
            have hd : decr 1 = 0 := by unfold decr SIZE_MOD; omega
            simp [hwp, hd]
      · simp [SharedPtr.dtor, hb, hload, hsp, h1] at h
        subst h
        refine hs.drop_owner hx hb hget rfl rfl rfl ?_
        refine ⟨?_, ?_, ?_, by simp [hfree]⟩
        · show c.deleteObjCalls = _
          rw [hcalls, if_neg (by omega)]
        · simpa [ControlBlock.hasPayload] using hok.payload
        · intro _
          simp [hwp]
          exact decr_of_pos hpos (by omega)

theorem Inv.sharedSwap {s s' : State T} {i j : Nat} (hs : Inv s)
    (h : s.sharedSwap i j = .ok s') : Inv s' := by
  unfold State.sharedSwap at h
  cases hx : s.shared[i]? with
  | none => simp [hx] at h
  | some x =>
    cases hy : s.shared[j]? with
    | none => simp [hx, hy] at h
    | some y =>
      simp [hx, hy, SharedPtr.Swap] at h
      subst h
      refine hs.of_same_heap rfl (by simp; exact hs.sharedBound) hs.weakBound ?_
      intro b
      refine ⟨?_, observers_congr rfl b⟩
      have h1 := owners_set (s := s)
        (t := { s with shared := s.shared.set i ⟨y.ptr_, y.block_⟩ }) rfl hx b
      have hi : i < s.shared.length := (List.getElem?_eq_some.mp hx).1
      have hj : (s.shared.set i ⟨y.ptr_, y.block_⟩)[j]? = some ⟨y.ptr_, y.block_⟩ := by
        by_cases hij : i = j
        · subst hij
          simp [hi]
        · rw [List.getElem?_set_ne hij, hy]
      have h2 := owners_set
        (s := { s with shared := s.shared.set i ⟨y.ptr_, y.block_⟩ })
        (t := { s with shared := (s.shared.set i ⟨y.ptr_, y.block_⟩).set j ⟨x.ptr_, x.block_⟩ })
        rfl hj b
      simp at h1 h2
      omega

/-- Adding an observer of block `b0` after `++block_->wp_cnt_ref_`. -/
theorem Inv.add_observer {s s' : State T} (hs : Inv s) (hf : Fits s) {b0 : Nat}
    {c : ControlBlock T} {w : WeakPtr}
    (hload : s.heap.load b0 = some c) (hwb : w.block_ = some b0)
    (hheap : s'.heap = s.heap.store b0 { c with wp_cnt_ref_ := incr c.wp_cnt_ref_ })
    (hsh : s'.shared = s.shared) (hwk : s'.weak = s.weak ++ [w]) : Inv s' := by
  obtain ⟨hget, hfree⟩ := load_eq_some.mp hload
  have hok := hs.blocks b0 c hget
  have hle := observers_le s b0
  obtain ⟨hf1, hf2⟩ := hf
  refine hs.of_store hget hheap (by rw [hsh]; exact hs.sharedBound) (by simp [hwk]; omega) ?_ ?_
  · intro b hne
    refine ⟨owners_congr hsh b, ?_⟩
    rw [observers_append hwk b, hwb]
    simp [Ne.symm hne]
  · have hw : s'.observers b0 = s.observers b0 + 1 := by
      rw [observers_append hwk b0, hwb]; simp
    have ho : s'.owners b0 = s.owners b0 := owners_congr hsh b0
    obtain ⟨h1, h2⟩ := hok.live hfree
    rw [ho, hw]
    refine ⟨hok.calls, ?_, ?_, ?_⟩
    · simpa [ControlBlock.hasPayload] using hok.payload
    · intro _
      refine ⟨h1, ?_⟩
      show incr c.wp_cnt_ref_ = _
      rw [incr_of_lt (by omega)]
      omega
    · intro hfr
      simp [hfree] at hfr

theorem Inv.weakDefault {s s' : State T} (hs : Inv s) (hf : Fits s)
    (h : s.weakDefault = .ok s') : Inv s' := by
  simp [State.weakDefault] at h
  subst h
  refine hs.of_same_heap rfl hs.sharedBound (by simp; exact hf.2) ?_
  intro b
  exact ⟨owners_congr rfl b,
    by rw [observers_append (w := WeakPtr.empty) rfl b]; simp [WeakPtr.empty]⟩

theorem Inv.weakCopy {s s' : State T} {j : Nat} (hs : Inv s) (hf : Fits s)
    (h : s.weakCopy j = .ok s') : Inv s' := by
  unfold State.weakCopy at h
  cases hx : s.weak[j]? with
  | none => simp [hx] at h
  | some x =>
    simp only [hx] at h
    cases hb : x.block_ with
    | none =>
      simp [WeakPtr.copy, hb] at h
      subst h
      refine hs.of_same_heap rfl hs.sharedBound (by simp; exact hf.2) ?_
      intro b
      exact ⟨owners_congr rfl b, by rw [observers_append (w := ⟨x.ptr_, none⟩) rfl b]; simp⟩
    | some b0 =>
      have hpos := observers_pos hx hb
      obtain ⟨c, hload, -⟩ := hs.load_of_observer hpos
      simp [WeakPtr.copy, hb, hload] at h
      subst h
      exact hs.add_observer hf hload (w := ⟨x.ptr_, some b0⟩) rfl rfl rfl rfl

theorem Inv.weakFromShared {s s' : State T} {i : Nat} (hs : Inv s) (hf : Fits s)
    (h : s.weakFromShared i = .ok s') : Inv s' := by
  unfold State.weakFromShared at h
  cases hx : s.shared[i]? with
  | none => simp [hx] at h
  | some x =>
    simp only [hx] at h
    cases hb : x.block_ with
    | none =>
      simp [WeakPtr.fromShared, SharedPtr.GetBlock, SharedPtr.Get, hb] at h
      subst h
      refine hs.of_same_heap rfl hs.sharedBound (by simp; exact hf.2) ?_
      intro b
      exact ⟨owners_congr rfl b, by rw [observers_append (w := ⟨x.ptr_, none⟩) rfl b]; simp⟩
    | some b0 =>
      have hpos := owners_pos hx hb
      obtain ⟨c, hload, -⟩ := hs.load_of_owner hpos
      simp [WeakPtr.fromShared, SharedPtr.GetBlock, SharedPtr.Get, hb, hload] at h
      subst h
      exact hs.add_observer hf hload (w := ⟨x.ptr_, some b0⟩) rfl rfl rfl rfl

theorem Inv.weakMove {s s' : State T} {j : Nat} (hs : Inv s) (hf : Fits s)
    (h : s.weakMove j = .ok s') : Inv s' := by
  unfold State.weakMove at h
  cases hx : s.weak[j]? with
  | none => simp [hx] at h
  | some x =>
    simp [hx, WeakPtr.move] at h
    subst h
    refine hs.of_same_heap rfl hs.sharedBound (by simp; exact hf.2) ?_
    intro b
    refine ⟨owners_congr rfl b, ?_⟩
    have h1 := observers_set (s := s) (t := { s with weak := s.weak.set j ⟨none, none⟩ })
      rfl hx b
    have h2 := observers_append
      (s := { s with weak := s.weak.set j ⟨none, none⟩ })
      (t := { s with weak := s.weak.set j ⟨none, none⟩ ++ [⟨x.ptr_, x.block_⟩] })
      (w := ⟨x.ptr_, x.block_⟩) rfl b
    simp at h1 h2
    omega

/-- A write to block `b0` while an observer of it goes away: by destruction or by
`Reset()`. -/
theorem Inv.drop_observer {s s' : State T} (hs : Inv s) {b0 : Nat}
    {c c' : ControlBlock T}
    (hget : s.heap[b0]? = some c) (hheap : s'.heap = s.heap.store b0 c')
    (hsh : s'.shared = s.shared) (hlen : s'.weak.length ≤ s.weak.length)
    (hcnt : ∀ b, s'.observers b + (if b0 = b then 1 else 0) = s.observers b)
    (hb0 : BlockOk c' (s.owners b0) (s.observers b0 - 1)) : Inv s' := by
  have hwb := hs.weakBound
  refine hs.of_store hget hheap (by rw [hsh]; exact hs.sharedBound) (by omega) ?_ ?_
  · intro b hne
    refine ⟨owners_congr hsh b, ?_⟩
    have := hcnt b
    simpa [Ne.symm hne] using this
  · have := hcnt b0
    simp at this
    have hw : s'.observers b0 = s.observers b0 - 1 := by omega
    rw [hw, owners_congr hsh b0]
    exact hb0

theorem Inv.weakDtor {s s' : State T} {j : Nat} (hs : Inv s)
    (h : s.weakDtor j = .ok s') : Inv s' := by
  unfold State.weakDtor at h
  cases hx : s.weak[j]? with
  | none => simp [hx] at h
  | some x =>
    simp only [hx] at h
    have hwb := hs.weakBound
    have hlen := List.length_eraseIdx_le s.weak j
    cases hb : x.block_ with
    | none =>
      simp [WeakPtr.dtor, hb] at h
      subst h
      refine hs.of_same_heap rfl hs.sharedBound ?_ ?_
      · simp only []
        omega
      · intro b
        refine ⟨owners_congr rfl b, ?_⟩
        have := observers_eraseIdx (s := s) (t := { s with weak := s.weak.eraseIdx j })
          rfl hx b
        simpa [hb] using this
    | some b0 =>
      have hpos := observers_pos hx hb
      obtain ⟨c, hload, hget, hfree, hsp, hwp⟩ := hs.load_of_observer hpos
      have hok := hs.blocks b0 c hget
      have hle := observers_le s b0
      have hcnt : ∀ (s' : State T), s'.weak = s.weak.eraseIdx j →
          ∀ b, s'.observers b + (if b0 = b then 1 else 0) = s.observers b := by
        intro s' hwk b
        have := observers_eraseIdx hwk hx b
        rw [hb] at this
        simpa using this
      by_cases h0 : 0 < s.owners b0
      · simp [WeakPtr.dtor, hb, hload, hsp, h0] at h
        subst h
        refine hs.drop_observer hget rfl rfl hlen (hcnt _ rfl) ?_
        refine ⟨hok.calls, ?_, ?_, by simp [hfree]⟩
        · simpa [ControlBlock.hasPayload] using hok.payload
        · intro _
          have hd := decr_of_pos hpos (show s.observers b0 < SIZE_MOD by omega)
          simp [hsp, hwp, hd]
      · have h0' : s.owners b0 = 0 := by omega
        by_cases h1 : s.observers b0 = 1
        · simp [WeakPtr.dtor, hb, hload, hsp, hwp, h0', h1] at h
          subst h
          refine hs.drop_observer hget rfl rfl hlen (hcnt _ rfl) ?_
          refine ⟨hok.calls, ?_, by simp, ?_⟩
          · simpa [ControlBlock.hasPayload] using hok.payload
          · intro _
            exact ⟨h0', by omega⟩
        · simp [WeakPtr.dtor, hb, hload, hsp, hwp, h0', h1] at h
          subst h
          refine hs.drop_observer hget rfl rfl hlen (hcnt _ rfl) ?_
          refine ⟨hok.calls, ?_, ?_, by simp [hfree]⟩
          · simpa [ControlBlock.hasPayload] using hok.payload
          · intro _
            have hd := decr_of_pos hpos (show s.observers b0 < SIZE_MOD by omega)
            simp [hwp, hd, h0']

theorem Inv.weakReset {s s' : State T} {j : Nat} (hs : Inv s)
    (h : s.weakReset j = .ok s') : Inv s' := by
  unfold State.weakReset at h
  cases hx : s.weak[j]? with
  | none => simp [hx] at h
  | some x =>
    simp only [hx] at h
    have hwb := hs.weakBound
    cases hb : x.block_ with
    | none =>
      simp [WeakPtr.Reset, hb] at h
      subst h
      refine hs.of_same_heap rfl hs.sharedBound (by simp; exact hwb) ?_
      intro b
      refine ⟨owners_congr rfl b, ?_⟩
      have := observers_set (s := s) (t := { s with weak := s.weak.set j ⟨none, none⟩ })
        rfl hx b
      simpa [hb] using this
    | some b0 =>
      have hpos := observers_pos hx hb
      obtain ⟨c, hload, hget, hfree, hsp, hwp⟩ := hs.load_of_observer hpos
      have hok := hs.blocks b0 c hget
      have hle := observers_le s b0
      simp [WeakPtr.Reset, hb, hload] at h
      subst h
      refine hs.drop_observer hget rfl rfl (by simp) ?_ ?_
      · intro b
        have := observers_set (s := s) (t := { s with weak := s.weak.set j ⟨none, none⟩ })
          rfl hx b
        rw [hb] at this
        simpa using this
      · refine ⟨hok.calls, ?_, ?_, by simp [hfree]⟩
        · simpa [ControlBlock.hasPayload] using hok.payload
        · intro _
          have hd := decr_of_pos hpos (show s.observers b0 < SIZE_MOD by omega)
          simp [hsp, hwp, hd]

theorem Inv.weakSwap {s s' : State T} {j k : Nat} (hs : Inv s)
    (h : s.weakSwap j k = .ok s') : Inv s' := by
  unfold State.weakSwap at h
  cases hx : s.weak[j]? with
  | none => simp [hx] at h
  | some x =>
    cases hy : s.weak[k]? with
    | none => simp [hx, hy] at h
    | some y =>
      simp [hx, hy, WeakPtr.Swap] at h
      subst h
      refine hs.of_same_heap rfl hs.sharedBound (by simp; exact hs.weakBound) ?_
      intro b
      refine ⟨owners_congr rfl b, ?_⟩
      have h1 := observers_set (s := s)
        (t := { s with weak := s.weak.set j ⟨y.ptr_, y.block_⟩ }) rfl hx b
      have hj : j < s.weak.length := (List.getElem?_eq_some.mp hx).1
      have hk : (s.weak.set j ⟨y.ptr_, y.block_⟩)[k]? = some ⟨y.ptr_, y.block_⟩ := by
        by_cases hjk : j = k
        · subst hjk
          simp [hj]
        · rw [List.getElem?_set_ne hjk, hy]
      have h2 := observers_set
        (s := { s with weak := s.weak.set j ⟨y.ptr_, y.block_⟩ })
        (t := { s with weak := (s.weak.set j ⟨y.ptr_, y.block_⟩).set k ⟨x.ptr_, x.block_⟩ })
        rfl hk b
      simp at h1 h2
      omega

/-- What `Lock()` does on a pointer of a reachable state. -/
theorem Lock_spec {s : State T} (hs : Inv s) {w : WeakPtr}
    (hw : ∀ b, w.block_ = some b → 0 < s.observers b) :
    ((∀ b, w.block_ = some b → s.owners b = 0) ∧
      WeakPtr.Lock s.heap w = some (s.heap, .value SharedPtr.empty)) ∨
    (∃ b c, w.block_ = some b ∧ s.heap.load b = some c ∧ 0 < s.owners b ∧
      WeakPtr.Lock s.heap w
        = some (s.heap.store b { c with sp_cnt_ref_ := incr c.sp_cnt_ref_ },
                .value ⟨w.ptr_, some b⟩)) := by
  cases hb : w.block_ with
  | none =>
    left
    simp [WeakPtr.Lock, WeakPtr.Expired, WeakPtr.UseCount, hb]
  | some b0 =>
    obtain ⟨c, hload, -, -, hsp, -⟩ := hs.load_of_observer (hw b0 hb)
    by_cases h0 : s.owners b0 = 0
    · left
      refine ⟨by intro b hb'; cases hb'; exact h0, ?_⟩
      simp [WeakPtr.Lock, WeakPtr.Expired, WeakPtr.UseCount, hb, hload, hsp, h0]
    · right
      refine ⟨b0, c, rfl, hload, by omega, ?_⟩
      simp [WeakPtr.Lock, WeakPtr.Expired, WeakPtr.UseCount, hb, hload, hsp, h0,
        SharedPtr.fromWeak]

theorem Inv.weakLock {s s' : State T} {j : Nat} (hs : Inv s) (hf : Fits s)
    (h : s.weakLock j = .ok s') : Inv s' := by
  unfold State.weakLock at h
  cases hx : s.weak[j]? with
  | none => simp [hx] at h
  | some w =>
    simp only [hx] at h
    rcases Lock_spec hs (w := w) (fun b hb => observers_pos hx hb) with
      ⟨-, he⟩ | ⟨b0, c, hb, hload, hpos, he⟩
    · simp [he] at h
      subst h
      refine hs.of_same_heap rfl (by simp; exact hf.1) hs.weakBound ?_
      intro b
      exact ⟨by rw [owners_append (x := SharedPtr.empty) rfl b]; simp [SharedPtr.empty],
        observers_congr rfl b⟩
    · simp [he] at h
      subst h
      exact hs.add_owner hf hpos hload (x := ⟨w.ptr_, some b0⟩) rfl rfl rfl rfl

theorem Inv.sharedAssign {s s' : State T} {i j : Nat} (hs : Inv s) (hf : Fits s)
    (h : s.sharedAssign i j = .ok s') : Inv s' := by
  unfold State.sharedAssign at h
  obtain ⟨s1, h1, h⟩ := bind_eq_ok.mp h
  obtain ⟨s2, h2, h3⟩ := bind_eq_ok.mp h
  exact ((hs.sharedCopy hf h1).sharedSwap h2).sharedDtor h3

theorem Inv.sharedMoveAssign {s s' : State T} {i j : Nat} (hs : Inv s) (hf : Fits s)
    (h : s.sharedMoveAssign i j = .ok s') : Inv s' := by
  unfold State.sharedMoveAssign at h
  obtain ⟨s1, h1, h⟩ := bind_eq_ok.mp h
  obtain ⟨s2, h2, h3⟩ := bind_eq_ok.mp h
  exact ((hs.sharedMove hf h1).sharedSwap h2).sharedDtor h3

theorem Inv.sharedReset {s s' : State T} {i : Nat} (hs : Inv s) (hf : Fits s)
    (h : s.sharedReset i = .ok s') : Inv s' := by
  unfold State.sharedReset at h
  obtain ⟨s1, h1, h⟩ := bind_eq_ok.mp h
  obtain ⟨s2, h2, h3⟩ := bind_eq_ok.mp h
  exact ((hs.sharedDefault hf h1).sharedSwap h2).sharedDtor h3

theorem Inv.sharedResetPtr {s s' : State T} {i : Nat} {ptr : Ptr} (hs : Inv s) (hf : Fits s)
    (h : s.sharedResetPtr i ptr = .ok s') : Inv s' := by
  unfold State.sharedResetPtr at h
  obtain ⟨s1, h1, h⟩ := bind_eq_ok.mp h
  obtain ⟨s2, h2, h3⟩ := bind_eq_ok.mp h
  exact ((hs.sharedFromRaw hf h1).sharedSwap h2).sharedDtor h3

theorem Inv.weakAssign {s s' : State T} {j k : Nat} (hs : Inv s) (hf : Fits s)
    (h : s.weakAssign j k = .ok s') : Inv s' := by
  unfold State.weakAssign at h
  obtain ⟨s1, h1, h⟩ := bind_eq_ok.mp h
  obtain ⟨s2, h2, h3⟩ := bind_eq_ok.mp h
  exact ((hs.weakCopy hf h1).weakSwap h2).weakDtor h3

theorem Inv.weakAssignShared {s s' : State T} {j i : Nat} (hs : Inv s) (hf : Fits s)
    (h : s.weakAssignShared j i = .ok s') : Inv s' := by
  unfold State.weakAssignShared at h
  obtain ⟨s1, h1, h⟩ := bind_eq_ok.mp h
  obtain ⟨s2, h2, h3⟩ := bind_eq_ok.mp h
  exact ((hs.weakFromShared hf h1).weakSwap h2).weakDtor h3

theorem Inv.weakMoveAssign {s s' : State T} {j k : Nat} (hs : Inv s) (hf : Fits s)
    (h : s.weakMoveAssign j k = .ok s') : Inv s' := by
  unfold State.weakMoveAssign at h
  obtain ⟨s1, h1, h⟩ := bind_eq_ok.mp h
  obtain ⟨s2, h2, h3⟩ := bind_eq_ok.mp h
  exact ((hs.weakMove hf h1).weakSwap h2).weakDtor h3

theorem Inv.step {s s' : State T} {op : Op T} (hs : Inv s) (hf : Fits s)
    (h : step s op = .ok s') : Inv s' := by
  cases op with
  | sharedDefault => exact hs.sharedDefault hf h
  | sharedFromRaw ptr => exact hs.sharedFromRaw hf h
  | makeShared v => exact hs.makeShared hf h
  | sharedCopy i => exact hs.sharedCopy hf h
  | sharedMove i => exact hs.sharedMove hf h
  | sharedAliasing i ptr => exact hs.sharedAliasing hf h
  | sharedFromWeak j => exact hs.sharedFromWeak hf h
  | sharedAssign i j => exact hs.sharedAssign hf h
  | sharedMoveAssign i j => exact hs.sharedMoveAssign hf h
  | sharedDtor i => exact hs.sharedDtor h
  | sharedReset i => exact hs.sharedReset hf h
  | sharedResetPtr i ptr => exact hs.sharedResetPtr hf h
  | sharedSwap i j => exact hs.sharedSwap h
  | weakDefault => exact hs.weakDefault hf h
  | weakCopy j => exact hs.weakCopy hf h
  | weakFromShared i => exact hs.weakFromShared hf h
  | weakMove j => exact hs.weakMove hf h
  | weakAssign j k => exact hs.weakAssign hf h
  | weakAssignShared j i => exact hs.weakAssignShared hf h
  | weakMoveAssign j k => exact hs.weakMoveAssign hf h
  | weakDtor j => exact hs.weakDtor h
  | weakReset j => exact hs.weakReset h
  | weakSwap j k => exact hs.weakSwap h
  | weakLock j => exact hs.weakLock hf h

theorem Reachable.inv {s : State T} (h : Reachable s) : Inv s := by
  induction h with
  | init => exact Inv.init
  | step op _ hf hstep ih => exact ih.step hf hstep

theorem Reachable.of_runChecked {s s' : State T} (hs : Reachable s) (ops : List (Op T))
    (h : runChecked s ops = some s') : Reachable s' := by
  induction ops generalizing s with
  | nil =>
    simp [runChecked] at h
    subst h
    exact hs
  | cons op ops ih =>
    unfold runChecked at h
    by_cases hf : Fits s
    · rw [if_pos hf] at h
      cases hst : SmartPointers.step s op with
      | error e => simp [hst] at h
      | ok s1 =>
        simp only [hst] at h
        exact ih (Reachable.step op hs hf hst) h
    · rw [if_neg hf] at h
      cases h

theorem expiredState_reachable : Reachable expiredState :=
  Reachable.of_runChecked Reachable.init expiredScenario rfl

theorem liveState_reachable : Reachable liveState :=
  Reachable.of_runChecked Reachable.init liveScenario rfl

theorem lockedState_reachable : Reachable lockedState :=
  Reachable.of_runChecked Reachable.init lockScenario rfl

/-- C1. In every reachable state, `UseCount()` of a live `SharedPtr` that points to a
control block is the number of live `SharedPtr` objects pointing to that block, and
`UseCount()` of an empty one is 0. -/
theorem C1_useCount_is_number_of_owners {s : State T} (hr : Reachable s) {x : SharedPtr}
    (hx : x ∈ s.shared) :
    (∀ b, x.block_ = some b → x.UseCount s.heap = some (s.owners b)) ∧
    (x.block_ = none → x.UseCount s.heap = some 0) := by
  have hs := hr.inv
  constructor
  · intro b hb
    obtain ⟨i, hi⟩ := List.mem_iff_getElem?.mp hx
    obtain ⟨c, hload, -, -, hsp, -⟩ := hs.load_of_owner (owners_pos hi hb)
    simp [SharedPtr.UseCount, hb, hload, hsp]
  · intro hb
    simp [SharedPtr.UseCount, hb]

theorem C1_witness :
    Reachable lockedState ∧
    (⟨some (Addr.storage 0), some 0⟩ : SharedPtr) ∈ lockedState.shared ∧
    SharedPtr.UseCount lockedState.heap ⟨some (Addr.storage 0), some 0⟩
      = some (lockedState.owners 0) ∧
    lockedState.owners 0 = 2 :=
  ⟨lockedState_reachable, by decide,
   (C1_useCount_is_number_of_owners lockedState_reachable (by decide)).1 0 rfl, by decide⟩

/-- C2. In every reachable state and for every control block `c` in the store: while
the block is allocated, `DeleteObj()` has run (and, when the block manages an object,
that object has been destroyed) iff the strong count is 0; `DeleteObj()` has run at most
once, namely iff no live `SharedPtr` points to the block, and an operation makes it run
exactly when that operation takes the number of owners from positive to 0; `DeleteObj()`
itself leaves the block allocated and its counters as they are. -/
theorem C2_payload_destroyed_iff_no_owner {s : State T} (hr : Reachable s) {b : Nat}
    {c : ControlBlock T} (hc : s.heap[b]? = some c) :
    (c.freed = false → (c.deleteObjCalls = 1 ↔ c.sp_cnt_ref_ = 0)) ∧
    (c.freed = false → c.hasPayload = true → (c.payloadDestroyed = 1 ↔ c.sp_cnt_ref_ = 0)) ∧
    c.deleteObjCalls ≤ 1 ∧ c.payloadDestroyed ≤ 1 ∧
    (c.deleteObjCalls = 1 ↔ s.owners b = 0) ∧
    (∀ (op : Op T) (s' : State T) (c' : ControlBlock T),
      Fits s → step s op = .ok s' → s'.heap[b]? = some c' →
        (c'.deleteObjCalls = c.deleteObjCalls + 1 ↔ (0 < s.owners b ∧ s'.owners b = 0))) ∧
    (c.DeleteObj.freed = c.freed ∧ c.DeleteObj.sp_cnt_ref_ = c.sp_cnt_ref_ ∧
      c.DeleteObj.wp_cnt_ref_ = c.wp_cnt_ref_) := by
  have hs := hr.inv
  have hok := hs.blocks b c hc
  have hcalls := hok.calls
  have hpay := hok.payload
  refine ⟨?_, ?_, ?_, ?_, ?_, ?_, by simp⟩
  · intro hf
    obtain ⟨h1, -⟩ := hok.live hf
    rw [hcalls, h1]
    by_cases h0 : s.owners b = 0 <;> simp [h0]
  · intro hf hp
    obtain ⟨h1, -⟩ := hok.live hf
    rw [hpay, hcalls, h1]
    by_cases h0 : s.owners b = 0 <;> simp [h0, hp]
  · rw [hcalls]
    split <;> omega
  · rw [hpay, hcalls]
    split
    · split <;> omega
    · omega
  · rw [hcalls]
    by_cases h0 : s.owners b = 0 <;> simp [h0]
  · intro op s' c' hf hstep hc'
    have hcalls' := ((hs.step hf hstep).blocks b c' hc').calls
    rw [hcalls', hcalls]
    by_cases h0 : s.owners b = 0 <;> by_cases h1 : s'.owners b = 0 <;> simp [h0, h1]
    omega

theorem C2_witness :
    Reachable expiredState ∧
    expiredState.heap[0]? = some expiredBlock ∧
    (expiredBlock.deleteObjCalls = 1 ↔ expiredBlock.sp_cnt_ref_ = 0) ∧
    (expiredBlock.deleteObjCalls = 1 ↔ expiredState.owners 0 = 0) :=
  ⟨expiredState_reachable, rfl,
   (C2_payload_destroyed_iff_no_owner expiredState_reachable
      (b := 0) (c := expiredBlock) rfl).1 rfl,
   (C2_payload_destroyed_iff_no_owner expiredState_reachable
      (b := 0) (c := expiredBlock) rfl).2.2.2.2.1⟩

/-- The destructor of a live `SharedPtr` of a reachable state returns, and frees the
block it points to exactly when it is the only object pointing to that block. -/
theorem sharedDtor_spec {s : State T} (hs : Inv s) {i : Nat} {x : SharedPtr}
    (hx : s.shared[i]? = some x) :
    ∃ s', s.sharedDtor i = .ok s' ∧ s'.shared = s.shared.eraseIdx i ∧ s'.weak = s.weak ∧
      s'.heap.length = s.heap.length ∧
      (∀ b, x.block_ ≠ some b → s'.heap[b]? = s.heap[b]?) ∧
      (∀ b, x.block_ = some b → ∃ c', s'.heap[b]? = some c' ∧
        (c'.freed = true ↔ s.owners b = 1 ∧ s.observers b = 0)) := by
  cases hb : x.block_ with
  | none =>
    have hres : s.sharedDtor i = .ok { s with shared := s.shared.eraseIdx i } := by
      simp [State.sharedDtor, hx, SharedPtr.dtor, hb]
    refine ⟨_, hres, rfl, rfl, rfl, ?_, ?_⟩
    · intro b _; rfl
    · intro b hb'; cases hb'
  | some b0 =>
    have hpos := owners_pos hx hb
    obtain ⟨c, hload, hget, hfree, hsp, hwp⟩ := hs.load_of_owner hpos
    have hlt : b0 < s.heap.length := (List.getElem?_eq_some.mp hget).1
    have hother : ∀ (c' : ControlBlock T) (b : Nat), some b0 ≠ some b →
        (s.heap.store b0 c')[b]? = s.heap[b]? := by
      intro c' b hne
      exact store_getElem?_other _ (by intro h; exact hne (by rw [h]))
    by_cases h1 : s.owners b0 = 1
    · by_cases h2 : s.observers b0 = 0
      · have hres : s.sharedDtor i = .ok { s with
            heap := s.heap.store b0 { c.DeleteObj with freed := true },
            shared := s.shared.eraseIdx i } := by
          simp [State.sharedDtor, hx, SharedPtr.dtor, hb, hload, hsp, hwp, h1, h2]
        refine ⟨_, hres, rfl, rfl, store_length _ _ _, hother _, ?_⟩
        intro b hb'
        cases hb'
        exact ⟨_, store_getElem?_same _ hlt, by simp [h1, h2]⟩
      · have hres : s.sharedDtor i = .ok { s with
            heap := s.heap.store b0
              (ControlBlock.DeleteObj { c with sp_cnt_ref_ := decr c.sp_cnt_ref_ }),
            shared := s.shared.eraseIdx i } := by
          simp [State.sharedDtor, hx, SharedPtr.dtor, hb, hload, hsp, hwp, h1, h2]
        refine ⟨_, hres, rfl, rfl, store_length _ _ _, hother _, ?_⟩
        intro b hb'
        cases hb'
        exact ⟨_, store_getElem?_same _ hlt, by simp [h1, h2, hfree]⟩
    · have hres : s.sharedDtor i = .ok { s with
          heap := s.heap.store b0 { c with sp_cnt_ref_ := decr c.sp_cnt_ref_ },
          shared := s.shared.eraseIdx i } := by
        simp [State.sharedDtor, hx, SharedPtr.dtor, hb, hload, hsp, h1]
      refine ⟨_, hres, rfl, rfl, store_length _ _ _, hother _, ?_⟩
      intro b hb'
      cases hb'
      exact ⟨_, store_getElem?_same _ hlt, by simp [h1, hfree]⟩

/-- The destructor of a live `WeakPtr` of a reachable state returns, and frees the
block it points to exactly when it is the only object pointing to that block. -/
theorem weakDtor_spec {s : State T} (hs : Inv s) {j : Nat} {x : WeakPtr}
    (hx : s.weak[j]? = some x) :
    ∃ s', s.weakDtor j = .ok s' ∧ s'.shared = s.shared ∧ s'.weak = s.weak.eraseIdx j ∧
      s'.heap.length = s.heap.length ∧
      (∀ b, x.block_ ≠ some b → s'.heap[b]? = s.heap[b]?) ∧
      (∀ b, x.block_ = some b → ∃ c', s'.heap[b]? = some c' ∧
        (c'.freed = true ↔ s.owners b = 0 ∧ s.observers b = 1)) := by
  cases hb : x.block_ with
  | none =>
    have hres : s.weakDtor j = .ok { s with weak := s.weak.eraseIdx j } := by
      simp [State.weakDtor, hx, WeakPtr.dtor, hb]
    refine ⟨_, hres, rfl, rfl, rfl, ?_, ?_⟩
    · intro b _; rfl
    · intro b hb'; cases hb'
  | some b0 =>
    have hpos := observers_pos hx hb
    obtain ⟨c, hload, hget, hfree, hsp, hwp⟩ := hs.load_of_observer hpos
    have hlt : b0 < s.heap.length := (List.getElem?_eq_some.mp hget).1
    have hother : ∀ (c' : ControlBlock T) (b : Nat), some b0 ≠ some b →
        (s.heap.store b0 c')[b]? = s.heap[b]? := by
      intro c' b hne
      exact store_getElem?_other _ (by intro h; exact hne (by rw [h]))
    by_cases h0 : 0 < s.owners b0
    · have hres : s.weakDtor j = .ok { s with
          heap := s.heap.store b0 { c with wp_cnt_ref_ := decr c.wp_cnt_ref_ },
          weak := s.weak.eraseIdx j } := by
        simp [State.weakDtor, hx, WeakPtr.dtor, hb, hload, hsp, h0]
      refine ⟨_, hres, rfl, rfl, store_length _ _ _, hother _, ?_⟩
      intro b hb'
      cases hb'
      refine ⟨_, store_getElem?_same _ hlt, ?_⟩
      simp [hfree]
      omega
    · have h0' : s.owners b0 = 0 := by omega
      by_cases h1 : s.observers b0 = 1
      · have hres : s.weakDtor j = .ok { s with
            heap := s.heap.store b0 { c with freed := true },
            weak := s.weak.eraseIdx j } := by
          simp [State.weakDtor, hx, WeakPtr.dtor, hb, hload, hsp, hwp, h0', h1]
        refine ⟨_, hres, rfl, rfl, store_length _ _ _, hother _, ?_⟩
        intro b hb'
        cases hb'
        exact ⟨_, store_getElem?_same _ hlt, by simp [h0', h1]⟩
      · have hres : s.weakDtor j = .ok { s with
            heap := s.heap.store b0 { c with wp_cnt_ref_ := decr c.wp_cnt_ref_ },
            weak := s.weak.eraseIdx j } := by
          simp [State.weakDtor, hx, WeakPtr.dtor, hb, hload, hsp, hwp, h0', h1]
        refine ⟨_, hres, rfl, rfl, store_length _ _ _, hother _, ?_⟩
        intro b hb'
        cases hb'
        exact ⟨_, store_getElem?_same _ hlt, by simp [h0', h1, hfree]⟩

theorem released_sharedDtor {s s' : State T} (hs : Inv s) {b i : Nat}
    (hrel : s.Released b) (h : s.sharedDtor i = .ok s') : s'.Released b := by
  cases hx : s.shared[i]? with
  | none => simp [State.sharedDtor, hx] at h
  | some x =>
    obtain ⟨s1, h1, hsh, hwk, -, hother, hsame⟩ := sharedDtor_spec hs hx
    rw [h] at h1
    cases h1
    intro c' hc' hcnt
    have ho := owners_eraseIdx hsh hx b
    have hw := observers_congr hwk b
    by_cases hb : x.block_ = some b
    · obtain ⟨c'', hc'', hiff⟩ := hsame b hb
      rw [hc'] at hc''
      cases hc''
      rw [hb] at ho
      simp at ho
      exact hiff.mpr ⟨by omega, by omega⟩
    · rw [hother b hb] at hc'
      simp [hb] at ho
      exact hrel c' hc' (by omega)

theorem released_weakDtor {s s' : State T} (hs : Inv s) {b j : Nat}
    (hrel : s.Released b) (h : s.weakDtor j = .ok s') : s'.Released b := by
  cases hx : s.weak[j]? with
  | none => simp [State.weakDtor, hx] at h
  | some x =>
    obtain ⟨s1, h1, hsh, hwk, -, hother, hsame⟩ := weakDtor_spec hs hx
    rw [h] at h1
    cases h1
    intro c' hc' hcnt
    have hw := observers_eraseIdx hwk hx b
    have ho := owners_congr hsh b
    by_cases hb : x.block_ = some b
    · obtain ⟨c'', hc'', hiff⟩ := hsame b hb
      rw [hc'] at hc''
      cases hc''
      rw [hb] at hw
      simp at hw
      exact hiff.mpr ⟨by omega, by omega⟩
    · rw [hother b hb] at hc'
      simp [hb] at hw
      exact hrel c' hc' (by omega)

/-- A destructor call on a state that satisfies the invariant is never undefined; its
result satisfies the invariant, keeps the store as long as it was and keeps freeing what
is no longer pointed to. -/
theorem dtor_step {s : State T} (hs : Inv s) {b : Nat} (hrel : s.Released b)
    {op : Op T} (hop : op.isDtor = true) :
    step s op ≠ .error .undefinedBehaviour ∧
    ∀ s', step s op = .ok s' →
      Inv s' ∧ s'.heap.length = s.heap.length ∧ s'.Released b := by
  cases op <;> simp [Op.isDtor] at hop
  case sharedDtor i =>
    constructor
    · cases hx : s.shared[i]? with
      | none => simp [step, State.sharedDtor, hx]
      | some x =>
        obtain ⟨s1, h1, -⟩ := sharedDtor_spec hs hx
        simp [step, h1]
    · intro s' h
      refine ⟨hs.sharedDtor h, ?_, released_sharedDtor hs hrel h⟩
      cases hx : s.shared[i]? with
      | none => simp [step, State.sharedDtor, hx] at h
      | some x =>
        obtain ⟨s1, h1, -, -, hlen, -⟩ := sharedDtor_spec hs hx
        simp only [step] at h
        rw [h] at h1
        cases h1
        exact hlen
  case weakDtor j =>
    constructor
    · cases hx : s.weak[j]? with
      | none => simp [step, State.weakDtor, hx]
      | some x =>
        obtain ⟨s1, h1, -⟩ := weakDtor_spec hs hx
        simp [step, h1]
    · intro s' h
      refine ⟨hs.weakDtor h, ?_, released_weakDtor hs hrel h⟩
      cases hx : s.weak[j]? with
      | none => simp [step, State.weakDtor, hx] at h
      | some x =>
        obtain ⟨s1, h1, -, -, hlen, -⟩ := weakDtor_spec hs hx
        simp only [step] at h
        rw [h] at h1
        cases h1
        exact hlen

theorem dtor_run {s : State T} (hs : Inv s) {b : Nat} (hrel : s.Released b)
    (ds : List (Op T)) (hds : ∀ op ∈ ds, op.isDtor = true) :
    run s ds ≠ .error .undefinedBehaviour ∧
    ∀ s', run s ds = .ok s' →
      Inv s' ∧ s'.heap.length = s.heap.length ∧ s'.Released b := by
  induction ds generalizing s with
  | nil =>
    refine ⟨by simp [run], ?_⟩
    intro s' h
    simp [run] at h
    subst h
    exact ⟨hs, rfl, hrel⟩
  | cons op ds ih =>
    obtain ⟨hne, hok⟩ := dtor_step hs hrel (hds op (List.mem_cons_self _ _))
    cases hst : step s op with
    | error e =>
      have : e ≠ .undefinedBehaviour := by
        intro he; subst he; exact hne hst
      simp [run, hst, this]
    | ok s1 =>
      obtain ⟨hs1, hlen1, hrel1⟩ := hok s1 hst
      obtain ⟨hne', hok'⟩ := ih hs1 hrel1 (fun op' hop' => hds op' (List.mem_cons_of_mem _ hop'))
      simp only [run, hst]
      refine ⟨hne', ?_⟩
      intro s' h
      obtain ⟨a, b', c⟩ := hok' s' h
      exact ⟨a, by omega, c⟩

/-- C3. Take a reachable state and a control block that some live `SharedPtr` or
`WeakPtr` points to, and run destructors of live objects in any order and number. The
run never touches a freed block (so no block is freed twice), and after it the block is
freed if and only if no live object points to it any more: it is freed by the
destructor of the last object that pointed to it and not while one still does. -/
theorem C3_block_freed_by_last_destructor {s : State T} (hr : Reachable s) {b : Nat}
    (hb : 0 < s.owners b + s.observers b) (ds : List (Op T))
    (hds : ∀ op ∈ ds, op.isDtor = true) :
    run s ds ≠ .error .undefinedBehaviour ∧
    ∀ s', run s ds = .ok s' →
      ∃ c', s'.heap[b]? = some c' ∧
        (c'.freed = true ↔ s'.owners b + s'.observers b = 0) := by
  have hs := hr.inv
  have hlt : b < s.heap.length := by
    by_contra hge
    have := hs.dangling b (by omega)
    omega
  have hrel : s.Released b := by
    intro c _ h0
    omega
  obtain ⟨hne, hok⟩ := dtor_run hs hrel ds hds
  refine ⟨hne, ?_⟩
  intro s' h
  obtain ⟨hs', hlen, hrel'⟩ := hok s' h
  have hlt' : b < s'.heap.length := by omega
  refine ⟨s'.heap[b], List.getElem?_eq_getElem hlt', ?_⟩
  constructor
  · intro hf
    have := (hs'.blocks b _ (List.getElem?_eq_getElem hlt')).dead hf
    omega
  · intro h0
    exact hrel' _ (List.getElem?_eq_getElem hlt') h0

theorem C3_witness :
    Reachable liveState ∧ 0 < liveState.owners 0 + liveState.observers 0 ∧
    run liveState [.weakDtor 0, .sharedDtor 0] ≠ .error .undefinedBehaviour ∧
    (∀ s', run liveState [.weakDtor 0, .sharedDtor 0] = .ok s' →
      ∃ c', s'.heap[0]? = some c' ∧
        (c'.freed = true ↔ s'.owners 0 + s'.observers 0 = 0)) ∧
    run liveState [.weakDtor 0, .sharedDtor 0]
      = .ok { heap := [⟨1, 0, .holder 7, 1, 1, true⟩], shared := [], weak := [], thrown := 0 } ∧
    run liveState [.sharedDtor 0, .weakDtor 0]
      = .ok { heap := [⟨0, 1, .holder 7, 1, 1, true⟩], shared := [], weak := [], thrown := 0 } ∧
    run liveState [.sharedDtor 0]
      = .ok { heap := [⟨0, 1, .holder 7, 1, 1, false⟩], shared := [],
              weak := [⟨some (Addr.storage 0), some 0⟩], thrown := 0 } :=
  ⟨liveState_reachable, by decide,
   (C3_block_freed_by_last_destructor liveState_reachable (b := 0) (by decide)
      [.weakDtor 0, .sharedDtor 0] (by decide)).1,
   (C3_block_freed_by_last_destructor liveState_reachable (b := 0) (by decide)
      [.weakDtor 0, .sharedDtor 0] (by decide)).2,
   rfl, rfl, rfl⟩

/-- C4 (the code departs from it). After `A = MakeShared<int>(42); WeakPtr W(A);` and the
destruction of `A`, the call `W.Reset()` leaves the control block allocated with both
counters 0, whereas the destructor of `W` in the same state frees it. -/
theorem C4_weakReset_leaves_block_allocated :
    run State.init (expiredScenario ++ [Op.weakReset 0])
      = .ok { heap := [⟨0, 0, .holder 42, 1, 1, false⟩], shared := [],
              weak := [⟨none, none⟩], thrown := 0 } ∧
    run State.init (expiredScenario ++ [Op.weakDtor 0])
      = .ok { heap := [⟨0, 1, .holder 42, 1, 1, true⟩], shared := [],
              weak := [], thrown := 0 } := by
  constructor <;> rfl

/-- C5. In a reachable state, let a live `WeakPtr` point to a block that no live
`SharedPtr` points to. Then the block is still allocated, its strong count is 0,
`DeleteObj()` has run on it once (so the object it managed is destroyed), and on that
`WeakPtr` `Expired()` is true, `UseCount()` is 0 and `Lock()` returns an empty
`SharedPtr` and leaves the store as it is. -/
theorem C5_expired_after_last_owner {s : State T} (hr : Reachable s) {w : WeakPtr}
    (hw : w ∈ s.weak) {b : Nat} (hb : w.block_ = some b) (h0 : s.owners b = 0) :
    ∃ c, s.heap[b]? = some c ∧ c.freed = false ∧ c.sp_cnt_ref_ = 0 ∧
      c.deleteObjCalls = 1 ∧ (c.hasPayload = true → c.payloadDestroyed = 1) ∧
      w.Expired s.heap = some true ∧ w.UseCount s.heap = some 0 ∧
      w.Lock s.heap = some (s.heap, .value SharedPtr.empty) := by
  have hs := hr.inv
  obtain ⟨j, hj⟩ := List.mem_iff_getElem?.mp hw
  obtain ⟨c, hload, hget, hfree, hsp, -⟩ := hs.load_of_observer (observers_pos hj hb)
  have hok := hs.blocks b c hget
  have hcalls : c.deleteObjCalls = 1 := by
    rw [hok.calls, h0]; simp
  refine ⟨c, hget, hfree, by omega, hcalls, ?_, ?_, ?_, ?_⟩
  · intro hp
    rw [hok.payload, hcalls]; simp [hp]
  · simp [WeakPtr.Expired, WeakPtr.UseCount, hb, hload, hsp, h0]
  · simp [WeakPtr.UseCount, hb, hload, hsp, h0]
  · simp [WeakPtr.Lock, WeakPtr.Expired, WeakPtr.UseCount, hb, hload, hsp, h0]

theorem C5_witness :
    Reachable expiredState ∧
    (⟨some (Addr.storage 0), some 0⟩ : WeakPtr) ∈ expiredState.weak ∧
    expiredState.owners 0 = 0 ∧
    ∃ c, expiredState.heap[0]? = some c ∧ c.freed = false ∧ c.sp_cnt_ref_ = 0 ∧
      c.deleteObjCalls = 1 ∧ (c.hasPayload = true → c.payloadDestroyed = 1) ∧
      WeakPtr.Expired expiredState.heap ⟨some (Addr.storage 0), some 0⟩ = some true ∧
      WeakPtr.UseCount expiredState.heap ⟨some (Addr.storage 0), some 0⟩ = some 0 ∧
      WeakPtr.Lock expiredState.heap ⟨some (Addr.storage 0), some 0⟩
        = some (expiredState.heap, .value SharedPtr.empty) :=
  ⟨expiredState_reachable, by decide, by decide,
   C5_expired_after_last_owner expiredState_reachable
     (w := ⟨some (Addr.storage 0), some 0⟩) (by decide) (b := 0) rfl (by decide)⟩

/-- C6. `Lock()` never produces `BadWeakPtr`, on any store and any `WeakPtr`. On a live
`WeakPtr` of a reachable state `Expired()` is defined; when it is true `Lock()` returns
an empty `SharedPtr` (`Get()` null, `UseCount()` 0) and the store is unchanged; when it
is false `Lock()` returns a `SharedPtr` with the object pointer and the block of the
`WeakPtr`, and the store differs only in that block's strong count, which is one more. -/
theorem C6_lock_reports_expiry_by_empty_result {s : State T} (hr : Reachable s)
    (hf : Fits s) {w : WeakPtr} (hw : w ∈ s.weak) :
    (∀ (h h' : Heap T) (v : WeakPtr), v.Lock h ≠ some (h', .badWeakPtr)) ∧
    (∃ e, w.Expired s.heap = some e) ∧
    (w.Expired s.heap = some true →
      w.Lock s.heap = some (s.heap, .value SharedPtr.empty) ∧
      SharedPtr.empty.Get = none ∧ SharedPtr.empty.UseCount s.heap = some 0) ∧
    (w.Expired s.heap = some false →
      ∃ b c, w.block_ = some b ∧ s.heap.load b = some c ∧
        w.Lock s.heap
          = some (s.heap.store b { c with sp_cnt_ref_ := c.sp_cnt_ref_ + 1 },
                  .value ⟨w.ptr_, w.block_⟩)) := by
  have hs := hr.inv
  obtain ⟨j, hj⟩ := List.mem_iff_getElem?.mp hw
  refine ⟨?_, ?_, ?_, ?_⟩
  · intro h h' v hL
    cases hb : v.block_ with
    | none => simp [WeakPtr.Lock, WeakPtr.Expired, WeakPtr.UseCount, hb] at hL
    | some b =>
      cases hl : h.load b with
      | none => simp [WeakPtr.Lock, WeakPtr.Expired, WeakPtr.UseCount, hb, hl] at hL
      | some c =>
        by_cases hc : c.sp_cnt_ref_ = 0
        · simp [WeakPtr.Lock, WeakPtr.Expired, WeakPtr.UseCount, hb, hl, hc] at hL
        · simp [WeakPtr.Lock, WeakPtr.Expired, WeakPtr.UseCount, hb, hl, hc,
            SharedPtr.fromWeak] at hL
  · cases hb : w.block_ with
    | none => exact ⟨true, by simp [WeakPtr.Expired, WeakPtr.UseCount, hb]⟩
    | some b =>
      obtain ⟨c, hload, -⟩ := hs.load_of_observer (observers_pos hj hb)
      exact ⟨_, by simp [WeakPtr.Expired, WeakPtr.UseCount, hb, hload]; rfl⟩
  · intro he
    refine ⟨?_, rfl, by simp [SharedPtr.UseCount, SharedPtr.empty]⟩
    simp [WeakPtr.Lock, he]
  · intro he
    cases hb : w.block_ with
    | none => simp [WeakPtr.Expired, WeakPtr.UseCount, hb] at he
    | some b =>
      obtain ⟨c, hload, -, -, hsp, -⟩ := hs.load_of_observer (observers_pos hj hb)
      have hle := owners_le s b
      have hinc : incr c.sp_cnt_ref_ = c.sp_cnt_ref_ + 1 :=
        incr_of_lt (by have := hf.1; omega)
      simp [WeakPtr.Expired, WeakPtr.UseCount, hb, hload] at he
      refine ⟨b, c, rfl, hload, ?_⟩
      simp [WeakPtr.Lock, WeakPtr.Expired, WeakPtr.UseCount, hb, hload, he,
        SharedPtr.fromWeak, hinc]

theorem C6_witness :
    Reachable liveState ∧ Fits liveState ∧
    (⟨some (Addr.storage 0), some 0⟩ : WeakPtr) ∈ liveState.weak ∧
    WeakPtr.Expired liveState.heap ⟨some (Addr.storage 0), some 0⟩ = some false ∧
    (∃ b c, (⟨some (Addr.storage 0), some 0⟩ : WeakPtr).block_ = some b ∧
      liveState.heap.load b = some c ∧
      WeakPtr.Lock liveState.heap ⟨some (Addr.storage 0), some 0⟩
        = some (liveState.heap.store b { c with sp_cnt_ref_ := c.sp_cnt_ref_ + 1 },
                .value ⟨some (Addr.storage 0), some 0⟩)) ∧
    run liveState [.weakLock 0] = .ok lockedState ∧
    lockedState.shared[1]? = some ⟨some (Addr.storage 0), some 0⟩ ∧
    SharedPtr.UseCount lockedState.heap ⟨some (Addr.storage 0), some 0⟩ = some 2 ∧
    deref lockedState.heap (SharedPtr.Get ⟨some (Addr.storage 0), some 0⟩) = some 7 :=
  ⟨liveState_reachable, by decide, by decide, rfl,
   (C6_lock_reports_expiry_by_empty_result liveState_reachable (by decide)
      (w := ⟨some (Addr.storage 0), some 0⟩) (by decide)).2.2.2 rfl,
   rfl, rfl, rfl, rfl⟩

/-- C7 as stated fails: a default-constructed `WeakPtr` has `Expired()` true, and
constructing a `SharedPtr` from it returns an empty `SharedPtr` instead of raising
`BadWeakPtr`. -/
theorem C7_counterexample :
    WeakPtr.Expired ([] : Heap Nat) WeakPtr.empty = some true ∧
    SharedPtr.fromWeak ([] : Heap Nat) WeakPtr.empty = some ([], .value SharedPtr.empty) ∧
    ¬ (∀ (h : Heap Nat) (w : WeakPtr), w.Expired h = some true →
        ∃ h', SharedPtr.fromWeak h w = some (h', .badWeakPtr)) := by
  refine ⟨rfl, rfl, ?_⟩
  intro hall
  obtain ⟨h', hh⟩ := hall [] WeakPtr.empty rfl
  simp [SharedPtr.fromWeak, WeakPtr.empty] at hh

/-- C7, amended. For a `WeakPtr` with `Expired()` true: when it points to a control
block, constructing a `SharedPtr` from it raises `BadWeakPtr` (and the store is
unchanged); when it points to no control block, the construction does not raise and
gives a `SharedPtr` without control block. -/
theorem C7_expired_with_block_raises (h : Heap T) (w : WeakPtr)
    (he : w.Expired h = some true) :
    (w.block_ ≠ none → SharedPtr.fromWeak h w = some (h, .badWeakPtr)) ∧
    (w.block_ = none → SharedPtr.fromWeak h w = some (h, .value ⟨w.ptr_, none⟩)) := by
  constructor
  · intro hne
    cases hb : w.block_ with
    | none => exact absurd hb hne
    | some b =>
      cases hl : h.load b with
      | none => simp [WeakPtr.Expired, WeakPtr.UseCount, hb, hl] at he
      | some c =>
        simp [WeakPtr.Expired, WeakPtr.UseCount, hb, hl] at he
        simp [SharedPtr.fromWeak, hb, hl, he]
  · intro hb
    simp [SharedPtr.fromWeak, hb]

theorem C7_witness :
    WeakPtr.Expired expiredState.heap ⟨some (Addr.storage 0), some 0⟩ = some true ∧
    SharedPtr.fromWeak expiredState.heap ⟨some (Addr.storage 0), some 0⟩
      = some (expiredState.heap, .badWeakPtr) ∧
    SharedPtr.fromWeak expiredState.heap WeakPtr.empty
      = some (expiredState.heap, .value ⟨none, none⟩) :=
  ⟨rfl,
   (C7_expired_with_block_raises expiredState.heap ⟨some (Addr.storage 0), some 0⟩ rfl).1
     (by decide),
   (C7_expired_with_block_raises expiredState.heap WeakPtr.empty rfl).2 rfl⟩

/-- C8. Constructing a `SharedPtr` from a `WeakPtr` raises `BadWeakPtr` if and only if
the `WeakPtr` points to a control block whose strong count is 0. From a `WeakPtr` that
points to no control block the construction does not raise and gives a `SharedPtr`
without control block (the empty one for a default-constructed `WeakPtr`), with
`UseCount()` 0. When `BadWeakPtr` is raised the store is unchanged. -/
theorem C8_badWeakPtr_iff_block_with_zero_count (h : Heap T) (w : WeakPtr) :
    ((∃ h', SharedPtr.fromWeak h w = some (h', .badWeakPtr)) ↔
      ∃ b c, w.block_ = some b ∧ h.load b = some c ∧ c.sp_cnt_ref_ = 0) ∧
    (w.block_ = none →
      SharedPtr.fromWeak h w = some (h, .value ⟨w.ptr_, none⟩) ∧
      SharedPtr.UseCount h ⟨w.ptr_, none⟩ = some 0) ∧
    SharedPtr.fromWeak h WeakPtr.empty = some (h, .value SharedPtr.empty) ∧
    (∀ h', SharedPtr.fromWeak h w = some (h', .badWeakPtr) → h' = h) := by
  refine ⟨?_, ?_, by simp [SharedPtr.fromWeak, WeakPtr.empty, SharedPtr.empty], ?_⟩
  · constructor
    · rintro ⟨h', hh⟩
      cases hb : w.block_ with
      | none => simp [SharedPtr.fromWeak, hb] at hh
      | some b =>
        cases hl : h.load b with
        | none => simp [SharedPtr.fromWeak, hb, hl] at hh
        | some c =>
          by_cases hc : c.sp_cnt_ref_ = 0
          · exact ⟨b, c, rfl, hl, hc⟩
          · simp [SharedPtr.fromWeak, hb, hl, hc] at hh
    · rintro ⟨b, c, hb, hl, hc⟩
      exact ⟨h, by simp [SharedPtr.fromWeak, hb, hl, hc]⟩
  · intro hb
    exact ⟨by simp [SharedPtr.fromWeak, hb], by simp [SharedPtr.UseCount]⟩
  · intro h' hh
    cases hb : w.block_ with
    | none => simp [SharedPtr.fromWeak, hb] at hh
    | some b =>
      cases hl : h.load b with
      | none => simp [SharedPtr.fromWeak, hb, hl] at hh
      | some c =>
        by_cases hc : c.sp_cnt_ref_ = 0
        · simp [SharedPtr.fromWeak, hb, hl, hc] at hh
          exact hh.symm
        · simp [SharedPtr.fromWeak, hb, hl, hc] at hh

theorem C8_witness :
    (∃ h', SharedPtr.fromWeak expiredState.heap ⟨some (Addr.storage 0), some 0⟩
        = some (h', .badWeakPtr)) ∧
    SharedPtr.fromWeak liveState.heap WeakPtr.empty
      = some (liveState.heap, .value SharedPtr.empty) :=
  ⟨(C8_badWeakPtr_iff_block_with_zero_count expiredState.heap
      ⟨some (Addr.storage 0), some 0⟩).1.mpr ⟨0, expiredBlock, rfl, rfl, rfl⟩,
   (C8_badWeakPtr_iff_block_with_zero_count liveState.heap WeakPtr.empty).2.2.1⟩

/-- C9. In a reachable state let `A` be a live `SharedPtr` that points to block `b`,
and let `w` be a `WeakPtr` made from `A` by `WeakPtr(const SharedPtr&)`. Then
`SharedPtr(w)` returns a `SharedPtr` without raising; the result has the control block
of `A` and `Get()` equal to `A.Get()`; the store differs only in block `b`, whose
strong count was positive and is one more, its weak count being as before. -/
theorem C9_promotion_of_live_weak {s : State T} (hr : Reachable s) (hf : Fits s)
    {A : SharedPtr} (hA : A ∈ s.shared) {b : Nat} (hb : A.block_ = some b)
    (h0 h1 : Heap T) {w : WeakPtr} (hfrom : WeakPtr.fromShared h0 A = some (h1, w)) :
    ∃ c x h', s.heap.load b = some c ∧ 0 < c.sp_cnt_ref_ ∧
      SharedPtr.fromWeak s.heap w = some (h', .value x) ∧
      x.block_ = A.block_ ∧ x.Get = A.Get ∧
      h' = s.heap.store b { c with sp_cnt_ref_ := c.sp_cnt_ref_ + 1 } ∧
      (∃ c', h'[b]? = some c' ∧ c'.sp_cnt_ref_ = c.sp_cnt_ref_ + 1 ∧
        c'.wp_cnt_ref_ = c.wp_cnt_ref_) ∧
      (∀ b', b' ≠ b → h'[b']? = s.heap[b']?) := by
  have hs := hr.inv
  obtain ⟨i, hi⟩ := List.mem_iff_getElem?.mp hA
  have hpos := owners_pos hi hb
  obtain ⟨c, hload, hget, hfree, hsp, -⟩ := hs.load_of_owner hpos
  have hlt : b < s.heap.length := (List.getElem?_eq_some.mp hget).1
  have hle := owners_le s b
  have hinc : incr c.sp_cnt_ref_ = c.sp_cnt_ref_ + 1 :=
    incr_of_lt (by have := hf.1; omega)
  have hw : w = ⟨A.ptr_, some b⟩ := by
    cases hl0 : h0.load b with
    | none => simp [WeakPtr.fromShared, SharedPtr.GetBlock, SharedPtr.Get, hb, hl0] at hfrom
    | some c0 =>
      simp [WeakPtr.fromShared, SharedPtr.GetBlock, SharedPtr.Get, hb, hl0] at hfrom
      exact hfrom.2.symm
  subst hw
  have hc0 : c.sp_cnt_ref_ ≠ 0 := by omega
  refine ⟨c, ⟨A.ptr_, some b⟩, _, hload, by omega, ?_, hb.symm, rfl, rfl, ?_, ?_⟩
  · simp [SharedPtr.fromWeak, hload, hc0, hinc]
  · exact ⟨_, store_getElem?_same _ hlt, rfl, rfl⟩
  · intro b' hne
    exact store_getElem?_other _ (Ne.symm hne)

theorem C9_witness :
    Reachable liveState ∧ Fits liveState ∧
    (⟨some (Addr.storage 0), some 0⟩ : SharedPtr) ∈ liveState.shared ∧
    WeakPtr.fromShared [⟨1, 0, BlockKind.holder 7, 0, 0, false⟩]
        ⟨some (Addr.storage 0), some 0⟩
      = some (liveState.heap, ⟨some (Addr.storage 0), some 0⟩) ∧
    ∃ c x h', liveState.heap.load 0 = some c ∧ 0 < c.sp_cnt_ref_ ∧
      SharedPtr.fromWeak liveState.heap ⟨some (Addr.storage 0), some 0⟩
        = some (h', .value x) ∧
      x.block_ = some 0 ∧ x.Get = some (Addr.storage 0) ∧
      h' = liveState.heap.store 0 { c with sp_cnt_ref_ := c.sp_cnt_ref_ + 1 } ∧
      (∃ c', h'[0]? = some c' ∧ c'.sp_cnt_ref_ = c.sp_cnt_ref_ + 1 ∧
        c'.wp_cnt_ref_ = c.wp_cnt_ref_) ∧
      (∀ b', b' ≠ 0 → h'[b']? = liveState.heap[b']?) :=
  ⟨liveState_reachable, by decide, by decide, rfl,
   C9_promotion_of_live_weak liveState_reachable (by decide)
     (A := ⟨some (Addr.storage 0), some 0⟩) (by decide) (b := 0) rfl
     [⟨1, 0, BlockKind.holder 7, 0, 0, false⟩] liveState.heap
     (w := ⟨some (Addr.storage 0), some 0⟩) rfl⟩

/-- C10. Move construction from a live `SharedPtr` (and likewise from a live
`WeakPtr`) returns; the store, and with it every counter of every block, is unchanged;
the source is left empty (`Get()` null, `UseCount()` 0); the new object holds the
object pointer and the control-block pointer the source held; every other object is
untouched. -/
theorem C10_move_leaves_source_empty (s : State T) :
    (∀ i x, s.shared[i]? = some x →
      ∃ s', s.sharedMove i = .ok s' ∧ s'.heap = s.heap ∧ s'.weak = s.weak ∧
        s'.shared[i]? = some SharedPtr.empty ∧
        SharedPtr.empty.Get = none ∧ SharedPtr.empty.UseCount s'.heap = some 0 ∧
        s'.shared[s.shared.length]? = some x ∧
        s'.shared.length = s.shared.length + 1 ∧
        (∀ k, k ≠ i → k < s.shared.length → s'.shared[k]? = s.shared[k]?)) ∧
    (∀ j w, s.weak[j]? = some w →
      ∃ s', s.weakMove j = .ok s' ∧ s'.heap = s.heap ∧ s'.shared = s.shared ∧
        s'.weak[j]? = some WeakPtr.empty ∧
        WeakPtr.empty.UseCount s'.heap = some 0 ∧
        s'.weak[s.weak.length]? = some w ∧
        s'.weak.length = s.weak.length + 1 ∧
        (∀ k, k ≠ j → k < s.weak.length → s'.weak[k]? = s.weak[k]?)) := by
  constructor
  · intro i x hx
    have hi : i < s.shared.length := (List.getElem?_eq_some.mp hx).1
    have hres : s.sharedMove i
        = .ok { s with shared := s.shared.set i SharedPtr.empty ++ [x] } := by
      simp [State.sharedMove, hx, SharedPtr.move, SharedPtr.empty]
    refine ⟨_, hres, rfl, rfl, ?_, rfl, by simp [SharedPtr.UseCount, SharedPtr.empty],
      ?_, by simp, ?_⟩
    · show (s.shared.set i SharedPtr.empty ++ [x])[i]? = _
      rw [List.getElem?_append_left (by simpa using hi)]
      simp [hi]
    · show (s.shared.set i SharedPtr.empty ++ [x])[s.shared.length]? = _
      rw [List.getElem?_append_right (by simp)]
      simp
    · intro k hk hlt
      show (s.shared.set i SharedPtr.empty ++ [x])[k]? = _
      rw [List.getElem?_append_left (by simpa using hlt)]
      exact List.getElem?_set_ne (Ne.symm hk)
  · intro j w hw
    have hj : j < s.weak.length := (List.getElem?_eq_some.mp hw).1
    have hres : s.weakMove j
        = .ok { s with weak := s.weak.set j WeakPtr.empty ++ [w] } := by
      simp [State.weakMove, hw, WeakPtr.move, WeakPtr.empty]
    refine ⟨_, hres, rfl, rfl, ?_, by simp [WeakPtr.UseCount, WeakPtr.empty],
      ?_, by simp, ?_⟩
    · show (s.weak.set j WeakPtr.empty ++ [w])[j]? = _
      rw [List.getElem?_append_left (by simpa using hj)]
      simp [hj]
    · show (s.weak.set j WeakPtr.empty ++ [w])[s.weak.length]? = _
      rw [List.getElem?_append_right (by simp)]
      simp
    · intro k hk hlt
      show (s.weak.set j WeakPtr.empty ++ [w])[k]? = _
      rw [List.getElem?_append_left (by simpa using hlt)]
      exact List.getElem?_set_ne (Ne.symm hk)

theorem C10_witness :
    (∃ s', liveState.sharedMove 0 = .ok s' ∧ s'.heap = liveState.heap ∧
        s'.weak = liveState.weak ∧
        s'.shared[0]? = some SharedPtr.empty ∧
        SharedPtr.empty.Get = none ∧ SharedPtr.empty.UseCount s'.heap = some 0 ∧
        s'.shared[liveState.shared.length]? = some ⟨some (Addr.storage 0), some 0⟩ ∧
        s'.shared.length = liveState.shared.length + 1 ∧
        (∀ k, k ≠ 0 → k < liveState.shared.length → s'.shared[k]? = liveState.shared[k]?)) ∧
    liveState.sharedMove 0
      = .ok { liveState with
              shared := [SharedPtr.empty, ⟨some (Addr.storage 0), some 0⟩] } ∧
    liveState.weakMove 0
      = .ok { liveState with
              weak := [WeakPtr.empty, ⟨some (Addr.storage 0), some 0⟩] } :=
  ⟨(C10_move_leaves_source_empty liveState).1 0 ⟨some (Addr.storage 0), some 0⟩ rfl,
   rfl, rfl⟩

theorem load_store_same {h : Heap T} {b : Nat} {c : ControlBlock T} (hb : b < h.length)
    (hc : c.freed = false) : (h.store b c).load b = some c := by
  simp [Heap.load, store_getElem?_same c hb, hc]

theorem list_set_self {α : Type} {l : List α} {i : Nat} {a : α} (h : l[i]? = some a) :
    l.set i a = l := by
  induction l generalizing i with
  | nil => simp
  | cons x l ih =>
    cases i with
    | zero =>
      simp at h
      simp [h]
    | succ i =>
      simp at h
      simp [ih h]

theorem store_self {h : Heap T} {b : Nat} {c : ControlBlock T} (hget : h[b]? = some c) :
    h.store b c = h :=
  list_set_self hget

/-- C11. In a reachable state let `A` be a live `SharedPtr` that points to block `b`.
For every pointer `p` the aliasing construction `B = SharedPtr(A, p)` returns; `B` has
the block of `A` and `B.Get() == p`; `A` is as before; the store differs only in the
strong count of block `b`, which is one more; `B.UseCount()` and `A.UseCount()` are
both that new count. -/
theorem C11_aliasing_shares_block {s : State T} (hr : Reachable s) (hf : Fits s)
    {i : Nat} {A : SharedPtr} (hA : s.shared[i]? = some A) {b : Nat}
    (hb : A.block_ = some b) (p : Ptr) :
    ∃ c s', s.heap.load b = some c ∧ s.sharedAliasing i p = .ok s' ∧
      s'.shared = s.shared ++ [⟨p, some b⟩] ∧ s'.weak = s.weak ∧
      s'.heap = s.heap.store b { c with sp_cnt_ref_ := c.sp_cnt_ref_ + 1 } ∧
      s'.shared[i]? = some A ∧ A.Get = A.ptr_ ∧
      SharedPtr.Get ⟨p, some b⟩ = p ∧ SharedPtr.GetBlock ⟨p, some b⟩ = A.GetBlock ∧
      SharedPtr.UseCount s'.heap ⟨p, some b⟩ = some (c.sp_cnt_ref_ + 1) ∧
      SharedPtr.UseCount s'.heap A = some (c.sp_cnt_ref_ + 1) := by
  have hs := hr.inv
  have hpos := owners_pos hA hb
  obtain ⟨c, hload, hget, hfree, hsp, -⟩ := hs.load_of_owner hpos
  have hlt : b < s.heap.length := (List.getElem?_eq_some.mp hget).1
  have hi : i < s.shared.length := (List.getElem?_eq_some.mp hA).1
  have hle := owners_le s b
  have hinc : incr c.sp_cnt_ref_ = c.sp_cnt_ref_ + 1 :=
    incr_of_lt (by have := hf.1; omega)
  have hres : s.sharedAliasing i p = .ok { s with
      heap := s.heap.store b { c with sp_cnt_ref_ := c.sp_cnt_ref_ + 1 },
      shared := s.shared ++ [⟨p, some b⟩] } := by
    simp [State.sharedAliasing, hA, SharedPtr.aliasing, hb, hload, hinc]
  have hl : (s.heap.store b { c with sp_cnt_ref_ := c.sp_cnt_ref_ + 1 }).load b
      = some { c with sp_cnt_ref_ := c.sp_cnt_ref_ + 1 } := load_store_same hlt hfree
  refine ⟨c, _, hload, hres, rfl, rfl, rfl, ?_, rfl, rfl, hb.symm, ?_, ?_⟩
  · show (s.shared ++ [_])[i]? = _
    rw [List.getElem?_append_left hi, hA]
  · simp [SharedPtr.UseCount, hl]
  · simp [SharedPtr.UseCount, hb, hl]

theorem C11_witness :
    Reachable liveState ∧ Fits liveState ∧
    liveState.shared[0]? = some ⟨some (Addr.storage 0), some 0⟩ ∧
    ∃ c s', liveState.heap.load 0 = some c ∧
      liveState.sharedAliasing 0 (some (Addr.external 9)) = .ok s' ∧
      s'.shared = liveState.shared ++ [⟨some (Addr.external 9), some 0⟩] ∧
      s'.weak = liveState.weak ∧
      s'.heap = liveState.heap.store 0 { c with sp_cnt_ref_ := c.sp_cnt_ref_ + 1 } ∧
      s'.shared[0]? = some ⟨some (Addr.storage 0), some 0⟩ ∧
      SharedPtr.Get ⟨some (Addr.storage 0), some 0⟩ = some (Addr.storage 0) ∧
      SharedPtr.Get ⟨some (Addr.external 9), some 0⟩ = some (Addr.external 9) ∧
      SharedPtr.GetBlock ⟨some (Addr.external 9), some 0⟩
        = SharedPtr.GetBlock ⟨some (Addr.storage 0), some 0⟩ ∧
      SharedPtr.UseCount s'.heap ⟨some (Addr.external 9), some 0⟩
        = some (c.sp_cnt_ref_ + 1) ∧
      SharedPtr.UseCount s'.heap ⟨some (Addr.storage 0), some 0⟩
        = some (c.sp_cnt_ref_ + 1) :=
  ⟨liveState_reachable, by decide, rfl,
   C11_aliasing_shares_block liveState_reachable (by decide)
     (i := 0) (A := ⟨some (Addr.storage 0), some 0⟩) rfl (b := 0) rfl
     (some (Addr.external 9))⟩

/-- C12. `MakeShared<T>(args...)`, with `v` the value `T(args...)`, appends exactly one
control block to the store and leaves every existing block as it is; the new block is a
`ControlBlockHolder` whose storage holds `v`, with strong count 1 and weak count 0, not
freed and its payload alive; the returned `SharedPtr` points to that block, its
`Get()` is the block's `GetPtr()`, reading through it gives `v`, and its `UseCount()`
is 1. -/
theorem C12_makeShared_one_holder_block (h : Heap T) (v : T) :
    (MakeShared h v).1 = h ++ [⟨1, 0, .holder v, 0, 0, false⟩] ∧
    (MakeShared h v).1.length = h.length + 1 ∧
    (∀ b, b < h.length → (MakeShared h v).1[b]? = h[b]?) ∧
    (MakeShared h v).2.block_ = some h.length ∧
    (MakeShared h v).2.Get = GetPtr h.length ∧
    (MakeShared h v).2.Get ≠ none ∧
    deref (MakeShared h v).1 (MakeShared h v).2.Get = some v ∧
    (MakeShared h v).2.UseCount (MakeShared h v).1 = some 1 := by
  have h1 : MakeShared h v
      = (h ++ [⟨1, 0, .holder v, 0, 0, false⟩], ⟨GetPtr h.length, some h.length⟩) := by
    have hi : incr 0 = 1 := by unfold incr SIZE_MOD; omega
    simp [MakeShared, Heap.alloc, alloc_store, GetPtr, ControlBlock.mkHolder, hi]
  rw [h1]
  refine ⟨rfl, by simp, ?_, rfl, rfl, by simp [SharedPtr.Get, GetPtr], ?_, ?_⟩
  · intro b hb
    exact List.getElem?_append_left hb
  · simp [deref, SharedPtr.Get, GetPtr, Heap.load]
  · simp [SharedPtr.UseCount, Heap.load]

theorem C12_witness :
    (MakeShared ([] : Heap (Nat × Nat)) (3, 4)).1 = [⟨1, 0, .holder (3, 4), 0, 0, false⟩] ∧
    (MakeShared ([] : Heap (Nat × Nat)) (3, 4)).2 = ⟨some (Addr.storage 0), some 0⟩ ∧
    deref (MakeShared ([] : Heap (Nat × Nat)) (3, 4)).1
      (MakeShared ([] : Heap (Nat × Nat)) (3, 4)).2.Get = some (3, 4) ∧
    (MakeShared ([] : Heap (Nat × Nat)) (3, 4)).2.UseCount
      (MakeShared ([] : Heap (Nat × Nat)) (3, 4)).1 = some 1 :=
  ⟨(C12_makeShared_one_holder_block [] (3, 4)).1, rfl,
   (C12_makeShared_one_holder_block [] (3, 4)).2.2.2.2.2.2.1,
   (C12_makeShared_one_holder_block [] (3, 4)).2.2.2.2.2.2.2⟩

/-! ## Assignment and `Reset`: temporary, `Swap`, destruction of the temporary -/

theorem temp_list {l : List SharedPtr} {i : Nat} {a : SharedPtr} (tmp : SharedPtr)
    (hi : l[i]? = some a) :
    (((l ++ [tmp]).set l.length a).set i tmp) = l.set i tmp ++ [a] := by
  have hlt : i < l.length := (List.getElem?_eq_some.mp hi).1
  have h1 : (l ++ [tmp]).set l.length a = l ++ [a] := by
    rw [List.set_append_right _ _ (Nat.le_refl _)]
    simp
  rw [h1, List.set_append_left _ _ hlt]

/-- The tail of every assignment and `Reset`: the temporary at the end of the list is
swapped with `shared[i]` and then destroyed, which runs the destructor on the old value
of `shared[i]`. -/
theorem swap_dtor_temp {t : State T} {l : List SharedPtr} {y a : SharedPtr} {i : Nat}
    (hsh : t.shared = l ++ [y]) (hi : l[i]? = some a) :
    (t.sharedSwap l.length i >>= fun s2 => s2.sharedDtor l.length)
      = match SharedPtr.dtor t.heap a with
        | none => .error .undefinedBehaviour
        | some h => .ok { t with heap := h, shared := l.set i y } := by
  have hlt : i < l.length := (List.getElem?_eq_some.mp hi).1
  have h1 : t.shared[l.length]? = some y := by
    rw [hsh, List.getElem?_append_right (Nat.le_refl _)]
    simp
  have h2 : t.shared[i]? = some a := by
    rw [hsh, List.getElem?_append_left hlt, hi]
  have h3 : t.sharedSwap l.length i
      = .ok { t with shared := l.set i y ++ [a] } := by
    simp only [State.sharedSwap, h1, h2, SharedPtr.Swap]
    rw [hsh, temp_list y hi]
  have h4 : (l.set i y ++ [a])[l.length]? = some a := by
    rw [List.getElem?_append_right (by simp)]
    simp
  have h5 : (l.set i y ++ [a]).eraseIdx l.length = l.set i y := by
    rw [List.eraseIdx_append_of_length_le (by simp)]
    simp
  rw [h3]
  simp only [bind, Except.bind, State.sharedDtor, h4]
  cases hd : SharedPtr.dtor t.heap a with
  | none => rfl
  | some h => simp [h5]

theorem sharedReset_eq {s : State T} {i : Nat} {a : SharedPtr} (hi : s.shared[i]? = some a) :
    s.sharedReset i
      = match SharedPtr.dtor s.heap a with
        | none => .error .undefinedBehaviour
        | some h => .ok { s with heap := h, shared := s.shared.set i SharedPtr.empty } := by
  unfold State.sharedReset State.sharedDefault
  simp only [bind, Except.bind]
  exact swap_dtor_temp (t := { s with shared := s.shared ++ [SharedPtr.empty] }) rfl hi

theorem sharedResetPtr_eq {s : State T} {i : Nat} {a : SharedPtr}
    (hi : s.shared[i]? = some a) (p : Ptr) :
    s.sharedResetPtr i p
      = match SharedPtr.dtor (SharedPtr.fromRaw s.heap p).1 a with
        | none => .error .undefinedBehaviour
        | some h => .ok { s with heap := h,
                                  shared := s.shared.set i (SharedPtr.fromRaw s.heap p).2 } := by
  unfold State.sharedResetPtr State.sharedFromRaw
  simp only [bind, Except.bind]
  exact swap_dtor_temp
    (t := { s with heap := (SharedPtr.fromRaw s.heap p).1,
                    shared := s.shared ++ [(SharedPtr.fromRaw s.heap p).2] }) rfl hi

theorem sharedMoveAssign_eq {s : State T} {i j : Nat} {a x : SharedPtr}
    (hj : s.shared[j]? = some x) (hi : (s.shared.set j SharedPtr.empty)[i]? = some a) :
    s.sharedMoveAssign i j
      = match SharedPtr.dtor s.heap a with
        | none => .error .undefinedBehaviour
        | some h => .ok { s with heap := h,
                                  shared := (s.shared.set j SharedPtr.empty).set i x } := by
  unfold State.sharedMoveAssign State.sharedMove
  simp only [hj, SharedPtr.move, bind, Except.bind]
  have := swap_dtor_temp
    (t := { s with shared := s.shared.set j SharedPtr.empty ++ [x] })
    (l := s.shared.set j SharedPtr.empty) (y := x) rfl hi
  simpa [SharedPtr.empty] using this

theorem sharedAssign_eq {s : State T} {i j : Nat} {a x : SharedPtr} {h1 : Heap T}
    (hj : s.shared[j]? = some x) (hi : s.shared[i]? = some a)
    (hc : SharedPtr.copy s.heap x = some (h1, x)) :
    s.sharedAssign i j
      = match SharedPtr.dtor h1 a with
        | none => .error .undefinedBehaviour
        | some h => .ok { s with heap := h, shared := s.shared.set i x } := by
  unfold State.sharedAssign State.sharedCopy
  simp only [hj, hc, bind, Except.bind]
  exact swap_dtor_temp (t := { s with heap := h1, shared := s.shared ++ [x] }) rfl hi

/-- The destructor does the same on a store with one more block at the end, when the
handle does not point to that block. -/
theorem dtor_append {h : Heap T} {a : SharedPtr} (c : ControlBlock T)
    (ha : ∀ b, a.block_ = some b → b < h.length) :
    SharedPtr.dtor (h ++ [c]) a = (SharedPtr.dtor h a).map (· ++ [c]) := by
  cases hb : a.block_ with
  | none => simp [SharedPtr.dtor, hb]
  | some b =>
    have hlt := ha b hb
    have hget : (h ++ [c])[b]? = h[b]? := List.getElem?_append_left hlt
    have hset : ∀ d, Heap.store (h ++ [c]) b d = Heap.store h b d ++ [c] := by
      intro d
      simp [Heap.store, List.set_append_left _ _ hlt]
    have hload : Heap.load (h ++ [c]) b = Heap.load h b := by
      simp [Heap.load, hget]
    simp only [SharedPtr.dtor, hb, hload]
    cases hl : Heap.load h b with
    | none => simp
    | some d =>
      simp only [Option.bind_eq_bind, Option.some_bind, hset]
      split <;> [split; skip] <;> simp

theorem fromRaw_eq (h : Heap T) (p : Ptr) :
    SharedPtr.fromRaw h p = (h ++ [⟨1, 0, .pointer p, 0, 0, false⟩], ⟨p, some h.length⟩) := by
  have hi : incr 0 = 1 := by unfold incr SIZE_MOD; omega
  simp [SharedPtr.fromRaw, Heap.alloc, alloc_store, ControlBlock.mkPointer, hi]

theorem dtor_length {h h' : Heap T} {a : SharedPtr} (hd : SharedPtr.dtor h a = some h') :
    h'.length = h.length := by
  cases hb : a.block_ with
  | none =>
    simp [SharedPtr.dtor, hb] at hd
    rw [← hd]
  | some b =>
    cases hl : h.load b with
    | none => simp [SharedPtr.dtor, hb, hl] at hd
    | some c =>
      simp only [SharedPtr.dtor, hb, hl, Option.bind_eq_bind, Option.some_bind] at hd
      split at hd <;> [split at hd; skip] <;>
      · simp at hd
        rw [← hd]
        exact store_length _ _ _

theorem Inv.block_in_range {s : State T} (hs : Inv s) {i : Nat} {x : SharedPtr}
    (hx : s.shared[i]? = some x) : ∀ b, x.block_ = some b → b < s.heap.length := by
  intro b hb
  obtain ⟨c, -, hget, -⟩ := hs.load_of_owner (owners_pos hx hb)
  exact (List.getElem?_eq_some.mp hget).1

theorem Inv.dtor_returns {s : State T} (hs : Inv s) {i : Nat} {x : SharedPtr}
    (hx : s.shared[i]? = some x) : ∃ h', SharedPtr.dtor s.heap x = some h' := by
  obtain ⟨s', hres, -⟩ := sharedDtor_spec hs hx
  cases hd : SharedPtr.dtor s.heap x with
  | none => simp [State.sharedDtor, hx, hd] at hres
  | some h' => exact ⟨h', rfl⟩

/-- C13. In a reachable state, for a live `SharedPtr` `x` at position `i`: the source's
`Reset()` and `Reset(p)` coincide with the specification's wording (release as the
destructor would, then leave empty or take `p` as construction from a raw pointer
does). The destructor run on `x` returns a store `h'`; destruction, `Reset()` and
`Reset(p)` all leave exactly that store, `Reset()` leaves `x` empty, and `Reset(p)`
adds the one block that `SharedPtr(p)` on `h'` adds and leaves `x` pointing to it with
`Get() == p` and `UseCount() == 1`. -/
theorem C13_reset_releases_as_destructor {s : State T} (hr : Reachable s) {i : Nat}
    {x : SharedPtr} (hx : s.shared[i]? = some x) (p : Ptr) :
    s.sharedReset i = s.sharedResetSpec i ∧
    s.sharedResetPtr i p = s.sharedResetPtrSpec i p ∧
    ∃ h', SharedPtr.dtor s.heap x = some h' ∧
      s.sharedDtor i = .ok { s with heap := h', shared := s.shared.eraseIdx i } ∧
      s.sharedReset i = .ok { s with heap := h', shared := s.shared.set i SharedPtr.empty } ∧
      s.sharedResetPtr i p
        = .ok { s with heap := (SharedPtr.fromRaw h' p).1,
                       shared := s.shared.set i (SharedPtr.fromRaw h' p).2 } ∧
      SharedPtr.fromRaw h' p
        = (h' ++ [⟨1, 0, .pointer p, 0, 0, false⟩], ⟨p, some h'.length⟩) ∧
      (SharedPtr.fromRaw h' p).2.Get = p ∧
      (SharedPtr.fromRaw h' p).2.UseCount (SharedPtr.fromRaw h' p).1 = some 1 := by
  have hs := hr.inv
  obtain ⟨h', hd⟩ := hs.dtor_returns hx
  have hlen := dtor_length hd
  have hrange := hs.block_in_range hx
  have hreset : s.sharedReset i
      = .ok { s with heap := h', shared := s.shared.set i SharedPtr.empty } := by
    rw [sharedReset_eq hx, hd]
  have hresetp : s.sharedResetPtr i p
      = .ok { s with heap := (SharedPtr.fromRaw h' p).1,
                     shared := s.shared.set i (SharedPtr.fromRaw h' p).2 } := by
    rw [sharedResetPtr_eq hx, fromRaw_eq, fromRaw_eq]
    simp only []
    rw [dtor_append _ hrange, hd, hlen]
    rfl
  refine ⟨?_, ?_, h', hd, ?_, hreset, hresetp, fromRaw_eq h' p, ?_, ?_⟩
  · rw [hreset]
    simp [State.sharedResetSpec, hx, hd]
  · rw [hresetp]
    simp [State.sharedResetPtrSpec, hx, hd]
  · simp [State.sharedDtor, hx, hd]
  · rw [fromRaw_eq]; rfl
  · rw [fromRaw_eq]
    simp [SharedPtr.UseCount, Heap.load]

theorem C13_witness :
    Reachable liveState ∧
    liveState.shared[0]? = some ⟨some (Addr.storage 0), some 0⟩ ∧
    liveState.sharedReset 0 = liveState.sharedResetSpec 0 ∧
    liveState.sharedResetPtr 0 (some (Addr.external 3))
      = liveState.sharedResetPtrSpec 0 (some (Addr.external 3)) ∧
    liveState.sharedReset 0
      = .ok { heap := [⟨0, 1, .holder 7, 1, 1, false⟩], shared := [SharedPtr.empty],
              weak := liveState.weak, thrown := 0 } ∧
    liveState.sharedDtor 0
      = .ok { heap := [⟨0, 1, .holder 7, 1, 1, false⟩], shared := [],
              weak := liveState.weak, thrown := 0 } ∧
    liveState.sharedResetPtr 0 (some (Addr.external 3))
      = .ok { heap := [⟨0, 1, .holder 7, 1, 1, false⟩,
                       ⟨1, 0, .pointer (some (Addr.external 3)), 0, 0, false⟩],
              shared := [⟨some (Addr.external 3), some 1⟩],
              weak := liveState.weak, thrown := 0 } :=
  ⟨liveState_reachable, rfl,
   (C13_reset_releases_as_destructor liveState_reachable
      (i := 0) (x := ⟨some (Addr.storage 0), some 0⟩) rfl (some (Addr.external 3))).1,
   (C13_reset_releases_as_destructor liveState_reachable
      (i := 0) (x := ⟨some (Addr.storage 0), some 0⟩) rfl (some (Addr.external 3))).2.1,
   rfl, rfl, rfl⟩

/-- C17. In a reachable state, for every live `SharedPtr` (also the only owner of its
block): copy self-assignment and move self-assignment both return and leave the whole
program state as it was, so the handle's two pointers, both counters of every block,
every payload and every block are untouched. -/
theorem C17_self_assignment_is_identity {s : State T} (hr : Reachable s) (hf : Fits s)
    {i : Nat} {a : SharedPtr} (ha : s.shared[i]? = some a) :
    s.sharedAssign i i = .ok s ∧ s.sharedMoveAssign i i = .ok s := by
  have hs := hr.inv
  have hlt : i < s.shared.length := (List.getElem?_eq_some.mp ha).1
  constructor
  · cases hb : a.block_ with
    | none =>
      have hc : SharedPtr.copy s.heap a = some (s.heap, a) := by
        simp [SharedPtr.copy, hb]
        cases a; simp_all
      rw [sharedAssign_eq ha ha hc]
      simp [SharedPtr.dtor, hb, list_set_self ha]
    | some b =>
      have hpos := owners_pos ha hb
      obtain ⟨c, hload, hget, hfree, hsp, -⟩ := hs.load_of_owner hpos
      have hbl : b < s.heap.length := (List.getElem?_eq_some.mp hget).1
      have hle := owners_le s b
      have hinc : incr c.sp_cnt_ref_ = c.sp_cnt_ref_ + 1 :=
        incr_of_lt (by have := hf.1; omega)
      have hdec : decr (c.sp_cnt_ref_ + 1) = c.sp_cnt_ref_ := by
        rw [decr_of_pos (by omega) (by have := hf.1; omega)]
        omega
      have hc : SharedPtr.copy s.heap a
          = some (s.heap.store b { c with sp_cnt_ref_ := c.sp_cnt_ref_ + 1 }, a) := by
        simp [SharedPtr.copy, hb, hload, hinc]
        cases a; simp_all
      rw [sharedAssign_eq ha ha hc]
      have hl : (s.heap.store b { c with sp_cnt_ref_ := c.sp_cnt_ref_ + 1 }).load b
          = some { c with sp_cnt_ref_ := c.sp_cnt_ref_ + 1 } := load_store_same hbl hfree
      have hne : c.sp_cnt_ref_ + 1 ≠ 1 := by omega
      have hback : (s.heap.store b { c with sp_cnt_ref_ := c.sp_cnt_ref_ + 1 }).store b
          { c with sp_cnt_ref_ := c.sp_cnt_ref_ } = s.heap := by
        have : ({ c with sp_cnt_ref_ := c.sp_cnt_ref_ } : ControlBlock T) = c := rfl
        rw [this]
        simp only [Heap.store, List.set_set]
        exact list_set_self hget
      simp [SharedPtr.dtor, hb, hl, hne, hdec, list_set_self ha]
      rw [hback]
  · have hi : (s.shared.set i SharedPtr.empty)[i]? = some SharedPtr.empty := by
      simp [hlt]
    rw [sharedMoveAssign_eq ha hi]
    simp [SharedPtr.dtor, SharedPtr.empty, List.set_set, list_set_self ha]

theorem soleState_reachable : Reachable soleState :=
  Reachable.of_runChecked Reachable.init soleScenario rfl

theorem C17_witness :
    Reachable soleState ∧ Fits soleState ∧
    soleState.shared[0]? = some ⟨some (Addr.storage 0), some 0⟩ ∧
    SharedPtr.UseCount soleState.heap ⟨some (Addr.storage 0), some 0⟩ = some 1 ∧
    soleState.sharedAssign 0 0 = .ok soleState ∧
    soleState.sharedMoveAssign 0 0 = .ok soleState :=
  ⟨soleState_reachable, by decide, rfl, rfl,
   (C17_self_assignment_is_identity soleState_reachable (by decide)
      (i := 0) (a := ⟨some (Addr.storage 0), some 0⟩) rfl).1,
   (C17_self_assignment_is_identity soleState_reachable (by decide)
      (i := 0) (a := ⟨some (Addr.storage 0), some 0⟩) rfl).2⟩

theorem load_store_other {h : Heap T} {b b' : Nat} (c : ControlBlock T) (hb : b ≠ b') :
    (h.store b c).load b' = h.load b' := by
  simp [Heap.load, store_getElem?_other c hb]

/-- C14. In a reachable state let `a = shared[i]` and `x = shared[j]` point to
different blocks `ba` and `bx`. The copy assignment `a = x` returns; afterwards
`shared[i]` holds the object pointer and block of `x`, `x` and every other object are
as before, and the store differs in two blocks only: the strong count of `bx` is one
more; block `ba`, whose strong count was `n > 0`, has strong count `n - 1` when
`n > 1`, and when `n = 1` `DeleteObj()` has run on it and it is freed if its weak count
is 0 and otherwise kept with strong count 0. -/
theorem C14_copy_assignment_rebinds {s : State T} (hr : Reachable s) (hf : Fits s)
    {i j : Nat} {a x : SharedPtr} (ha : s.shared[i]? = some a) (hx : s.shared[j]? = some x)
    {ba bx : Nat} (hba : a.block_ = some ba) (hbx : x.block_ = some bx) (hne : ba ≠ bx) :
    ∃ ca cx s', s.heap.load ba = some ca ∧ s.heap.load bx = some cx ∧
      0 < ca.sp_cnt_ref_ ∧ 0 < cx.sp_cnt_ref_ ∧
      s.sharedAssign i j = .ok s' ∧
      s'.shared = s.shared.set i x ∧ s'.weak = s.weak ∧
      s'.shared[i]? = some x ∧ s'.shared[j]? = some x ∧
      s'.heap = (s.heap.store bx { cx with sp_cnt_ref_ := cx.sp_cnt_ref_ + 1 }).store ba
        (if ca.sp_cnt_ref_ = 1 then
          (if ca.wp_cnt_ref_ = 0 then { ca.DeleteObj with freed := true }
           else ControlBlock.DeleteObj { ca with sp_cnt_ref_ := 0 })
         else { ca with sp_cnt_ref_ := ca.sp_cnt_ref_ - 1 }) := by
  have hs := hr.inv
  have hposa := owners_pos ha hba
  have hposx := owners_pos hx hbx
  obtain ⟨ca, hla, hga, hfa, hspa, hwpa⟩ := hs.load_of_owner hposa
  obtain ⟨cx, hlx, hgx, hfx, hspx, -⟩ := hs.load_of_owner hposx
  have hlea := owners_le s ba
  have hlex := owners_le s bx
  have hi : i < s.shared.length := (List.getElem?_eq_some.mp ha).1
  have hij : i ≠ j := by
    intro h; subst h
    rw [ha] at hx; cases hx
    rw [hba] at hbx; cases hbx
    exact hne rfl
  have hinc : incr cx.sp_cnt_ref_ = cx.sp_cnt_ref_ + 1 :=
    incr_of_lt (by have := hf.1; omega)
  have hc : SharedPtr.copy s.heap x
      = some (s.heap.store bx { cx with sp_cnt_ref_ := cx.sp_cnt_ref_ + 1 }, x) := by
    simp [SharedPtr.copy, hbx, hlx, hinc]
    cases x; simp_all
  have hl1 : (s.heap.store bx { cx with sp_cnt_ref_ := cx.sp_cnt_ref_ + 1 }).load ba
      = some ca := by
    rw [load_store_other _ (Ne.symm hne), hla]
  have hd1 : decr 1 = 0 := by unfold decr SIZE_MOD; omega
  have hdec : decr ca.sp_cnt_ref_ = ca.sp_cnt_ref_ - 1 :=
    decr_of_pos (by omega) (by have := hs.sharedBound; omega)
  have hres : s.sharedAssign i j = .ok { s with
      heap := (s.heap.store bx { cx with sp_cnt_ref_ := cx.sp_cnt_ref_ + 1 }).store ba
        (if ca.sp_cnt_ref_ = 1 then
          (if ca.wp_cnt_ref_ = 0 then { ca.DeleteObj with freed := true }
           else ControlBlock.DeleteObj { ca with sp_cnt_ref_ := 0 })
         else { ca with sp_cnt_ref_ := ca.sp_cnt_ref_ - 1 }),
      shared := s.shared.set i x } := by
    rw [sharedAssign_eq hx ha hc]
    by_cases h1 : ca.sp_cnt_ref_ = 1
    · by_cases h2 : ca.wp_cnt_ref_ = 0
      · simp [SharedPtr.dtor, hba, hl1, h1, h2]
      · simp [SharedPtr.dtor, hba, hl1, h1, h2, hd1]
    · simp [SharedPtr.dtor, hba, hl1, h1, hdec]
  refine ⟨ca, cx, _, hla, hlx, by omega, by omega, hres, rfl, rfl, ?_, ?_, rfl⟩
  · show (s.shared.set i x)[i]? = some x
    simp [hi]
  · show (s.shared.set i x)[j]? = some x
    rw [List.getElem?_set_ne hij, hx]

theorem twoState_reachable : Reachable twoState :=
  Reachable.of_runChecked Reachable.init twoScenario rfl

theorem C14_witness :
    Reachable twoState ∧ Fits twoState ∧
    twoState.shared[0]? = some ⟨some (Addr.storage 0), some 0⟩ ∧
    twoState.shared[1]? = some ⟨some (Addr.storage 1), some 1⟩ ∧
    (∃ ca cx s', twoState.heap.load 0 = some ca ∧ twoState.heap.load 1 = some cx ∧
      0 < ca.sp_cnt_ref_ ∧ 0 < cx.sp_cnt_ref_ ∧
      twoState.sharedAssign 0 1 = .ok s' ∧
      s'.shared = twoState.shared.set 0 ⟨some (Addr.storage 1), some 1⟩ ∧
      s'.weak = twoState.weak ∧
      s'.shared[0]? = some ⟨some (Addr.storage 1), some 1⟩ ∧
      s'.shared[1]? = some ⟨some (Addr.storage 1), some 1⟩ ∧
      s'.heap = (twoState.heap.store 1 { cx with sp_cnt_ref_ := cx.sp_cnt_ref_ + 1 }).store 0
        (if ca.sp_cnt_ref_ = 1 then
          (if ca.wp_cnt_ref_ = 0 then { ca.DeleteObj with freed := true }
           else ControlBlock.DeleteObj { ca with sp_cnt_ref_ := 0 })
         else { ca with sp_cnt_ref_ := ca.sp_cnt_ref_ - 1 })) ∧
    twoState.sharedAssign 0 1
      = .ok { heap := [⟨1, 0, .holder 1, 1, 1, true⟩, ⟨2, 0, .holder 2, 0, 0, false⟩],
              shared := [⟨some (Addr.storage 1), some 1⟩, ⟨some (Addr.storage 1), some 1⟩],
              weak := [], thrown := 0 } :=
  ⟨twoState_reachable, by decide, rfl, rfl,
   C14_copy_assignment_rebinds twoState_reachable (by decide)
     (i := 0) (j := 1) (a := ⟨some (Addr.storage 0), some 0⟩)
     (x := ⟨some (Addr.storage 1), some 1⟩) rfl rfl rfl rfl (by decide),
   rfl⟩

/-! ## What each operation does to the lists of live objects -/

theorem sharedDefault_shape {s s' : State T} (h : s.sharedDefault = .ok s') :
    s'.shared = s.shared ++ [SharedPtr.empty] ∧ s'.weak = s.weak := by
  simp [State.sharedDefault] at h
  subst h
  exact ⟨rfl, rfl⟩

theorem sharedFromRaw_shape {s s' : State T} {p : Ptr} (h : s.sharedFromRaw p = .ok s') :
    s'.shared = s.shared ++ [⟨p, some s.heap.length⟩] ∧ s'.weak = s.weak := by
  simp [State.sharedFromRaw, fromRaw_eq] at h
  subst h
  exact ⟨rfl, rfl⟩

theorem makeShared_shape {s s' : State T} {v : T} (h : s.makeShared v = .ok s') :
    s'.shared = s.shared ++ [⟨GetPtr s.heap.length, some s.heap.length⟩] ∧
    s'.weak = s.weak := by
  simp [State.makeShared, MakeShared, Heap.alloc, GetPtr] at h
  subst h
  exact ⟨rfl, rfl⟩

theorem sharedCopy_shape {s s' : State T} {i : Nat} (h : s.sharedCopy i = .ok s') :
    ∃ x, s.shared[i]? = some x ∧ s'.shared = s.shared ++ [x] ∧ s'.weak = s.weak := by
  unfold State.sharedCopy at h
  cases hx : s.shared[i]? with
  | none => simp [hx] at h
  | some x =>
    simp only [hx] at h
    refine ⟨x, rfl, ?_⟩
    cases hb : x.block_ with
    | none =>
      simp [SharedPtr.copy, hb] at h
      subst h
      exact ⟨by cases x; simp_all, rfl⟩
    | some b =>
      cases hl : s.heap.load b with
      | none => simp [SharedPtr.copy, hb, hl] at h
      | some c =>
        simp [SharedPtr.copy, hb, hl] at h
        subst h
        exact ⟨by cases x; simp_all, rfl⟩

theorem sharedMove_shape {s s' : State T} {i : Nat} (h : s.sharedMove i = .ok s') :
    ∃ x, s.shared[i]? = some x ∧ s'.shared = s.shared.set i SharedPtr.empty ++ [x] ∧
      s'.weak = s.weak ∧ s'.heap = s.heap := by
  unfold State.sharedMove at h
  cases hx : s.shared[i]? with
  | none => simp [hx] at h
  | some x =>
    simp [hx, SharedPtr.move] at h
    subst h
    exact ⟨x, rfl, rfl, rfl, rfl⟩

theorem sharedAliasing_shape {s s' : State T} {i : Nat} {p : Ptr}
    (h : s.sharedAliasing i p = .ok s') :
    ∃ x, s.shared[i]? = some x ∧ s'.shared = s.shared ++ [⟨p, x.block_⟩] ∧
      s'.weak = s.weak := by
  unfold State.sharedAliasing at h
  cases hx : s.shared[i]? with
  | none => simp [hx] at h
  | some x =>
    simp only [hx] at h
    refine ⟨x, rfl, ?_⟩
    cases hb : x.block_ with
    | none =>
      simp [SharedPtr.aliasing, hb] at h
      subst h
      exact ⟨rfl, rfl⟩
    | some b =>
      cases hl : s.heap.load b with
      | none => simp [SharedPtr.aliasing, hb, hl] at h
      | some c =>
        simp [SharedPtr.aliasing, hb, hl] at h
        subst h
        exact ⟨rfl, rfl⟩

theorem sharedFromWeak_shape {s s' : State T} {j : Nat} (h : s.sharedFromWeak j = .ok s') :
    ∃ w, s.weak[j]? = some w ∧
      (s'.shared = s.shared ++ [⟨w.ptr_, w.block_⟩] ∨ s'.shared = s.shared) ∧
      s'.weak = s.weak := by
  unfold State.sharedFromWeak at h
  cases hx : s.weak[j]? with
  | none => simp [hx] at h
  | some w =>
    simp only [hx] at h
    refine ⟨w, rfl, ?_⟩
    cases hb : w.block_ with
    | none =>
      simp [SharedPtr.fromWeak, hb] at h
      subst h
      exact ⟨Or.inl rfl, rfl⟩
    | some b =>
      cases hl : s.heap.load b with
      | none => simp [SharedPtr.fromWeak, hb, hl] at h
      | some c =>
        by_cases hc : c.sp_cnt_ref_ = 0
        · simp [SharedPtr.fromWeak, hb, hl, hc] at h
          subst h
          exact ⟨Or.inr rfl, rfl⟩
        · simp [SharedPtr.fromWeak, hb, hl, hc] at h
          subst h
          exact ⟨Or.inl rfl, rfl⟩

theorem sharedDtor_shape {s s' : State T} {i : Nat} (h : s.sharedDtor i = .ok s') :
    ∃ x, s.shared[i]? = some x ∧ s'.shared = s.shared.eraseIdx i ∧ s'.weak = s.weak := by
  unfold State.sharedDtor at h
  cases hx : s.shared[i]? with
  | none => simp [hx] at h
  | some x =>
    simp only [hx] at h
    cases hd : SharedPtr.dtor s.heap x with
    | none => simp [hd] at h
    | some h' =>
      simp [hd] at h
      subst h
      exact ⟨x, rfl, rfl, rfl⟩

theorem sharedSwap_shape {s s' : State T} {i j : Nat} (h : s.sharedSwap i j = .ok s') :
    ∃ x y, s.shared[i]? = some x ∧ s.shared[j]? = some y ∧
      s'.shared = (s.shared.set i y).set j x ∧ s'.weak = s.weak ∧ s'.heap = s.heap := by
  unfold State.sharedSwap at h
  cases hx : s.shared[i]? with
  | none => simp [hx] at h
  | some x =>
    cases hy : s.shared[j]? with
    | none => simp [hx, hy] at h
    | some y =>
      simp [hx, hy, SharedPtr.Swap] at h
      subst h
      exact ⟨x, y, rfl, rfl, rfl, rfl, rfl⟩

theorem weakDefault_shape {s s' : State T} (h : s.weakDefault = .ok s') :
    s'.weak = s.weak ++ [WeakPtr.empty] ∧ s'.shared = s.shared := by
  simp [State.weakDefault] at h
  subst h
  exact ⟨rfl, rfl⟩

theorem weakCopy_shape {s s' : State T} {j : Nat} (h : s.weakCopy j = .ok s') :
    ∃ w, s.weak[j]? = some w ∧ s'.weak = s.weak ++ [w] ∧ s'.shared = s.shared := by
  unfold State.weakCopy at h
  cases hx : s.weak[j]? with
  | none => simp [hx] at h
  | some x =>
    simp only [hx] at h
    refine ⟨x, rfl, ?_⟩
    cases hb : x.block_ with
    | none =>
      simp [WeakPtr.copy, hb] at h
      subst h
      exact ⟨by cases x; simp_all, rfl⟩
    | some b =>
      cases hl : s.heap.load b with
      | none => simp [WeakPtr.copy, hb, hl] at h
      | some c =>
        simp [WeakPtr.copy, hb, hl] at h
        subst h
        exact ⟨by cases x; simp_all, rfl⟩

theorem weakFromShared_shape {s s' : State T} {i : Nat} (h : s.weakFromShared i = .ok s') :
    ∃ x, s.shared[i]? = some x ∧ s'.weak = s.weak ++ [⟨x.ptr_, x.block_⟩] ∧
      s'.shared = s.shared := by
  unfold State.weakFromShared at h
  cases hx : s.shared[i]? with
  | none => simp [hx] at h
  | some x =>
    simp only [hx] at h
    refine ⟨x, rfl, ?_⟩
    cases hb : x.block_ with
    | none =>
      simp [WeakPtr.fromShared, SharedPtr.GetBlock, SharedPtr.Get, hb] at h
      subst h
      exact ⟨rfl, rfl⟩
    | some b =>
      cases hl : s.heap.load b with
      | none => simp [WeakPtr.fromShared, SharedPtr.GetBlock, SharedPtr.Get, hb, hl] at h
      | some c =>
        simp [WeakPtr.fromShared, SharedPtr.GetBlock, SharedPtr.Get, hb, hl] at h
        subst h
        exact ⟨rfl, rfl⟩

theorem weakMove_shape {s s' : State T} {j : Nat} (h : s.weakMove j = .ok s') :
    ∃ w, s.weak[j]? = some w ∧ s'.weak = s.weak.set j WeakPtr.empty ++ [w] ∧
      s'.shared = s.shared ∧ s'.heap = s.heap := by
  unfold State.weakMove at h
  cases hx : s.weak[j]? with
  | none => simp [hx] at h
  | some x =>
    simp [hx, WeakPtr.move] at h
    subst h
    exact ⟨x, rfl, rfl, rfl, rfl⟩

theorem weakDtor_shape {s s' : State T} {j : Nat} (h : s.weakDtor j = .ok s') :
    ∃ w, s.weak[j]? = some w ∧ s'.weak = s.weak.eraseIdx j ∧ s'.shared = s.shared := by
  unfold State.weakDtor at h
  cases hx : s.weak[j]? with
  | none => simp [hx] at h
  | some x =>
    simp only [hx] at h
    cases hd : WeakPtr.dtor s.heap x with
    | none => simp [hd] at h
    | some h' =>
      simp [hd] at h
      subst h
      exact ⟨x, rfl, rfl, rfl⟩

theorem weakReset_shape {s s' : State T} {j : Nat} (h : s.weakReset j = .ok s') :
    ∃ w, s.weak[j]? = some w ∧ s'.weak = s.weak.set j WeakPtr.empty ∧
      s'.shared = s.shared := by
  unfold State.weakReset at h
  cases hx : s.weak[j]? with
  | none => simp [hx] at h
  | some x =>
    simp only [hx] at h
    refine ⟨x, rfl, ?_⟩
    cases hb : x.block_ with
    | none =>
      simp [WeakPtr.Reset, hb] at h
      subst h
      exact ⟨rfl, rfl⟩
    | some b =>
      cases hl : s.heap.load b with
      | none => simp [WeakPtr.Reset, hb, hl] at h
      | some c =>
        simp [WeakPtr.Reset, hb, hl] at h
        subst h
        exact ⟨rfl, rfl⟩

theorem weakSwap_shape {s s' : State T} {j k : Nat} (h : s.weakSwap j k = .ok s') :
    ∃ x y, s.weak[j]? = some x ∧ s.weak[k]? = some y ∧
      s'.weak = (s.weak.set j y).set k x ∧ s'.shared = s.shared ∧ s'.heap = s.heap := by
  unfold State.weakSwap at h
  cases hx : s.weak[j]? with
  | none => simp [hx] at h
  | some x =>
    cases hy : s.weak[k]? with
    | none => simp [hx, hy] at h
    | some y =>
      simp [hx, hy, WeakPtr.Swap] at h
      subst h
      exact ⟨x, y, rfl, rfl, rfl, rfl, rfl⟩

theorem weakLock_shape {s s' : State T} {j : Nat} (h : s.weakLock j = .ok s') :
    ∃ w, s.weak[j]? = some w ∧
      (s'.shared = s.shared ++ [SharedPtr.empty] ∨
       s'.shared = s.shared ++ [⟨w.ptr_, w.block_⟩] ∨ s'.shared = s.shared) ∧
      s'.weak = s.weak := by
  unfold State.weakLock at h
  cases hx : s.weak[j]? with
  | none => simp [hx] at h
  | some w =>
    simp only [hx] at h
    refine ⟨w, rfl, ?_⟩
    cases hb : w.block_ with
    | none =>
      simp [WeakPtr.Lock, WeakPtr.Expired, WeakPtr.UseCount, hb] at h
      subst h
      exact ⟨Or.inl rfl, rfl⟩
    | some b =>
      cases hl : s.heap.load b with
      | none => simp [WeakPtr.Lock, WeakPtr.Expired, WeakPtr.UseCount, hb, hl] at h
      | some c =>
        by_cases hc : c.sp_cnt_ref_ = 0
        · simp [WeakPtr.Lock, WeakPtr.Expired, WeakPtr.UseCount, hb, hl, hc] at h
          subst h
          exact ⟨Or.inl rfl, rfl⟩
        · simp [WeakPtr.Lock, WeakPtr.Expired, WeakPtr.UseCount, hb, hl, hc,
            SharedPtr.fromWeak] at h
          subst h
          exact ⟨Or.inr (Or.inl rfl), rfl⟩

/-! ## Both pointers null or both non-null -/

theorem paired_of_mem {s s' : State T} (hp : s.Paired)
    (h1 : ∀ x ∈ s'.shared, x ∈ s.shared ∨ x.paired = true)
    (h2 : ∀ w ∈ s'.weak, w ∈ s.weak ∨ w.paired = true) : s'.Paired := by
  constructor
  · intro x hx
    rcases h1 x hx with h | h
    · exact hp.1 x h
    · exact h
  · intro w hw
    rcases h2 w hw with h | h
    · exact hp.2 w h
    · exact h

theorem paired_shared_append {s s' : State T} (hp : s.Paired) {x : SharedPtr}
    (hx : x.paired = true) (hsh : s'.shared = s.shared ++ [x]) (hwk : s'.weak = s.weak) :
    s'.Paired := by
  refine paired_of_mem hp ?_ ?_
  · intro y hy
    rw [hsh] at hy
    simp at hy
    rcases hy with h | h
    · exact Or.inl h
    · subst h; exact Or.inr hx
  · intro w hw
    rw [hwk] at hw
    exact Or.inl hw

theorem paired_weak_append {s s' : State T} (hp : s.Paired) {w : WeakPtr}
    (hw : w.paired = true) (hwk : s'.weak = s.weak ++ [w]) (hsh : s'.shared = s.shared) :
    s'.Paired := by
  refine paired_of_mem hp ?_ ?_
  · intro x hx
    rw [hsh] at hx
    exact Or.inl hx
  · intro y hy
    rw [hwk] at hy
    simp at hy
    rcases hy with h | h
    · exact Or.inl h
    · subst h; exact Or.inr hw

theorem paired_same {s s' : State T} (hp : s.Paired)
    (hsh : s'.shared = s.shared) (hwk : s'.weak = s.weak) : s'.Paired := by
  refine paired_of_mem hp ?_ ?_
  · intro x hx; rw [hsh] at hx; exact Or.inl hx
  · intro w hw; rw [hwk] at hw; exact Or.inl hw

theorem paired_empty : SharedPtr.empty.paired = true := rfl

theorem paired_weak_empty : WeakPtr.empty.paired = true := rfl

theorem State.Paired.keep_sharedDefault {s s' : State T} (hp : s.Paired)
    (h : s.sharedDefault = .ok s') : s'.Paired := by
  obtain ⟨h1, h2⟩ := sharedDefault_shape h
  exact paired_shared_append hp paired_empty h1 h2

theorem State.Paired.keep_sharedFromRaw {s s' : State T} {p : Ptr} (hp : s.Paired)
    (hk : p.isSome = true) (h : s.sharedFromRaw p = .ok s') : s'.Paired := by
  obtain ⟨h1, h2⟩ := sharedFromRaw_shape h
  exact paired_shared_append hp (by simp [SharedPtr.paired, hk]) h1 h2

theorem State.Paired.keep_makeShared {s s' : State T} {v : T} (hp : s.Paired)
    (h : s.makeShared v = .ok s') : s'.Paired := by
  obtain ⟨h1, h2⟩ := makeShared_shape h
  exact paired_shared_append hp (by simp [SharedPtr.paired, GetPtr]) h1 h2

theorem State.Paired.keep_sharedCopy {s s' : State T} {i : Nat} (hp : s.Paired)
    (h : s.sharedCopy i = .ok s') : s'.Paired := by
  obtain ⟨x, hx, h1, h2⟩ := sharedCopy_shape h
  exact paired_shared_append hp (hp.1 x (List.getElem?_mem hx)) h1 h2

theorem State.Paired.keep_sharedMove {s s' : State T} {i : Nat} (hp : s.Paired)
    (h : s.sharedMove i = .ok s') : s'.Paired := by
  obtain ⟨x, hx, h1, h2, -⟩ := sharedMove_shape h
  refine paired_of_mem hp ?_ ?_
  · intro y hy
    rw [h1] at hy
    simp at hy
    rcases hy with hy | hy
    · rcases List.mem_or_eq_of_mem_set hy with h | h
      · exact Or.inl h
      · subst h; exact Or.inr paired_empty
    · subst hy; exact Or.inl (List.getElem?_mem hx)
  · intro w hw; rw [h2] at hw; exact Or.inl hw

theorem State.Paired.keep_sharedAliasing {s s' : State T} {i : Nat} {p : Ptr} (hp : s.Paired)
    (hk : (Op.sharedAliasing i p : Op T).keepsPairing s = true)
    (h : s.sharedAliasing i p = .ok s') : s'.Paired := by
  obtain ⟨x, hx, h1, h2⟩ := sharedAliasing_shape h
  simp only [Op.keepsPairing, hx] at hk
  exact paired_shared_append hp (by simpa [SharedPtr.paired] using hk) h1 h2

theorem State.Paired.keep_sharedFromWeak {s s' : State T} {j : Nat} (hp : s.Paired)
    (h : s.sharedFromWeak j = .ok s') : s'.Paired := by
  obtain ⟨w, hw, h1, h2⟩ := sharedFromWeak_shape h
  have hwp := hp.2 w (List.getElem?_mem hw)
  rcases h1 with h1 | h1
  · exact paired_shared_append hp (by simpa [SharedPtr.paired, WeakPtr.paired] using hwp) h1 h2
  · exact paired_same hp h1 h2

theorem State.Paired.keep_weakLock {s s' : State T} {j : Nat} (hp : s.Paired)
    (h : s.weakLock j = .ok s') : s'.Paired := by
  obtain ⟨w, hw, h1, h2⟩ := weakLock_shape h
  have hwp := hp.2 w (List.getElem?_mem hw)
  rcases h1 with h1 | h1 | h1
  · exact paired_shared_append hp paired_empty h1 h2
  · exact paired_shared_append hp (by simpa [SharedPtr.paired, WeakPtr.paired] using hwp) h1 h2
  · exact paired_same hp h1 h2

theorem State.Paired.keep_sharedDtor {s s' : State T} {i : Nat} (hp : s.Paired)
    (h : s.sharedDtor i = .ok s') : s'.Paired := by
  obtain ⟨x, hx, h1, h2⟩ := sharedDtor_shape h
  refine paired_of_mem hp ?_ ?_
  · intro y hy
    rw [h1] at hy
    exact Or.inl (List.mem_of_mem_eraseIdx hy)
  · intro w hw; rw [h2] at hw; exact Or.inl hw

theorem State.Paired.keep_sharedSwap {s s' : State T} {i j : Nat} (hp : s.Paired)
    (h : s.sharedSwap i j = .ok s') : s'.Paired := by
  obtain ⟨x, y, hx, hy, h1, h2, -⟩ := sharedSwap_shape h
  refine paired_of_mem hp ?_ ?_
  · intro z hz
    rw [h1] at hz
    rcases List.mem_or_eq_of_mem_set hz with h | h
    · rcases List.mem_or_eq_of_mem_set h with h' | h'
      · exact Or.inl h'
      · subst h'; exact Or.inl (List.getElem?_mem hy)
    · subst h; exact Or.inl (List.getElem?_mem hx)
  · intro w hw; rw [h2] at hw; exact Or.inl hw

theorem State.Paired.keep_weakDefault {s s' : State T} (hp : s.Paired)
    (h : s.weakDefault = .ok s') : s'.Paired := by
  obtain ⟨h1, h2⟩ := weakDefault_shape h
  exact paired_weak_append hp paired_weak_empty h1 h2

theorem State.Paired.keep_weakCopy {s s' : State T} {j : Nat} (hp : s.Paired)
    (h : s.weakCopy j = .ok s') : s'.Paired := by
  obtain ⟨w, hw, h1, h2⟩ := weakCopy_shape h
  exact paired_weak_append hp (hp.2 w (List.getElem?_mem hw)) h1 h2

theorem State.Paired.keep_weakFromShared {s s' : State T} {i : Nat} (hp : s.Paired)
    (h : s.weakFromShared i = .ok s') : s'.Paired := by
  obtain ⟨x, hx, h1, h2⟩ := weakFromShared_shape h
  have hxp := hp.1 x (List.getElem?_mem hx)
  exact paired_weak_append hp (by simpa [SharedPtr.paired, WeakPtr.paired] using hxp) h1 h2

theorem State.Paired.keep_weakMove {s s' : State T} {j : Nat} (hp : s.Paired)
    (h : s.weakMove j = .ok s') : s'.Paired := by
  obtain ⟨x, hx, h1, h2, -⟩ := weakMove_shape h
  refine paired_of_mem hp ?_ ?_
  · intro y hy; rw [h2] at hy; exact Or.inl hy
  · intro y hy
    rw [h1] at hy
    simp at hy
    rcases hy with hy | hy
    · rcases List.mem_or_eq_of_mem_set hy with h | h
      · exact Or.inl h
      · subst h; exact Or.inr paired_weak_empty
    · subst hy; exact Or.inl (List.getElem?_mem hx)

theorem State.Paired.keep_weakDtor {s s' : State T} {j : Nat} (hp : s.Paired)
    (h : s.weakDtor j = .ok s') : s'.Paired := by
  obtain ⟨x, hx, h1, h2⟩ := weakDtor_shape h
  refine paired_of_mem hp ?_ ?_
  · intro y hy; rw [h2] at hy; exact Or.inl hy
  · intro y hy
    rw [h1] at hy
    exact Or.inl (List.mem_of_mem_eraseIdx hy)

theorem State.Paired.keep_weakReset {s s' : State T} {j : Nat} (hp : s.Paired)
    (h : s.weakReset j = .ok s') : s'.Paired := by
  obtain ⟨x, hx, h1, h2⟩ := weakReset_shape h
  refine paired_of_mem hp ?_ ?_
  · intro y hy; rw [h2] at hy; exact Or.inl hy
  · intro y hy
    rw [h1] at hy
    rcases List.mem_or_eq_of_mem_set hy with h | h
    · exact Or.inl h
    · subst h; exact Or.inr paired_weak_empty

theorem State.Paired.keep_weakSwap {s s' : State T} {j k : Nat} (hp : s.Paired)
    (h : s.weakSwap j k = .ok s') : s'.Paired := by
  obtain ⟨x, y, hx, hy, h1, h2, -⟩ := weakSwap_shape h
  refine paired_of_mem hp ?_ ?_
  · intro z hz; rw [h2] at hz; exact Or.inl hz
  · intro z hz
    rw [h1] at hz
    rcases List.mem_or_eq_of_mem_set hz with h | h
    · rcases List.mem_or_eq_of_mem_set h with h' | h'
      · exact Or.inl h'
      · subst h'; exact Or.inl (List.getElem?_mem hy)
    · subst h; exact Or.inl (List.getElem?_mem hx)

theorem State.Paired.keep_step {s s' : State T} {op : Op T} (hp : s.Paired)
    (hk : op.keepsPairing s = true) (h : SmartPointers.step s op = .ok s') : s'.Paired := by
  cases op with
  | sharedDefault => exact hp.keep_sharedDefault h
  | sharedFromRaw ptr => exact hp.keep_sharedFromRaw hk h
  | makeShared v => exact hp.keep_makeShared h
  | sharedCopy i => exact hp.keep_sharedCopy h
  | sharedMove i => exact hp.keep_sharedMove h
  | sharedAliasing i ptr => exact hp.keep_sharedAliasing hk h
  | sharedFromWeak j => exact hp.keep_sharedFromWeak h
  | sharedAssign i j =>
    obtain ⟨s1, h1, h⟩ := bind_eq_ok.mp h
    obtain ⟨s2, h2, h3⟩ := bind_eq_ok.mp h
    exact ((hp.keep_sharedCopy h1).keep_sharedSwap h2).keep_sharedDtor h3
  | sharedMoveAssign i j =>
    obtain ⟨s1, h1, h⟩ := bind_eq_ok.mp h
    obtain ⟨s2, h2, h3⟩ := bind_eq_ok.mp h
    exact ((hp.keep_sharedMove h1).keep_sharedSwap h2).keep_sharedDtor h3
  | sharedDtor i => exact hp.keep_sharedDtor h
  | sharedReset i =>
    obtain ⟨s1, h1, h⟩ := bind_eq_ok.mp h
    obtain ⟨s2, h2, h3⟩ := bind_eq_ok.mp h
    exact ((hp.keep_sharedDefault h1).keep_sharedSwap h2).keep_sharedDtor h3
  | sharedResetPtr i ptr =>
    obtain ⟨s1, h1, h⟩ := bind_eq_ok.mp h
    obtain ⟨s2, h2, h3⟩ := bind_eq_ok.mp h
    exact ((hp.keep_sharedFromRaw hk h1).keep_sharedSwap h2).keep_sharedDtor h3
  | sharedSwap i j => exact hp.keep_sharedSwap h
  | weakDefault => exact hp.keep_weakDefault h
  | weakCopy j => exact hp.keep_weakCopy h
  | weakFromShared i => exact hp.keep_weakFromShared h
  | weakMove j => exact hp.keep_weakMove h
  | weakAssign j k =>
    obtain ⟨s1, h1, h⟩ := bind_eq_ok.mp h
    obtain ⟨s2, h2, h3⟩ := bind_eq_ok.mp h
    exact ((hp.keep_weakCopy h1).keep_weakSwap h2).keep_weakDtor h3
  | weakAssignShared j i =>
    obtain ⟨s1, h1, h⟩ := bind_eq_ok.mp h
    obtain ⟨s2, h2, h3⟩ := bind_eq_ok.mp h
    exact ((hp.keep_weakFromShared h1).keep_weakSwap h2).keep_weakDtor h3
  | weakMoveAssign j k =>
    obtain ⟨s1, h1, h⟩ := bind_eq_ok.mp h
    obtain ⟨s2, h2, h3⟩ := bind_eq_ok.mp h
    exact ((hp.keep_weakMove h1).keep_weakSwap h2).keep_weakDtor h3
  | weakDtor j => exact hp.keep_weakDtor h
  | weakReset j => exact hp.keep_weakReset h
  | weakSwap j k => exact hp.keep_weakSwap h
  | weakLock j => exact hp.keep_weakLock h

theorem PairedReachable.paired {s : State T} (h : PairedReachable s) : s.Paired := by
  induction h with
  | init => exact ⟨by simp [State.init], by simp [State.init]⟩
  | step op _ hk hstep ih => exact ih.keep_step hk hstep

/-- C15 as stated fails. After `SharedPtr<int> x(static_cast<int*>(nullptr));` the
handle has a null object pointer and a control block (its boolean test is false while
`UseCount()` is 1); after `SharedPtr<int> e; SharedPtr<int> x(e, p);` with `p` not null
the handle has a non-null object pointer and no control block (its boolean test is
true while `UseCount()` is 0). -/
theorem C15_counterexample :
    run State.init nullRawScenario
      = .ok { heap := [⟨1, 0, .pointer none, 0, 0, false⟩], shared := [⟨none, some 0⟩],
              weak := [], thrown := 0 } ∧
    (⟨none, some 0⟩ : SharedPtr).paired = false ∧
    (⟨none, some 0⟩ : SharedPtr).toBool = false ∧
    SharedPtr.UseCount [(⟨1, 0, .pointer none, 0, 0, false⟩ : ControlBlock Nat)]
      ⟨none, some 0⟩ = some 1 ∧
    run State.init aliasEmptyScenario
      = .ok { heap := [], shared := [SharedPtr.empty, ⟨some (Addr.external 5), none⟩],
              weak := [], thrown := 0 } ∧
    (⟨some (Addr.external 5), none⟩ : SharedPtr).paired = false ∧
    (⟨some (Addr.external 5), none⟩ : SharedPtr).toBool = true ∧
    SharedPtr.UseCount ([] : Heap Nat) ⟨some (Addr.external 5), none⟩ = some 0 := by
  refine ⟨rfl, rfl, rfl, rfl, rfl, rfl, rfl, rfl⟩

/-- C15, amended. In every state reached by public operations in which each raw
pointer given to `SharedPtr(U*)` or `Reset(U*)` is not null and each pointer given to
the aliasing constructor is null exactly when the owner has no control block, every
live `SharedPtr` has its object pointer and its control-block pointer both null or both
non-null, and its boolean test is true exactly when it has a control block. -/
theorem C15_pointers_paired {s : State T} (hr : PairedReachable s) {x : SharedPtr}
    (hx : x ∈ s.shared) :
    (x.ptr_ = none ↔ x.block_ = none) ∧ (x.toBool = true ↔ x.block_ ≠ none) := by
  have hp := hr.paired.1 x hx
  simp only [SharedPtr.paired] at hp
  cases hptr : x.ptr_ <;> cases hblk : x.block_ <;>
    simp [hptr, hblk, SharedPtr.toBool] at hp ⊢

theorem C15_witness :
    PairedReachable lockedState ∧
    (⟨some (Addr.storage 0), some 0⟩ : SharedPtr) ∈ lockedState.shared ∧
    (((⟨some (Addr.storage 0), some 0⟩ : SharedPtr).ptr_ = none ↔
        (⟨some (Addr.storage 0), some 0⟩ : SharedPtr).block_ = none) ∧
     ((⟨some (Addr.storage 0), some 0⟩ : SharedPtr).toBool = true ↔
        (⟨some (Addr.storage 0), some 0⟩ : SharedPtr).block_ ≠ none)) :=
  ⟨@PairedReachable.step Nat liveState lockedState (.weakLock 0)
      (@PairedReachable.step Nat soleState liveState (.weakFromShared 0)
        (@PairedReachable.step Nat State.init soleState (.makeShared 7)
          PairedReachable.init rfl rfl) rfl rfl) rfl rfl,
   by decide,
   C15_pointers_paired
     (@PairedReachable.step Nat liveState lockedState (.weakLock 0)
      (@PairedReachable.step Nat soleState liveState (.weakFromShared 0)
        (@PairedReachable.step Nat State.init soleState (.makeShared 7)
          PairedReachable.init rfl rfl) rfl rfl) rfl rfl)
     (by decide)⟩

/-- C16. In a reachable state the weak count of every allocated block is the number of
live `WeakPtr` objects that point to it. And for a block `b` that is allocated before
and after: constructing a `WeakPtr` from a `SharedPtr` of `b` or copying a `WeakPtr` of
`b` makes the weak count one more; moving a `WeakPtr` leaves it; destroying a `WeakPtr`
of `b` or calling `Reset()` on it makes it one less. -/
theorem C16_weak_count_is_number_of_observers {s : State T} (hr : Reachable s) {b : Nat}
    {c : ControlBlock T} (hc : s.heap[b]? = some c) (hfree : c.freed = false) :
    c.wp_cnt_ref_ = s.observers b ∧
    ∀ (s' : State T) (c' : ControlBlock T),
      Fits s → s'.heap[b]? = some c' → c'.freed = false →
      (∀ i x, s.shared[i]? = some x → x.block_ = some b → s.weakFromShared i = .ok s' →
        c'.wp_cnt_ref_ = c.wp_cnt_ref_ + 1) ∧
      (∀ j w, s.weak[j]? = some w → w.block_ = some b → s.weakCopy j = .ok s' →
        c'.wp_cnt_ref_ = c.wp_cnt_ref_ + 1) ∧
      (∀ j, s.weakMove j = .ok s' → c'.wp_cnt_ref_ = c.wp_cnt_ref_) ∧
      (∀ j w, s.weak[j]? = some w → w.block_ = some b → s.weakDtor j = .ok s' →
        c'.wp_cnt_ref_ + 1 = c.wp_cnt_ref_) ∧
      (∀ j w, s.weak[j]? = some w → w.block_ = some b → s.weakReset j = .ok s' →
        c'.wp_cnt_ref_ + 1 = c.wp_cnt_ref_) := by
  have hs := hr.inv
  have hwp : c.wp_cnt_ref_ = s.observers b := ((hs.blocks b c hc).live hfree).2
  refine ⟨hwp, ?_⟩
  intro s' c' hf hc' hfree'
  have key : Inv s' → c'.wp_cnt_ref_ = s'.observers b := fun hs' =>
    ((hs'.blocks b c' hc').live hfree').2
  refine ⟨?_, ?_, ?_, ?_, ?_⟩
  · intro i x hx hb h
    obtain ⟨y, hy, hwk, -⟩ := weakFromShared_shape h
    rw [hx] at hy; cases hy
    rw [key (hs.weakFromShared hf h), hwp, observers_append hwk b]
    simp [hb]
  · intro j w hw hb h
    obtain ⟨y, hy, hwk, -⟩ := weakCopy_shape h
    rw [hw] at hy; cases hy
    rw [key (hs.weakCopy hf h), hwp, observers_append hwk b]
    simp [hb]
  · intro j h
    obtain ⟨w, hw, hwk, -, -⟩ := weakMove_shape h
    rw [key (hs.weakMove hf h), hwp]
    have h1 := observers_set (s := s) (t := { s with weak := s.weak.set j WeakPtr.empty })
      rfl hw b
    have h2 := observers_append (s := { s with weak := s.weak.set j WeakPtr.empty })
      (t := s') (w := w) hwk b
    simp [WeakPtr.empty] at h1 h2
    omega
  · intro j w hw hb h
    obtain ⟨y, hy, hwk, -⟩ := weakDtor_shape h
    rw [hw] at hy; cases hy
    rw [key (hs.weakDtor h), hwp]
    have := observers_eraseIdx hwk hw b
    simpa [hb] using this
  · intro j w hw hb h
    obtain ⟨y, hy, hwk, -⟩ := weakReset_shape h
    rw [hw] at hy; cases hy
    rw [key (hs.weakReset h), hwp]
    have := observers_set hwk hw b
    simpa [hb, WeakPtr.empty] using this

theorem C16_witness :
    Reachable liveState ∧
    liveState.heap[0]? = some ⟨1, 1, .holder 7, 0, 0, false⟩ ∧
    (1 : Nat) = liveState.observers 0 ∧
    liveState.weakCopy 0
      = .ok { heap := [⟨1, 2, .holder 7, 0, 0, false⟩], shared := liveState.shared,
              weak := [⟨some (Addr.storage 0), some 0⟩, ⟨some (Addr.storage 0), some 0⟩],
              thrown := 0 } ∧
    liveState.weakReset 0
      = .ok { heap := [⟨1, 0, .holder 7, 0, 0, false⟩], shared := liveState.shared,
              weak := [WeakPtr.empty], thrown := 0 } ∧
    liveState.weakDtor 0
      = .ok { heap := [⟨1, 0, .holder 7, 0, 0, false⟩], shared := liveState.shared,
              weak := [], thrown := 0 } :=
  ⟨liveState_reachable, rfl,
   (C16_weak_count_is_number_of_observers liveState_reachable
      (b := 0) (c := ⟨1, 1, .holder 7, 0, 0, false⟩) rfl rfl).1,
   rfl, rfl, rfl⟩

/-! ## Frame properties of the store -/

theorem map_store_same {β : Type} (f : ControlBlock T → β) {h : Heap T} {b : Nat}
    {c c' : ControlBlock T} (hget : h[b]? = some c) (hf : f c' = f c) :
    (h.store b c').map f = h.map f := by
  have : (h.map f)[b]? = some (f c) := by simp [hget]
  simp only [Heap.store, List.map_set, hf]
  exact list_set_self this

theorem store_load_frame {β : Type} (f : ControlBlock T → β) {h : Heap T} {b : Nat}
    {c c' : ControlBlock T} (hload : h.load b = some c) (hf : f c' = f c) :
    (h.store b c').map f = h.map f :=
  map_store_same f (load_eq_some.mp hload).1 hf

theorem weakCopy_strong {h h' : Heap T} {x w : WeakPtr}
    (hc : WeakPtr.copy h x = some (h', w)) :
    h'.map ControlBlock.strongPart = h.map ControlBlock.strongPart := by
  cases hb : x.block_ with
  | none =>
    simp [WeakPtr.copy, hb] at hc
    rw [← hc.1]
  | some b =>
    cases hl : h.load b with
    | none => simp [WeakPtr.copy, hb, hl] at hc
    | some c =>
      simp [WeakPtr.copy, hb, hl] at hc
      rw [← hc.1]
      exact store_load_frame _ hl (by simp [ControlBlock.strongPart, ControlBlock.weakPart])

theorem weakFromShared_strong {h h' : Heap T} {x : SharedPtr} {w : WeakPtr}
    (hc : WeakPtr.fromShared h x = some (h', w)) :
    h'.map ControlBlock.strongPart = h.map ControlBlock.strongPart := by
  cases hb : x.block_ with
  | none =>
    simp [WeakPtr.fromShared, SharedPtr.GetBlock, hb] at hc
    rw [← hc.1]
  | some b =>
    cases hl : h.load b with
    | none => simp [WeakPtr.fromShared, SharedPtr.GetBlock, hb, hl] at hc
    | some c =>
      simp [WeakPtr.fromShared, SharedPtr.GetBlock, hb, hl] at hc
      rw [← hc.1]
      exact store_load_frame _ hl (by simp [ControlBlock.strongPart, ControlBlock.weakPart])

theorem weakReset_strong {h h' : Heap T} {x w : WeakPtr}
    (hc : WeakPtr.Reset h x = some (h', w)) :
    h'.map ControlBlock.strongPart = h.map ControlBlock.strongPart := by
  cases hb : x.block_ with
  | none =>
    simp [WeakPtr.Reset, hb] at hc
    rw [← hc.1]
  | some b =>
    cases hl : h.load b with
    | none => simp [WeakPtr.Reset, hb, hl] at hc
    | some c =>
      simp [WeakPtr.Reset, hb, hl] at hc
      rw [← hc.1]
      exact store_load_frame _ hl (by simp [ControlBlock.strongPart, ControlBlock.weakPart])

theorem weakDtor_strong {h h' : Heap T} {x : WeakPtr}
    (hc : WeakPtr.dtor h x = some h') :
    h'.map ControlBlock.strongPart = h.map ControlBlock.strongPart := by
  cases hb : x.block_ with
  | none =>
    simp [WeakPtr.dtor, hb] at hc
    rw [← hc]
  | some b =>
    cases hl : h.load b with
    | none => simp [WeakPtr.dtor, hb, hl] at hc
    | some c =>
      simp only [WeakPtr.dtor, hb, hl, Option.bind_eq_bind, Option.some_bind] at hc
      split at hc <;> [skip; split at hc] <;>
      · simp at hc
        rw [← hc]
        exact store_load_frame _ hl (by simp [ControlBlock.strongPart, ControlBlock.weakPart])

theorem sharedCopy_weak {h h' : Heap T} {x y : SharedPtr}
    (hc : SharedPtr.copy h x = some (h', y)) :
    h'.map ControlBlock.weakPart = h.map ControlBlock.weakPart := by
  cases hb : x.block_ with
  | none =>
    simp [SharedPtr.copy, hb] at hc
    rw [← hc.1]
  | some b =>
    cases hl : h.load b with
    | none => simp [SharedPtr.copy, hb, hl] at hc
    | some c =>
      simp [SharedPtr.copy, hb, hl] at hc
      rw [← hc.1]
      exact store_load_frame _ hl (by simp [ControlBlock.strongPart, ControlBlock.weakPart])

theorem sharedAliasing_weak {h h' : Heap T} {x y : SharedPtr} {p : Ptr}
    (hc : SharedPtr.aliasing h x p = some (h', y)) :
    h'.map ControlBlock.weakPart = h.map ControlBlock.weakPart := by
  cases hb : x.block_ with
  | none =>
    simp [SharedPtr.aliasing, hb] at hc
    rw [← hc.1]
  | some b =>
    cases hl : h.load b with
    | none => simp [SharedPtr.aliasing, hb, hl] at hc
    | some c =>
      simp [SharedPtr.aliasing, hb, hl] at hc
      rw [← hc.1]
      exact store_load_frame _ hl (by simp [ControlBlock.strongPart, ControlBlock.weakPart])

theorem weakCopy_frame {s s' : State T} {j : Nat} (h : s.weakCopy j = .ok s') :
    s'.heap.map ControlBlock.strongPart = s.heap.map ControlBlock.strongPart := by
  unfold State.weakCopy at h
  cases hx : s.weak[j]? with
  | none => simp [hx] at h
  | some x =>
    simp only [hx] at h
    cases hc : WeakPtr.copy s.heap x with
    | none => simp [hc] at h
    | some r =>
      obtain ⟨h', w⟩ := r
      simp [hc] at h
      subst h
      exact weakCopy_strong hc

theorem weakFromShared_frame {s s' : State T} {i : Nat} (h : s.weakFromShared i = .ok s') :
    s'.heap.map ControlBlock.strongPart = s.heap.map ControlBlock.strongPart := by
  unfold State.weakFromShared at h
  cases hx : s.shared[i]? with
  | none => simp [hx] at h
  | some x =>
    simp only [hx] at h
    cases hc : WeakPtr.fromShared s.heap x with
    | none => simp [hc] at h
    | some r =>
      obtain ⟨h', w⟩ := r
      simp [hc] at h
      subst h
      exact weakFromShared_strong hc

theorem weakReset_frame {s s' : State T} {j : Nat} (h : s.weakReset j = .ok s') :
    s'.heap.map ControlBlock.strongPart = s.heap.map ControlBlock.strongPart := by
  unfold State.weakReset at h
  cases hx : s.weak[j]? with
  | none => simp [hx] at h
  | some x =>
    simp only [hx] at h
    cases hc : WeakPtr.Reset s.heap x with
    | none => simp [hc] at h
    | some r =>
      obtain ⟨h', w⟩ := r
      simp [hc] at h
      subst h
      exact weakReset_strong hc

theorem weakDtor_frame {s s' : State T} {j : Nat} (h : s.weakDtor j = .ok s') :
    s'.heap.map ControlBlock.strongPart = s.heap.map ControlBlock.strongPart := by
  unfold State.weakDtor at h
  cases hx : s.weak[j]? with
  | none => simp [hx] at h
  | some x =>
    simp only [hx] at h
    cases hc : WeakPtr.dtor s.heap x with
    | none => simp [hc] at h
    | some h' =>
      simp [hc] at h
      subst h
      exact weakDtor_strong hc

theorem weakSwap_frame {s s' : State T} {j k : Nat} (h : s.weakSwap j k = .ok s') :
    s'.heap.map ControlBlock.strongPart = s.heap.map ControlBlock.strongPart := by
  obtain ⟨x, y, -, -, -, -, hh⟩ := weakSwap_shape h
  rw [hh]

theorem weakMove_frame {s s' : State T} {j : Nat} (h : s.weakMove j = .ok s') :
    s'.heap.map ControlBlock.strongPart = s.heap.map ControlBlock.strongPart := by
  obtain ⟨x, -, -, -, hh⟩ := weakMove_shape h
  rw [hh]

theorem sharedCopy_frame {s s' : State T} {i : Nat} (h : s.sharedCopy i = .ok s') :
    s'.heap.map ControlBlock.weakPart = s.heap.map ControlBlock.weakPart := by
  unfold State.sharedCopy at h
  cases hx : s.shared[i]? with
  | none => simp [hx] at h
  | some x =>
    simp only [hx] at h
    cases hc : SharedPtr.copy s.heap x with
    | none => simp [hc] at h
    | some r =>
      obtain ⟨h', w⟩ := r
      simp [hc] at h
      subst h
      exact sharedCopy_weak hc

theorem sharedAliasing_frame {s s' : State T} {i : Nat} {p : Ptr}
    (h : s.sharedAliasing i p = .ok s') :
    s'.heap.map ControlBlock.weakPart = s.heap.map ControlBlock.weakPart := by
  unfold State.sharedAliasing at h
  cases hx : s.shared[i]? with
  | none => simp [hx] at h
  | some x =>
    simp only [hx] at h
    cases hc : SharedPtr.aliasing s.heap x p with
    | none => simp [hc] at h
    | some r =>
      obtain ⟨h', w⟩ := r
      simp [hc] at h
      subst h
      exact sharedAliasing_weak hc

theorem weakOp_frame {s s' : State T} {op : Op T} (hop : op.isWeakOp = true)
    (h : step s op = .ok s') :
    s'.heap.map ControlBlock.strongPart = s.heap.map ControlBlock.strongPart := by
  cases op <;> simp [Op.isWeakOp] at hop
  case weakDefault =>
    simp [step, State.weakDefault] at h
    subst h
    rfl
  case weakCopy j => exact weakCopy_frame h
  case weakFromShared i => exact weakFromShared_frame h
  case weakMove j => exact weakMove_frame h
  case weakAssign j k =>
    obtain ⟨s1, h1, h⟩ := bind_eq_ok.mp h
    obtain ⟨s2, h2, h3⟩ := bind_eq_ok.mp h
    rw [weakDtor_frame h3, weakSwap_frame h2, weakCopy_frame h1]
  case weakAssignShared j i =>
    obtain ⟨s1, h1, h⟩ := bind_eq_ok.mp h
    obtain ⟨s2, h2, h3⟩ := bind_eq_ok.mp h
    rw [weakDtor_frame h3, weakSwap_frame h2, weakFromShared_frame h1]
  case weakMoveAssign j k =>
    obtain ⟨s1, h1, h⟩ := bind_eq_ok.mp h
    obtain ⟨s2, h2, h3⟩ := bind_eq_ok.mp h
    rw [weakDtor_frame h3, weakSwap_frame h2, weakMove_frame h1]
  case weakDtor j => exact weakDtor_frame h
  case weakReset j => exact weakReset_frame h
  case weakSwap j k => exact weakSwap_frame h

/-- C18. For every state and every operation that returns: an operation of `WeakPtr`
other than `Lock()` (construction, also from a `SharedPtr`, copy, move, the
assignments, `Reset()`, `Swap`, destruction) leaves, block by block, the strong count,
the number of `DeleteObj()` calls and the number of payload destructions as they were;
`SharedPtr` copy, move, aliasing construction and `Swap` leave every weak count as it
was; and an operation with a `WeakPtr` operand that changes the strong side of some
block is `Lock()` or the promoting constructor. -/
theorem C18_weak_and_strong_sides_are_separate (s s' : State T) (op : Op T)
    (h : step s op = .ok s') :
    (op.isWeakOp = true →
      s'.heap.map ControlBlock.strongPart = s.heap.map ControlBlock.strongPart) ∧
    (op.isSharedCopyMoveSwap = true →
      s'.heap.map ControlBlock.weakPart = s.heap.map ControlBlock.weakPart) ∧
    (op.hasWeakOperand = true →
      s'.heap.map ControlBlock.strongPart ≠ s.heap.map ControlBlock.strongPart →
      ∃ j, op = .sharedFromWeak j ∨ op = .weakLock j) := by
  refine ⟨fun hop => weakOp_frame hop h, ?_, ?_⟩
  · intro hop
    cases op <;> simp [Op.isSharedCopyMoveSwap] at hop
    case sharedCopy i => exact sharedCopy_frame h
    case sharedMove i =>
      obtain ⟨x, -, -, -, hh⟩ := sharedMove_shape h
      rw [hh]
    case sharedAliasing i p => exact sharedAliasing_frame h
    case sharedSwap i j =>
      obtain ⟨x, y, -, -, -, -, hh⟩ := sharedSwap_shape h
      rw [hh]
  · intro hop hne
    by_cases hw : op.isWeakOp = true
    · exact absurd (weakOp_frame hw h) hne
    · cases op <;> simp [Op.hasWeakOperand, Op.isWeakOp] at hop hw ⊢

theorem C18_witness :
    step liveState (.weakCopy 0)
      = .ok { heap := [⟨1, 2, .holder 7, 0, 0, false⟩], shared := liveState.shared,
              weak := [⟨some (Addr.storage 0), some 0⟩, ⟨some (Addr.storage 0), some 0⟩],
              thrown := 0 } ∧
    ([⟨1, 2, .holder 7, 0, 0, false⟩] : Heap Nat).map ControlBlock.strongPart
      = liveState.heap.map ControlBlock.strongPart ∧
    step liveState (.weakLock 0) = .ok lockedState ∧
    lockedState.heap.map ControlBlock.strongPart = [(2, 0, 0)] ∧
    liveState.heap.map ControlBlock.strongPart = [(1, 0, 0)] :=
  ⟨rfl,
   (C18_weak_and_strong_sides_are_separate liveState
      { heap := [⟨1, 2, .holder 7, 0, 0, false⟩], shared := liveState.shared,
        weak := [⟨some (Addr.storage 0), some 0⟩, ⟨some (Addr.storage 0), some 0⟩],
        thrown := 0 } (.weakCopy 0) rfl).1 rfl,
   rfl, rfl, rfl⟩

/-! ## Exclusive ownership -/

/-- C19. For every `UniquePtr` `u`: `Release()` returns the pointer `u` held, leaves
`u.Get()` null and the boolean test false, and disposes of nothing. Move construction
of `v` from `u` gives `v.Get()` the pointer `u` held and leaves `u.Get()` null, again
disposing of nothing, so when that pointer is not null `v` holds it and `u` does not. -/
theorem C19_release_hands_over_pointer {D : Type} (m : Disposed) (u : UniquePtr D) :
    (u.Release m).2.1 = u.Get ∧
    (u.Release m).2.2.Get = none ∧
    (u.Release m).2.2.toBool = false ∧
    (u.Release m).1 = m ∧
    (u.moveCtor m).2.1.Get = u.Get ∧
    (u.moveCtor m).2.2.Get = none ∧
    (u.moveCtor m).2.2.toBool = false ∧
    (u.moveCtor m).1 = m ∧
    (u.Get ≠ none → (u.moveCtor m).2.2.Get ≠ (u.moveCtor m).2.1.Get) := by
  refine ⟨rfl, rfl, rfl, rfl, rfl, rfl, rfl, rfl, ?_⟩
  intro hp heq
  have h1 : (u.moveCtor m).2.2.Get = none := rfl
  have h2 : (u.moveCtor m).2.1.Get = u.Get := rfl
  rw [h1, h2] at heq
  exact hp heq.symm

theorem C19_witness :
    (UniquePtr.Release [] (UniquePtr.ofPtr (some (Addr.external 4)) ())).2.1
      = some (Addr.external 4) ∧
    (UniquePtr.Release [] (UniquePtr.ofPtr (some (Addr.external 4)) ())).2.2.Get = none ∧
    (UniquePtr.Release [] (UniquePtr.ofPtr (some (Addr.external 4)) ())).1 = [] ∧
    UniquePtr.moveCtor [] (UniquePtr.ofPtr (some (Addr.external 4)) ())
      = ([], UniquePtr.ofPtr (some (Addr.external 4)) (), UniquePtr.ofPtr none ()) ∧
    (UniquePtr.moveCtor [] (UniquePtr.ofPtr (some (Addr.external 4)) ())).2.2.Get
      ≠ (UniquePtr.moveCtor [] (UniquePtr.ofPtr (some (Addr.external 4)) ())).2.1.Get :=
  ⟨(C19_release_hands_over_pointer [] (UniquePtr.ofPtr (some (Addr.external 4)) ())).1,
   rfl, rfl, rfl,
   (C19_release_hands_over_pointer [] (UniquePtr.ofPtr (some (Addr.external 4)) ())).2.2.2.2.2.2.2.2
     (by decide)⟩

end SmartPointers
